import Mathlib

/-!
# GPL2ASE: GIMP palette (.gpl) to Adobe swatch exchange (.ase) converter

A shallow embedding of `palette.h`, `AseWriter.c` and `GPL2ASE.c`, followed by
theorems about the archive encoder and the palette parser.

Conventions of the embedding.

* A byte is a `Nat` below 256; the archive is a `List Nat` in file order.
* A C `int`/`int32_t` value is an `Int`; a 32-bit word held in memory is the `Nat`
  below `2 ^ 32` of its two's-complement bit pattern.
* `float` and `long double` values are exact rationals.  A `float` operation
  (`(float)red`, the division by 255) rounds its exact result to the nearest
  binary32 value, ties to even (`roundSingle`).  The operations `pack754` performs
  in `long double` (halving, doubling, subtracting one, the final product) are
  carried out exactly.
* The two `while` loops of `pack754` take a fuel argument; running out of fuel is
  `none`.
* Behaviour that C leaves undefined (a buffer overrun in `sprintf`, a shift of a
  negative operand, an array access past `MAX_PALETTE_COLORS`, `atoi(NULL)`) is a
  separate result, never a value.
* An input file is a `List Char`, one `Char` per byte.
-/

namespace GPL2ASE

/-! ## palette.h -/

/-- Source: `#define MAX_PALETTE_COLORS 2048` -/
def MAX_PALETTE_COLORS : Nat := 2048

/-- Source: `struct paletteColorT`: three `int` channels. -/
structure paletteColorT where
  r : Int
  g : Int
  b : Int
  deriving DecidableEq, Repr

/-- Source: `struct paletteT`: the colour count and the array `colors[MAX_PALETTE_COLORS]`,
as a function of the index (only indices below `MAX_PALETTE_COLORS` exist). -/
structure paletteT where
  numColors : Int
  colors : Nat → paletteColorT

/-! ## AseWriter.c: constants -/

/-- Source: `#define COLOR_START "\x00\x01"` -/
def COLOR_START : List Nat := [0x00, 0x01]

/-- Source: `#define RGB_PAL_LENGTH "\x00\x00\x00\x22"` -/
def RGB_PAL_LENGTH : List Nat := [0x00, 0x00, 0x00, 0x22]

/-- Source: `#define STR_TERMINATE "\x00\x00"` -/
def STR_TERMINATE : List Nat := [0x00, 0x00]

/-- Source: `#define COLOR_HEXCODE_LENGTH "\x00\x07"` -/
def COLOR_HEXCODE_LENGTH : List Nat := [0x00, 0x07]

/-- Source: `#define VERSION "\x00\x01\x00\x00"` -/
def VERSION : List Nat := [0x00, 0x01, 0x00, 0x00]

/-! ## The model of `float` arithmetic -/

/-- The number of halvings that bring `n` below 2, at most `fuel` of them. -/
def log2Aux : Nat → Nat → Nat
  | 0, _ => 0
  | fuel + 1, n => if 2 ≤ n then log2Aux fuel (n / 2) + 1 else 0

/-- The binary logarithm of a positive natural number, rounded down. -/
def natLog2 (n : Nat) : Nat := log2Aux n n

/-- The exponent of a non-zero rational: the `e` with `2 ^ e ≤ |x| < 2 ^ (e + 1)`. -/
def ilog2 (x : ℚ) : Int :=
  let d : Int := (natLog2 x.num.natAbs : Int) - (natLog2 x.den : Int)
  if (2 : ℚ) ^ d ≤ |x| then d else d - 1

/-- Rounding of a rational to the nearest integer, ties to the even one. -/
def roundHalfEven (q : ℚ) : Int :=
  let f : Int := ⌊q⌋
  let r : ℚ := q - f
  if r < 1 / 2 then f
  else if 1 / 2 < r then f + 1
  else if f % 2 = 0 then f else f + 1

/-- Rounding of a rational to binary32: 24 significant bits, exponent at least
`-126` (below that the spacing stays `2 ^ (-149)`), nearest value, ties to even.
Overflow to infinity is not modelled; the values of this program stay below
`2 ^ 32`. -/
def roundSingle (x : ℚ) : ℚ :=
  if x = 0 then 0
  else
    let e : Int := max (ilog2 x) (-126)
    (roundHalfEven (x / (2 : ℚ) ^ (e - 23)) : ℚ) * (2 : ℚ) ^ (e - 23)

/-- The conversion of a `long double` to `long long`: truncation toward zero. -/
def trunc (q : ℚ) : Int := if 0 ≤ q then ⌊q⌋ else ⌈q⌉

/-! ## AseWriter.c: pack754 -/

/-- Source: `while(fnorm >= 2.0) { fnorm /= 2.0; shift++; }` -/
def normDown : Nat → ℚ → Int → Option (ℚ × Int)
  | 0, _, _ => none
  | fuel + 1, fnorm, shift =>
    if fnorm ≥ 2 then normDown fuel (fnorm / 2) (shift + 1) else some (fnorm, shift)

/-- Source: `while(fnorm < 1.0) { fnorm *= 2.0; shift--; }` -/
def normUp : Nat → ℚ → Int → Option (ℚ × Int)
  | 0, _, _ => none
  | fuel + 1, fnorm, shift =>
    if fnorm < 1 then normUp fuel (fnorm * 2) (shift - 1) else some (fnorm, shift)

/-- Source: `pack754(f, bits, expbits)`.  The result is `none` when a loop runs out of fuel
or when a negative `exp` would be shifted left.  The factor
`(1LL<<significandbits) + 0.5f` is taken exactly. -/
def pack754 (fuel : Nat) (f : ℚ) (bits expbits : Nat) : Option Nat :=
  let significandbits : Nat := bits - expbits - 1
  if f = 0 then some 0
  else
    let sign : Nat := if f < 0 then 1 else 0
    let fnorm0 : ℚ := if f < 0 then -f else f
    match normDown fuel fnorm0 0 with
    | none => none
    | some (fnorm1, shift1) =>
      match normUp fuel fnorm1 shift1 with
      | none => none
      | some (fnorm2, shift2) =>
        let fnorm : ℚ := fnorm2 - 1
        let significand : Int := trunc (fnorm * (((1 <<< significandbits : Nat) : ℚ) + 1 / 2))
        let exp : Int := shift2 + (((1 <<< (expbits - 1) : Nat) : Int) - 1)
        if exp < 0 ∨ significand < 0 then none
        else
          some ((sign <<< (bits - 1)) ||| (exp.toNat <<< (bits - expbits - 1))
            ||| significand.toNat)

/-- Source: `#define pack754_32(f) (pack754((f), 32, 8))` -/
def pack754_32 (fuel : Nat) (f : ℚ) : Option Nat := pack754 fuel f 32 8

/-! ## AseWriter.c: byte order -/

/-- The four bytes of a 32-bit word in memory, lowest address first, on a
little-endian (`le = true`) or big-endian host.  This is what
`fwrite(&word, 4, 1, fp)` appends to the file. -/
def storeInt32 (le : Bool) (v : Nat) : List Nat :=
  if le then [v % 256, v / 2 ^ 8 % 256, v / 2 ^ 16 % 256, v / 2 ^ 24 % 256]
  else [v / 2 ^ 24 % 256, v / 2 ^ 16 % 256, v / 2 ^ 8 % 256, v % 256]

/-- Source: `machineIsLittleEndian()`: the first byte in memory of the word 1. -/
def machineIsLittleEndian (le : Bool) : Nat := (storeInt32 le 1).headD 0

/-- Source: `value >> k` on an `int32_t` bit pattern: the sign bit is replicated. -/
def sar32 (v k : Nat) : Nat :=
  if v < 2 ^ 31 then v >>> k else (v >>> k) ||| ((2 ^ 32 - 1) - (2 ^ (32 - k) - 1))

/-- Source: `value << k` on an `int32_t` bit pattern, modulo `2 ^ 32`. -/
def shl32 (v k : Nat) : Nat := (v <<< k) % 2 ^ 32

/-- Source: `int32ToBigEndian(value)` -/
def int32ToBigEndian (le : Bool) (value : Nat) : Nat :=
  if machineIsLittleEndian le ≠ 0 then
    (sar32 value 24) ||| ((shl32 value 8) &&& 0x00ff0000)
      ||| ((sar32 value 8) &&& 0x0000ff00) ||| (shl32 value 24)
  else value

/-- The bit pattern of an `int` as a 32-bit word. -/
def toBits32 (n : Int) : Nat := (n % 2 ^ 32).toNat

/-- Source: `writeASEHeader(fp, numberOfPalettEntries)` -/
def writeASEHeader (le : Bool) (numberOfPalettEntries : Int) : List Nat :=
  let n : Nat := int32ToBigEndian le (toBits32 numberOfPalettEntries)
  [0x41, 0x53, 0x45, 0x46] ++ VERSION ++ storeInt32 le n

/-! ## AseWriter.c: the colour name -/

/-- The characters `sprintf(hexstring, "%x", value)` produces, without the NUL:
the `int` is read as `unsigned`, lowercase digits, no padding. -/
def sprintfHex (value : Int) : List Nat :=
  (Nat.toDigits 16 (toBits32 value)).map Char.toNat

/-- Source: `createHexString(str, value)`: the four bytes left in `str`.  The local buffer
`hexstring[3]` holds two digits and the NUL; a longer output overruns it
(`none`).  With a single digit, `hexstring[1]` is the NUL. -/
def createHexString (value : Int) : Option (List Nat) :=
  let hexstring : List Nat := sprintfHex value ++ [0]
  if hexstring.length ≤ 3 then
    some [0x00, hexstring.getD 0 0, 0x00, hexstring.getD 1 0]
  else none

/-- Source: `writeRGBColorNameHexString(fp, r, g, b)` -/
def writeRGBColorNameHexString (r g b : Int) : Option (List Nat) :=
  match createHexString r, createHexString g, createHexString b with
  | some hr, some hg, some hb =>
    some (COLOR_HEXCODE_LENGTH ++ hr ++ hg ++ hb ++ STR_TERMINATE)
  | _, _, _ => none

/-! ## AseWriter.c: colour entries and the archive -/

/-- Source: `(float)c / 255` -/
def channelToFloat (c : Int) : ℚ := roundSingle (roundSingle (c : ℚ) / 255)

/-- The `uint32_t` a channel is packed to: `pack754_32` of the quotient, kept
modulo `2 ^ 32`. -/
def packChannel (fuel : Nat) (c : Int) : Option Nat :=
  (pack754_32 fuel (channelToFloat c)).map (fun w => w % 2 ^ 32)

/-- Source: `writeRBGPaletteValue(fp, red, green, blue)`: the bytes appended to the file. -/
def writeRBGPaletteValue (le : Bool) (fuel : Nat) (red green blue : Int) :
    Option (List Nat) :=
  match packChannel fuel red, packChannel fuel green, packChannel fuel blue,
      writeRGBColorNameHexString red green blue with
  | some pr, some pg, some pb, some name =>
    let IEEE754Red : Nat := int32ToBigEndian le pr
    let IEEE754Green : Nat := int32ToBigEndian le pg
    let IEEE754Blue : Nat := int32ToBigEndian le pb
    some (COLOR_START ++ RGB_PAL_LENGTH ++ name ++ [0x52, 0x47, 0x42, 0x20]
      ++ storeInt32 le IEEE754Red ++ storeInt32 le IEEE754Green
      ++ storeInt32 le IEEE754Blue ++ STR_TERMINATE)
  | _, _, _, _ => none

/-- The loop `for(i=0;i<palette->numColors;++i)` of `saveAse`, with `count`
iterations left; reading `colors[i]` past the array is `none`. -/
def writeColors (le : Bool) (fuel : Nat) (colors : Nat → paletteColorT) :
    Nat → Nat → Option (List Nat)
  | 0, _ => some []
  | count + 1, i =>
    if i < MAX_PALETTE_COLORS then
      match writeRBGPaletteValue le fuel (colors i).r (colors i).g (colors i).b,
          writeColors le fuel colors count (i + 1) with
      | some entry, some rest => some (entry ++ rest)
      | _, _ => none
    else none

/-- Source: `saveAse(filename, palette)` on the path where both pointers are non-NULL and
the file opens: the bytes of the file after `fclose`.  (The three early returns
write nothing.) -/
def saveAse (le : Bool) (fuel : Nat) (palette : paletteT) : Option (List Nat) :=
  match writeColors le fuel palette.colors palette.numColors.toNat 0 with
  | some entries => some (writeASEHeader le palette.numColors ++ entries)
  | none => none

/-- A palette holding the colours of a list, in order. -/
def paletteOfList (l : List paletteColorT) : paletteT :=
  { numColors := l.length, colors := fun i => l.getD i ⟨0, 0, 0⟩ }

/-! ## GPL2ASE.c: the C library functions the parser calls -/

/-- The C string held in a buffer: the characters before the first NUL. -/
def cstr (buf : List Char) : List Char := buf.takeWhile (fun c => c ≠ '\x00')

/-- The characters `fgets` reads with room for `k` of them: it stops after a
newline, at the end of the file, or when the room is used up.  The result is
the characters read and the rest of the stream. -/
def fgetsAux : Nat → List Char → List Char × List Char
  | 0, s => ([], s)
  | _ + 1, [] => ([], [])
  | k + 1, c :: s =>
    if c = '\n' then ([c], s) else ((c :: (fgetsAux k s).1), (fgetsAux k s).2)

/-- Source: `fgets(chunk, n, fp)`: `none` is the NULL returned at the end of the file,
otherwise the characters stored in `chunk` (before the NUL) and the rest of the
stream. -/
def fgets (n : Nat) (fp : List Char) : Option (List Char × List Char) :=
  if fp = [] then none else some (fgetsAux (n - 1) fp)

/-- Source: `strncmp(s, t, n) == 0`: the two C strings agree on their first `n`
characters. -/
def strncmpEq (s t : List Char) (n : Nat) : Bool :=
  decide ((cstr s).take n = (cstr t).take n)

/-- Source: `strtok` on the C string `s` (the continuation after a first call when `s`
is the saved rest): leading delimiters are skipped; `none` is NULL; otherwise the
token and the rest after the delimiter that ended it. -/
def strtok (s delim : List Char) : Option (List Char × List Char) :=
  let s1 := s.dropWhile (fun c => decide (c ∈ delim))
  if s1 = [] then none
  else
    some (s1.takeWhile (fun c => !decide (c ∈ delim)),
      (s1.dropWhile (fun c => !decide (c ∈ delim))).drop 1)

/-- Source: `isspace` in the C locale. -/
def isspace (c : Char) : Bool :=
  c = ' ' || c = '\t' || c = '\n' || c = '\x0b' || c = '\x0c' || c = '\r'

/-- The value of a run of decimal digits. -/
def digitsValue (l : List Char) : Nat :=
  l.foldl (fun acc c => 10 * acc + (c.toNat - 48)) 0

/-- Source: `atoi(s)`: white space, an optional sign, then the longest run of digits (no
digits give 0).  A value outside `int` is undefined behaviour (`none`). -/
def atoi (s : List Char) : Option Int :=
  let s1 := s.dropWhile isspace
  let neg : Bool := s1.head? = some '-'
  let s2 := if s1.head? = some '-' ∨ s1.head? = some '+' then s1.drop 1 else s1
  let v : Int := (digitsValue (s2.takeWhile Char.isDigit) : Int)
  let r : Int := if neg then -v else v
  if -2 ^ 31 ≤ r ∧ r < 2 ^ 31 then some r else none

/-! ## GPL2ASE.c: loadGimpPalette -/

/-- How a call of `loadGimpPalette` ends. -/
inductive LoadResult where
  /-- Source: `return 1`, with the palette as the call left it. -/
  | returned (palette : paletteT)
  /-- Source: `exit(1)`: the process ends, the caller gets no palette. -/
  | exited
  /-- Undefined behaviour: `atoi(NULL)`, an `atoi` overflow, a store past the
  array, or a read of the uninitialised `chunk`. -/
  | undefined
  /-- The model ran out of fuel (never the case for `loadGimpPalette`). -/
  | outOfFuel

/-- The assignment `palette->colors[i].r = v`. -/
def setR (p : paletteT) (i : Nat) (v : Int) : paletteT :=
  { p with colors := fun j => if j = i then { p.colors i with r := v } else p.colors j }

/-- The assignment `palette->colors[i].g = v`. -/
def setG (p : paletteT) (i : Nat) (v : Int) : paletteT :=
  { p with colors := fun j => if j = i then { p.colors i with g := v } else p.colors j }

/-- The assignment `palette->colors[i].b = v`. -/
def setB (p : paletteT) (i : Nat) (v : Int) : paletteT :=
  { p with colors := fun j => if j = i then { p.colors i with b := v } else p.colors j }

/-- The body of the `else` branch for one colour line: three `strtok`/`atoi`
pairs with their stores, then the range check.  The result is the palette after
the three stores, or the way the call ends. -/
def parseColorLine (chunk : List Char) (palette : paletteT) (currentColor : Nat) :
    Except LoadResult paletteT :=
  match strtok (cstr chunk) [' ', '\t'] with
  | none => .error .undefined
  | some (tokR, s1) =>
    match atoi tokR with
    | none => .error .undefined
    | some r =>
      if MAX_PALETTE_COLORS ≤ currentColor then .error .undefined
      else
        match strtok s1 [' ', '\t'] with
        | none => .error .undefined
        | some (tokG, s2) =>
          match atoi tokG with
          | none => .error .undefined
          | some g =>
            match strtok s2 [' ', '\t'] with
            | none => .error .undefined
            | some (tokB, _) =>
              match atoi tokB with
              | none => .error .undefined
              | some b =>
                let p := setB (setG (setR palette currentColor r) currentColor g) currentColor b
                if (p.colors currentColor).r < 0 ∨ (p.colors currentColor).r > 255
                    ∨ (p.colors currentColor).g < 0 ∨ (p.colors currentColor).g > 255
                    ∨ (p.colors currentColor).b < 0 ∨ (p.colors currentColor).b > 255 then
                  .error .exited
                else .ok p

/-- One pass of the body of the `while` loop on the line in `chunk`: either the
call ends (`break` followed by `return 1`, `exit(1)`, undefined behaviour), or
the loop goes on with a palette and a value of `currentColor`. -/
def loopBody (chunk : List Char) (palette : paletteT) (currentColor : Nat) :
    Except LoadResult (paletteT × Nat) :=
  if chunk.headD '\x00' ≠ '#' ∧ chunk.headD '\x00' ≠ 'N' ∧ chunk.headD '\x00' ≠ 'C'
      ∧ chunk.headD '\x00' ≠ '\x00' then
    if palette.numColors > (MAX_PALETTE_COLORS : Int) - 1 then .error (.returned palette)
    else
      match parseColorLine chunk palette currentColor with
      | .error e => .error e
      | .ok p => .ok ({ p with numColors := p.numColors + 1 }, currentColor + 1)
  else .ok (palette, currentColor)

/-- The loop `while(fgets(chunk, sizeof(chunk), fp) != NULL)` with the
`fclose`/`return 1` after it. -/
def readLines : Nat → List Char → paletteT → Nat → LoadResult
  | 0, _, _, _ => .outOfFuel
  | fuel + 1, fp, palette, currentColor =>
    match fgets 1048 fp with
    | none => .returned palette
    | some (chunk, fp1) =>
      match loopBody chunk palette currentColor with
      | .error e => e
      | .ok (p, c) => readLines fuel fp1 p c

/-- The header test `strncmp(chunk,"GIMP Palette",sizeof(char)*12)!=0` passes. -/
def headerCheck (chunk : List Char) : Bool :=
  strncmpEq chunk "GIMP Palette".toList 12

/-- Source: `loadGimpPalette(filename, palette)`.  The file is `none` when `fopen` fails.
On an empty file the first `fgets` leaves `chunk` uninitialised and the header
test reads it.  Every pass of the loop consumes a character, so the fuel given
to `readLines` is never used up. -/
def loadGimpPalette (file : Option (List Char)) (palette : paletteT) : LoadResult :=
  match file with
  | none => .exited
  | some fp =>
    match fgets 1048 fp with
    | none => .undefined
    | some (chunk, fp1) =>
      if headerCheck chunk then readLines (fp1.length + 1) fp1 palette 0
      else .exited

/-- The call ended in undefined behaviour. -/
def LoadResult.isUndefined : LoadResult → Bool
  | .undefined => true
  | _ => false

/-- The palette `main` would pass if it had cleared it: no colours. -/
def emptyPalette : paletteT := { numColors := 0, colors := fun _ => ⟨0, 0, 0⟩ }

/-! ## The archive layout in the words of the specification -/

/-- The ASCII code of the lowercase hexadecimal digit of `d < 16`. -/
def hexDigit (d : Nat) : Nat := if d < 10 then 48 + d else 87 + d

/-- A channel value as two lowercase hexadecimal digits, zero-padded. -/
def hex2 (v : Nat) : List Nat := [hexDigit (v / 16), hexDigit (v % 16)]

/-- Each character widened to a 2-byte big-endian code unit. -/
def widen (s : List Nat) : List Nat := s.flatMap (fun c => [0x00, c])

/-- A 32-bit word as four bytes, most significant first. -/
def be32 (n : Nat) : List Nat := [n / 2 ^ 24 % 256, n / 2 ^ 16 % 256, n / 2 ^ 8 % 256, n % 256]

/-- The IEEE-754 binary32 bit pattern of the single nearest to `x`: the sign
bit, the 8-bit exponent biased by 127 and the 23 fraction bits; below
`2 ^ (-126)` the exponent field is 0 and the fraction counts multiples of
`2 ^ (-149)`. -/
def ieee754Single (x : ℚ) : Nat :=
  let y : ℚ := roundSingle x
  let s : Nat := if x < 0 then 1 else 0
  if |y| < (2 : ℚ) ^ (-126 : Int) then s * 2 ^ 31 + (⌊|y| / (2 : ℚ) ^ (-149 : Int)⌋).toNat
  else
    s * 2 ^ 31 + (ilog2 y + 127).toNat * 2 ^ 23
      + (⌊(|y| / (2 : ℚ) ^ (ilog2 y) - 1) * 2 ^ 23⌋).toNat

/-- The value a 32-bit pattern denotes under IEEE-754 binary32 decoding (the
patterns with exponent field 255, infinities and NaNs, denote no number and are
given the value their fields would have). -/
def decodeSingle (w : Nat) : ℚ :=
  let s : Nat := w / 2 ^ 31 % 2
  let e : Nat := w / 2 ^ 23 % 256
  let m : Nat := w % 2 ^ 23
  let mag : ℚ :=
    if e = 0 then (m : ℚ) * (2 : ℚ) ^ (-149 : Int)
    else (1 + (m : ℚ) / 2 ^ 23) * (2 : ℚ) ^ ((e : Int) - 127)
  if s = 1 then -mag else mag

/-- One colour entry as the specification lays it out, without the extra
colour-type field: marker, block length 34, name length 7, the six hex digits
widened, the name terminator, the model tag, the three floats, and the two
closing bytes. -/
def specEntry (c : paletteColorT) : List Nat :=
  [0x00, 0x01] ++ [0x00, 0x00, 0x00, 0x22] ++ [0x00, 0x07]
    ++ widen (hex2 c.r.toNat ++ hex2 c.g.toNat ++ hex2 c.b.toNat) ++ [0x00, 0x00]
    ++ [0x52, 0x47, 0x42, 0x20]
    ++ be32 (ieee754Single ((c.r : ℚ) / 255)) ++ be32 (ieee754Single ((c.g : ℚ) / 255))
    ++ be32 (ieee754Single ((c.b : ℚ) / 255)) ++ [0x00, 0x00]

/-- The archive of a list of colours: signature, version, count, entries. -/
def specArchive (l : List paletteColorT) : List Nat :=
  [0x41, 0x53, 0x45, 0x46] ++ [0x00, 0x01, 0x00, 0x00] ++ be32 l.length ++ l.flatMap specEntry

/-- The 92 bytes of the file-format comment at the top of `AseWriter.c`. -/
def exampleArchive : List Nat :=
  [0x41, 0x53, 0x45, 0x46, 0x00, 0x01, 0x00, 0x00, 0x00, 0x00, 0x00, 0x02, 0x00, 0x01, 0x00, 0x00,
   0x00, 0x22, 0x00, 0x07, 0x00, 0x62, 0x00, 0x38, 0x00, 0x63, 0x00, 0x32, 0x00, 0x62, 0x00, 0x39,
   0x00, 0x00, 0x52, 0x47, 0x42, 0x20, 0x3F, 0x38, 0xB8, 0xB9, 0x3F, 0x42, 0xC2, 0xC3, 0x3F, 0x39,
   0xB9, 0xBA, 0x00, 0x00, 0x00, 0x01, 0x00, 0x00, 0x00, 0x22, 0x00, 0x07, 0x00, 0x33, 0x00, 0x38,
   0x00, 0x32, 0x00, 0x62, 0x00, 0x32, 0x00, 0x36, 0x00, 0x00, 0x52, 0x47, 0x42, 0x20, 0x3E, 0x60,
   0xE0, 0xE1, 0x3E, 0x2C, 0xAC, 0xAD, 0x3E, 0x18, 0x98, 0x99, 0x00, 0x00]

/-- The two-colour palette of the file-format comment. -/
def examplePalette : paletteT := paletteOfList [⟨184, 194, 185⟩, ⟨56, 43, 38⟩]

/-! ## The bytes the encoder writes, in closed form -/

/-- The four bytes `createHexString` leaves for a channel value in 0..255: two
widened digits from 16 on, one widened digit and a NUL unit below. -/
def nameUnits (c : Nat) : List Nat :=
  if c < 16 then [0x00, hexDigit c, 0x00, 0x00] else widen (hex2 c)

/-- The 40 bytes `writeRBGPaletteValue` writes for a colour with channels in
0..255. -/
def entryBytes (c : paletteColorT) : List Nat :=
  [0x00, 0x01] ++ [0x00, 0x00, 0x00, 0x22] ++ [0x00, 0x07]
    ++ (nameUnits c.r.toNat ++ nameUnits c.g.toNat ++ nameUnits c.b.toNat) ++ [0x00, 0x00]
    ++ [0x52, 0x47, 0x42, 0x20]
    ++ (be32 (ieee754Single ((c.r : ℚ) / 255)) ++ be32 (ieee754Single ((c.g : ℚ) / 255))
      ++ be32 (ieee754Single ((c.b : ℚ) / 255))) ++ [0x00, 0x00]

/-- The bytes of an entry before its float fields. -/
def entryHead (c : paletteColorT) : List Nat :=
  [0x00, 0x01] ++ [0x00, 0x00, 0x00, 0x22] ++ [0x00, 0x07]
    ++ (nameUnits c.r.toNat ++ nameUnits c.g.toNat ++ nameUnits c.b.toNat) ++ [0x00, 0x00]
    ++ [0x52, 0x47, 0x42, 0x20]

/-- A colour whose three channels lie in 0..255. -/
def validColor (c : paletteColorT) : Prop :=
  (0 ≤ c.r ∧ c.r ≤ 255) ∧ (0 ≤ c.g ∧ c.g ≤ 255) ∧ (0 ≤ c.b ∧ c.b ≤ 255)

/-! ## Decoding an archive by hand -/

/-- The word four bytes denote, most significant first. -/
def beWord (l : List Nat) : Nat := l.foldl (fun acc b => acc * 256 + b) 0

/-- A float field decoded back to a channel: 255 times the value, rounded to the
nearest integer. -/
def decodeChannel (field : List Nat) : Int :=
  roundHalfEven (255 * decodeSingle (beWord field))

/-- The colours of `n` consecutive 40-byte entries: the float fields sit at
offsets 26, 30 and 34 of each entry. -/
def decodeEntries : Nat → List Nat → Option (List paletteColorT)
  | 0, bytes => if bytes = [] then some [] else none
  | n + 1, bytes =>
    if bytes.length < 40 then none
    else
      (decodeEntries n (bytes.drop 40)).map (fun rest =>
        { r := decodeChannel ((bytes.drop 26).take 4),
          g := decodeChannel ((bytes.drop 30).take 4),
          b := decodeChannel ((bytes.drop 34).take 4) } :: rest)

/-- The colours of an archive: the count is the word at offset 8, the entries
start at offset 12. -/
def decodeArchive (bytes : List Nat) : Option (List paletteColorT) :=
  decodeEntries (beWord ((bytes.drop 8).take 4)) (bytes.drop 12)

/-! ## The palette file grammar in the words of the specification -/

/-- A space or a tab, the separators of a colour line. -/
def isBlank (c : Char) : Bool := c = ' ' || c = '\t'

/-- A decimal integer: a non-empty run of digits. -/
def isDecimal (d : List Char) : Prop := d ≠ [] ∧ ∀ c ∈ d, c.isDigit = true

/-- The parts of a colour line: optional leading blanks, three decimal integers
separated by blanks, and trailing text. -/
structure ColourLine where
  lead : List Char
  red : List Char
  sep1 : List Char
  green : List Char
  sep2 : List Char
  blue : List Char
  trail : List Char

/-- The characters of a colour line, without its line terminator. -/
def ColourLine.text (c : ColourLine) : List Char :=
  c.lead ++ c.red ++ c.sep1 ++ c.green ++ c.sep2 ++ c.blue ++ c.trail

/-- The colour a colour line holds. -/
def ColourLine.color (c : ColourLine) : paletteColorT :=
  { r := (digitsValue c.red : Int), g := (digitsValue c.green : Int),
    b := (digitsValue c.blue : Int) }

/-- A colour line holds three decimal integers in 0..255 separated by spaces
and/or tabs; the trailing text stays on the line and does not go on with a digit. -/
def ColourLine.wellFormed (c : ColourLine) : Prop :=
  (∀ x ∈ c.lead, isBlank x = true)
    ∧ isDecimal c.red ∧ digitsValue c.red ≤ 255
    ∧ c.sep1 ≠ [] ∧ (∀ x ∈ c.sep1, isBlank x = true)
    ∧ isDecimal c.green ∧ digitsValue c.green ≤ 255
    ∧ c.sep2 ≠ [] ∧ (∀ x ∈ c.sep2, isBlank x = true)
    ∧ isDecimal c.blue ∧ digitsValue c.blue ≤ 255
    ∧ '\n' ∉ c.trail ∧ (∀ x, c.trail.head? = some x → x.isDigit = false)

/-- A line after the header: a skipped line, given by its first character and
the rest, or a colour line. -/
inductive GplLine where
  | skip (first : Char) (body : List Char)
  | colour (c : ColourLine)

/-- The characters of a line, without its line terminator. -/
def GplLine.text : GplLine → List Char
  | .skip first body => first :: body
  | .colour c => c.text

/-- A skipped line starts with `#`, `N` or `C`; a colour line is well formed. -/
def GplLine.wellFormed : GplLine → Prop
  | .skip first body => (first = '#' ∨ first = 'N' ∨ first = 'C') ∧ '\n' ∉ body
  | .colour c => c.wellFormed

/-- The colours of the colour lines, in file order. -/
def coloursOf : List GplLine → List paletteColorT
  | [] => []
  | .skip _ _ :: ls => coloursOf ls
  | .colour c :: ls => c.color :: coloursOf ls

/-- Lines written out one after the other, each with its newline. -/
def renderLines : List GplLine → List Char
  | [] => []
  | l :: ls => l.text ++ '\n' :: renderLines ls

/-- A palette file: the header line `GIMP Palette` with whatever follows on it,
the lines, and possibly a last line without a newline. -/
def gplFile (headerTail : List Char) (lines : List GplLine) (last : Option GplLine) :
    List Char :=
  "GIMP Palette".toList ++ headerTail ++ '\n' :: (renderLines lines
    ++ (match last with
      | none => []
      | some l => l.text))

/-- The first line of a file, without its newline. -/
def firstLine (file : List Char) : List Char := file.takeWhile (fun c => c ≠ '\n')

/-- The line terminator of a line in a stream: a newline, or nothing at the end
of the stream. -/
def lineEnd (term rest : List Char) : Prop := term = ['\n'] ∨ (term = [] ∧ rest = [])

/-- The palette after the colour `c` is stored at index `cur` and counted. -/
def pushColor (p : paletteT) (cur : Nat) (c : paletteColorT) : paletteT :=
  { numColors := p.numColors + 1, colors := fun j => if j = cur then c else p.colors j }

/-- The palette after a list of colours is stored from index `cur` on. -/
def pushAll (p : paletteT) (cur : Nat) : List paletteColorT → paletteT
  | [] => p
  | c :: cs => pushAll (pushColor p cur c) (cur + 1) cs

/-! ## Colour lines as `atoi` reads them -/

/-- A token of a colour line the way `atoi` reads it: an optional minus sign,
a run of decimal digits (possibly empty), and the characters after them. -/
structure Token where
  minus : Bool
  digits : List Char
  junk : List Char

/-- The characters of a token. -/
def Token.text (t : Token) : List Char :=
  (if t.minus then ['-'] else []) ++ t.digits ++ t.junk

/-- The value `atoi` gives a token: its digits, negated after a minus sign; no
digits give 0. -/
def Token.value (t : Token) : Int :=
  if t.minus then -(digitsValue t.digits : Int) else (digitsValue t.digits : Int)

/-- The token is not empty, holds no blank, NUL or newline, its digits are
digits with a value that fits an `int`, what follows them does not start with a
digit, and a token without sign and digits does not start with a sign or white
space. -/
def Token.wellFormed (t : Token) : Prop :=
  (∀ c ∈ t.digits, c.isDigit = true) ∧ digitsValue t.digits < 2 ^ 31
    ∧ (∀ c ∈ t.junk, isBlank c = false ∧ c ≠ '\x00' ∧ c ≠ '\n')
    ∧ (∀ x, t.junk.head? = some x → x.isDigit = false)
    ∧ t.text ≠ []
    ∧ (t.minus = false → t.digits = [] →
        ∀ x, t.junk.head? = some x → x ≠ '-' ∧ x ≠ '+' ∧ isspace x = false)

/-- A colour line with arbitrary tokens: optional leading blanks, three tokens
separated by blanks, and trailing text that starts with a blank. -/
structure TokenLine where
  lead : List Char
  t1 : Token
  sep1 : List Char
  t2 : Token
  sep2 : List Char
  t3 : Token
  trail : List Char

/-- The characters of the line, without its line terminator. -/
def TokenLine.text (c : TokenLine) : List Char :=
  c.lead ++ c.t1.text ++ c.sep1 ++ c.t2.text ++ c.sep2 ++ c.t3.text ++ c.trail

/-- The three values `atoi` gives the tokens of the line. -/
def TokenLine.color (c : TokenLine) : paletteColorT :=
  { r := c.t1.value, g := c.t2.value, b := c.t3.value }

/-- The separators are non-empty runs of blanks, the tokens are well formed, the
trailing text stays on the line and starts with a blank, and the line does not
start with `#`, `N` or `C`. -/
def TokenLine.wellFormed (c : TokenLine) : Prop :=
  (∀ x ∈ c.lead, isBlank x = true)
    ∧ c.t1.wellFormed ∧ c.sep1 ≠ [] ∧ (∀ x ∈ c.sep1, isBlank x = true)
    ∧ c.t2.wellFormed ∧ c.sep2 ≠ [] ∧ (∀ x ∈ c.sep2, isBlank x = true)
    ∧ c.t3.wellFormed
    ∧ '\n' ∉ c.trail ∧ (∀ x, c.trail.head? = some x → isBlank x = true)
    ∧ (∀ x, c.text.head? = some x → x ≠ '#' ∧ x ≠ 'N' ∧ x ≠ 'C')

/-- The outcome of a call as data: the colour count and the first `n` colours of
a returned palette. -/
def LoadResult.colours (n : Nat) : LoadResult → Option (Int × List paletteColorT)
  | .returned p => some (p.numColors, (List.range n).map p.colors)
  | _ => none

/-- Source: `main`, from the call of `loadGimpPalette` to the call of `saveAse`
(the argument count test, the file name handling and the messages are left
out).  The palette is the uninitialised local of `main`, the file the contents
of `argv[1]`.  The result is `none` when the process ends inside
`loadGimpPalette`, so that `saveAse` is not reached, and otherwise what `saveAse`
writes. -/
def main (le : Bool) (fuel : Nat) (file : Option (List Char)) (palette : paletteT) :
    Option (Option (List Nat)) :=
  match loadGimpPalette file palette with
  | .returned p => some (saveAse le fuel p)
  | _ => none

/-- The call ended in `exit(1)`. -/
def LoadResult.isExited : LoadResult → Bool
  | .exited => true
  | _ => false

/-- The palette invariant: the count lies between 0 and the capacity, and every
colour below the count has its channels in 0..255. -/
def paletteInv (p : paletteT) : Prop :=
  0 ≤ p.numColors ∧ p.numColors ≤ (MAX_PALETTE_COLORS : Int)
    ∧ ∀ i : Nat, (i : Int) < p.numColors → validColor (p.colors i)

/-- The invariant of the `while` loop: the palette invariant, with `currentColor`
equal to the count. -/
def loopInv (p : paletteT) (currentColor : Nat) : Prop :=
  paletteInv p ∧ (currentColor : Int) = p.numColors

/-! ## The file name of the archive -/

/-- Source: `sprintf(buffer, format)` as `addAseFileEndingIfMmissing` calls it, with a
format and no further argument: ordinary characters are copied, `%%` writes one `%`, and
any other conversion specification, which would read an argument that was not passed, or
a `%` at the end of the format, is undefined behaviour, `none`. -/
def sprintfNoArgs : List Char → Option (List Char)
  | [] => some []
  | [c] => if c = '%' then none else some [c]
  | c :: d :: rest =>
    if c = '%' then
      if d = '%' then (sprintfNoArgs rest).map (List.cons '%') else none
    else (sprintfNoArgs (d :: rest)).map (List.cons c)

/-- Source: `addAseFileEndingIfMmissing(filename, newFilename)` for two non-null
pointers; `filename` is the string without its terminator, `size` the number of bytes
allocated for `newFilename`, and the result the string left in `newFilename`.  The last
four characters are "copied" by `sprintf(fileNameEnding, filename + fileNamelength - 4)`,
which takes them as the format.  Undefined behaviour is `none`: a name shorter than four
characters (the pointer is moved before the string), a conversion in the format, and a
result that does not fit `size` bytes with its terminator. -/
def addAseFileEndingIfMmissing (filename : List Char) (size : Nat) : Option (List Char) :=
  let fileNamelength := filename.length
  if fileNamelength < 4 then none
  else
    let fileNameEndingPosition := fileNamelength - 4
    match sprintfNoArgs (filename.drop fileNameEndingPosition) with
    | none => none
    | some fileNameEnding =>
      let newFilename :=
        if fileNameEnding ≠ ".ase".toList ∧ fileNameEnding ≠ ".ASE".toList then
          filename ++ ".ase".toList
        else filename
      if newFilename.length + 1 ≤ size then some newFilename else none

/-- Source: the allocation in `main`, `malloc((strlen(argv[2])+4)*sizeof(char))`: the
number of bytes `main` provides for the new file name. -/
def paletteNameSize (filename : List Char) : Nat := filename.length + 4

/-! ## The passes of the loop in `loadGimpPalette` -/

/-- The loop of `readLines` with a record of its passes: the line in `chunk`, the
palette and the value of `currentColor` at the start of every pass of the loop body, in
order, and the way the call ends. -/
def readLinesTrace : Nat → List Char → paletteT → Nat
    → List (List Char × paletteT × Nat) × LoadResult
  | 0, _, _, _ => ([], .outOfFuel)
  | fuel + 1, fp, palette, currentColor =>
    match fgets 1048 fp with
    | none => ([], .returned palette)
    | some (chunk, fp1) =>
      match loopBody chunk palette currentColor with
      | .error e => ([(chunk, palette, currentColor)], e)
      | .ok (p, c) =>
        ((chunk, palette, currentColor) :: (readLinesTrace fuel fp1 p c).1,
          (readLinesTrace fuel fp1 p c).2)

/-- Source: `loadGimpPalette(filename, palette)` with the record of the passes of its
loop; no pass is made when `fopen` fails or the header test fails. -/
def loadGimpPaletteTrace (file : Option (List Char)) (palette : paletteT) :
    List (List Char × paletteT × Nat) × LoadResult :=
  match file with
  | none => ([], .exited)
  | some fp =>
    match fgets 1048 fp with
    | none => ([], .undefined)
    | some (chunk, fp1) =>
      if headerCheck chunk then readLinesTrace (fp1.length + 1) fp1 palette 0
      else ([], .exited)

/-- A pass of the loop body gets to the store `palette->colors[currentColor].r = ...`:
the line is not skipped, the capacity test does not leave the loop, and the first
`strtok` and `atoi` have a result to store. -/
def reachesStore (chunk : List Char) (palette : paletteT) : Bool :=
  decide (chunk.headD '\x00' ≠ '#' ∧ chunk.headD '\x00' ≠ 'N' ∧ chunk.headD '\x00' ≠ 'C'
      ∧ chunk.headD '\x00' ≠ '\x00')
    && !decide (palette.numColors > (MAX_PALETTE_COLORS : Int) - 1)
    && match strtok (cstr chunk) [' ', '\t'] with
      | none => false
      | some (tokR, _) => (atoi tokR).isSome

/-- A pass of the loop body stores past the end of `colors[MAX_PALETTE_COLORS]`. -/
def storeOutOfBounds (chunk : List Char) (palette : paletteT) (currentColor : Nat) : Bool :=
  reachesStore chunk palette && decide (MAX_PALETTE_COLORS ≤ currentColor)

/-! ## Theorems: the encoder -/

theorem normDown_mono {fuel fuel' : Nat} {x : ℚ} {s : Int} {r : ℚ × Int}
    (h : normDown fuel x s = some r) (hle : fuel ≤ fuel') : normDown fuel' x s = some r := by
  induction fuel generalizing fuel' x s with
  | zero => simp [normDown] at h
  | succ n ih =>
    obtain ⟨m, rfl⟩ : ∃ m, fuel' = m + 1 := ⟨fuel' - 1, by omega⟩
    simp only [normDown] at h ⊢
    split
    · rename_i hc
      rw [if_pos hc] at h
      exact ih h (by omega)
    · rename_i hc
      rw [if_neg hc] at h
      exact h

theorem normUp_mono {fuel fuel' : Nat} {x : ℚ} {s : Int} {r : ℚ × Int}
    (h : normUp fuel x s = some r) (hle : fuel ≤ fuel') : normUp fuel' x s = some r := by
  induction fuel generalizing fuel' x s with
  | zero => simp [normUp] at h
  | succ n ih =>
    obtain ⟨m, rfl⟩ : ∃ m, fuel' = m + 1 := ⟨fuel' - 1, by omega⟩
    simp only [normUp] at h ⊢
    split
    · rename_i hc
      rw [if_pos hc] at h
      exact ih h (by omega)
    · rename_i hc
      rw [if_neg hc] at h
      exact h

theorem pack754_mono {fuel fuel' : Nat} {f : ℚ} {bits expbits w : Nat}
    (h : pack754 fuel f bits expbits = some w) (hle : fuel ≤ fuel') :
    pack754 fuel' f bits expbits = some w := by
  unfold pack754 at h ⊢
  by_cases hf : f = 0
  · simpa [hf] using h
  · simp only [hf, if_false] at h ⊢
    cases h1 : normDown fuel (if f < 0 then -f else f) 0 with
    | none => simp [h1] at h
    | some r1 =>
      rw [normDown_mono h1 hle]
      rw [h1] at h
      obtain ⟨a, b⟩ := r1
      simp only at h ⊢
      cases h2 : normUp fuel a b with
      | none => simp [h2] at h
      | some r2 =>
        rw [normUp_mono h2 hle]
        rw [h2] at h
        exact h

theorem packChannel_mono {fuel fuel' : Nat} {c : Int} {w : Nat}
    (h : packChannel fuel c = some w) (hle : fuel ≤ fuel') : packChannel fuel' c = some w := by
  unfold packChannel pack754_32 at h ⊢
  cases h1 : pack754 fuel (channelToFloat c) 32 8 with
  | none => simp [h1] at h
  | some v =>
    rw [pack754_mono h1 hle]
    rw [h1] at h
    exact h

set_option maxRecDepth 100000 in
theorem packChannel_table :
    ∀ c < 256, packChannel 9 (c : ℕ) = some (ieee754Single ((c : ℚ) / 255))
      ∧ ieee754Single ((c : ℚ) / 255) < 2 ^ 31 := by
  decide!

theorem packChannel_eq (fuel : Nat) (hf : 9 ≤ fuel) (c : Int) (h0 : 0 ≤ c) (h1 : c ≤ 255) :
    packChannel fuel c = some (ieee754Single ((c : ℚ) / 255)) := by
  obtain ⟨n, rfl⟩ := Int.eq_ofNat_of_zero_le h0
  have hn : n < 256 := by omega
  have := (packChannel_table n hn).1
  simpa using packChannel_mono this hf

theorem ieee754Single_channel_lt (c : Int) (h0 : 0 ≤ c) (h1 : c ≤ 255) :
    ieee754Single ((c : ℚ) / 255) < 2 ^ 31 := by
  obtain ⟨n, rfl⟩ := Int.eq_ofNat_of_zero_le h0
  have hn : n < 256 := by omega
  simpa using (packChannel_table n hn).2

theorem and_byte_mask (x k : Nat) : x &&& (255 * 2 ^ k) = (x / 2 ^ k % 256) * 2 ^ k := by
  apply Nat.eq_of_testBit_eq
  intro i
  have h255 : (255 : Nat) = 2 ^ 8 - 1 := by norm_num
  have h256 : (256 : Nat) = 2 ^ 8 := by norm_num
  rw [Nat.testBit_and, h255, h256, ← Nat.shiftLeft_eq, ← Nat.shiftLeft_eq, Nat.testBit_shiftLeft,
    Nat.testBit_shiftLeft, Nat.testBit_mod_two_pow, Nat.testBit_two_pow_sub_one,
    ← Nat.shiftRight_eq_div_pow, Nat.testBit_shiftRight]
  by_cases hik : k ≤ i
  · have : k + (i - k) = i := by omega
    simp [hik, this, Bool.and_comm]
  · simp [hik]

theorem or_bytes (b0 b1 b2 b3 : Nat) (h1 : b1 < 256) (h2 : b2 < 256) (h3 : b3 < 256) :
    b3 ||| b1 * 2 ^ 16 ||| b2 * 2 ^ 8 ||| b0 * 2 ^ 24
      = b0 * 2 ^ 24 + b1 * 2 ^ 16 + b2 * 2 ^ 8 + b3 := by
  have e1 : 2 ^ 8 * b2 + b3 = 2 ^ 8 * b2 ||| b3 := Nat.mul_add_lt_is_or (by omega) b2
  have e2 : 2 ^ 16 * b1 + (2 ^ 8 * b2 + b3) = 2 ^ 16 * b1 ||| (2 ^ 8 * b2 + b3) :=
    Nat.mul_add_lt_is_or (by omega) b1
  have e3 : 2 ^ 24 * b0 + (2 ^ 16 * b1 + (2 ^ 8 * b2 + b3))
      = 2 ^ 24 * b0 ||| (2 ^ 16 * b1 + (2 ^ 8 * b2 + b3)) :=
    Nat.mul_add_lt_is_or (by omega) b0
  have : b3 ||| b1 * 2 ^ 16 ||| b2 * 2 ^ 8 ||| b0 * 2 ^ 24
      = 2 ^ 24 * b0 ||| (2 ^ 16 * b1 ||| (2 ^ 8 * b2 ||| b3)) := by
    rw [Nat.mul_comm b1, Nat.mul_comm b2, Nat.mul_comm b0]
    rw [Nat.lor_comm _ (2 ^ 24 * b0), Nat.lor_comm b3, Nat.lor_assoc, Nat.lor_comm b3]
  rw [this, ← e1, ← e2, ← e3]
  ring

theorem int32ToBigEndian_le (v : Nat) (hv : v < 2 ^ 31) :
    int32ToBigEndian true v
      = (v % 256) * 2 ^ 24 + (v / 2 ^ 8 % 256) * 2 ^ 16 + (v / 2 ^ 16 % 256) * 2 ^ 8
        + v / 2 ^ 24 := by
  have hm : machineIsLittleEndian true ≠ 0 := by decide
  unfold int32ToBigEndian
  rw [if_pos hm]
  unfold sar32 shl32
  simp only [if_pos hv]
  have m1 : (0x00ff0000 : Nat) = 255 * 2 ^ 16 := by norm_num
  have m2 : (0x0000ff00 : Nat) = 255 * 2 ^ 8 := by norm_num
  rw [m1, m2, and_byte_mask, and_byte_mask, Nat.shiftLeft_eq, Nat.shiftLeft_eq,
    Nat.shiftRight_eq_div_pow, Nat.shiftRight_eq_div_pow]
  have a1 : v * 2 ^ 8 % 2 ^ 32 / 2 ^ 16 % 256 = v / 2 ^ 8 % 256 := by omega
  have a2 : v / 2 ^ 8 / 2 ^ 8 % 256 = v / 2 ^ 16 % 256 := by omega
  have a3 : v * 2 ^ 24 % 2 ^ 32 = (v % 256) * 2 ^ 24 := by omega
  rw [a1, a2, a3]
  have b3 : v / 2 ^ 24 < 256 := by omega
  rw [or_bytes (v % 256) (v / 2 ^ 8 % 256) (v / 2 ^ 16 % 256) (v / 2 ^ 24) (by omega) (by omega) b3]

theorem storeInt32_compose (b0 b1 b2 b3 : Nat) (h0 : b0 < 256) (h1 : b1 < 256)
    (h2 : b2 < 256) (h3 : b3 < 256) :
    storeInt32 true (b0 * 2 ^ 24 + b1 * 2 ^ 16 + b2 * 2 ^ 8 + b3) = [b3, b2, b1, b0] := by
  simp only [storeInt32, if_true]
  congr 1
  · omega
  congr 1
  · omega
  congr 1
  · omega
  congr 1
  omega

theorem store_bigEndian (le : Bool) (v : Nat) (hv : v < 2 ^ 31) :
    storeInt32 le (int32ToBigEndian le v) = be32 v := by
  cases le with
  | false =>
    have hm : ¬ (machineIsLittleEndian false ≠ 0) := by decide
    simp only [int32ToBigEndian, if_neg hm, storeInt32, be32]
    simp
  | true =>
    rw [int32ToBigEndian_le v hv,
      storeInt32_compose _ _ _ _ (Nat.mod_lt _ (by norm_num)) (Nat.mod_lt _ (by norm_num))
        (Nat.mod_lt _ (by norm_num)) (by omega)]
    have : v / 2 ^ 24 % 256 = v / 2 ^ 24 := by omega
    simp only [be32, this]

set_option maxRecDepth 100000 in
theorem createHexString_table :
    ∀ c < 256, createHexString (c : ℕ)
      = some (if c < 16 then [0, hexDigit c, 0, 0] else [0, hexDigit (c / 16), 0, hexDigit (c % 16)]) := by
  decide!

theorem createHexString_two (c : Int) (h0 : 16 ≤ c) (h1 : c ≤ 255) :
    createHexString c = some (widen (hex2 c.toNat)) := by
  obtain ⟨n, rfl⟩ := Int.eq_ofNat_of_zero_le (by omega : 0 ≤ c)
  have hn : n < 256 := by omega
  have h16 : ¬ n < 16 := by omega
  have := createHexString_table n hn
  rw [if_neg h16] at this
  simpa [widen, hex2] using this

theorem writeRBGPaletteValue_eq (le : Bool) (fuel : Nat) (hf : 9 ≤ fuel) (c : paletteColorT)
    (hr : 16 ≤ c.r ∧ c.r ≤ 255) (hg : 16 ≤ c.g ∧ c.g ≤ 255) (hb : 16 ≤ c.b ∧ c.b ≤ 255) :
    writeRBGPaletteValue le fuel c.r c.g c.b = some (specEntry c) := by
  unfold writeRBGPaletteValue writeRGBColorNameHexString
  rw [packChannel_eq fuel hf c.r (by omega) hr.2, packChannel_eq fuel hf c.g (by omega) hg.2,
    packChannel_eq fuel hf c.b (by omega) hb.2, createHexString_two c.r hr.1 hr.2,
    createHexString_two c.g hg.1 hg.2, createHexString_two c.b hb.1 hb.2]
  simp only
  rw [store_bigEndian le _ (ieee754Single_channel_lt c.r (by omega) hr.2),
    store_bigEndian le _ (ieee754Single_channel_lt c.g (by omega) hg.2),
    store_bigEndian le _ (ieee754Single_channel_lt c.b (by omega) hb.2)]
  simp [specEntry, COLOR_START, RGB_PAL_LENGTH, COLOR_HEXCODE_LENGTH, STR_TERMINATE, widen]

theorem writeColors_eq (le : Bool) (fuel : Nat) (hf : 9 ≤ fuel) (colors : Nat → paletteColorT)
    (count i : Nat) (hcap : i + count ≤ 2048)
    (hch : ∀ j, i ≤ j → j < i + count →
      (16 ≤ (colors j).r ∧ (colors j).r ≤ 255) ∧ (16 ≤ (colors j).g ∧ (colors j).g ≤ 255)
        ∧ (16 ≤ (colors j).b ∧ (colors j).b ≤ 255)) :
    writeColors le fuel colors count i
      = some (((List.range' i count).map colors).flatMap specEntry) := by
  induction count generalizing i with
  | zero => simp [writeColors]
  | succ n ih =>
    have hi : i < MAX_PALETTE_COLORS := by unfold MAX_PALETTE_COLORS; omega
    have hc := hch i (le_refl i) (by omega)
    simp only [writeColors, if_pos hi]
    rw [writeRBGPaletteValue_eq le fuel hf (colors i) hc.1 hc.2.1 hc.2.2,
      ih (i + 1) (by omega) (fun j h1 h2 => hch j (by omega) (by omega))]
    simp [List.range'_succ]

theorem writeASEHeader_eq (le : Bool) (N : Nat) (hN : N < 2 ^ 31) :
    writeASEHeader le (N : Int) = [0x41, 0x53, 0x45, 0x46] ++ [0x00, 0x01, 0x00, 0x00] ++ be32 N := by
  have hb : toBits32 (N : Int) = N := by
    unfold toBits32
    omega
  unfold writeASEHeader
  simp only [hb, store_bigEndian le N hN, VERSION]

/-- C1.  For every palette of N colours (0 ≤ N ≤ 2048) with all channels in [16,255] the bytes
`saveAse` writes are the signature, the version, N as a big-endian word and, per colour in
order, the 40-byte entry of the layout (`specArchive`); the two-colour palette of the
file-format comment encodes to exactly the 92 bytes listed there. -/
theorem C1_saveAse_layout (le : Bool) (fuel : Nat) (palette : paletteT) (N : Nat)
    (hfuel : 9 ≤ fuel) (hN : palette.numColors = (N : Int)) (hcap : N ≤ 2048)
    (hch : ∀ i, i < N →
      (16 ≤ (palette.colors i).r ∧ (palette.colors i).r ≤ 255)
        ∧ (16 ≤ (palette.colors i).g ∧ (palette.colors i).g ≤ 255)
        ∧ (16 ≤ (palette.colors i).b ∧ (palette.colors i).b ≤ 255)) :
    saveAse le fuel palette = some (specArchive ((List.range N).map palette.colors))
      ∧ saveAse le fuel examplePalette = some exampleArchive := by
  have key : ∀ (p : paletteT) (M : Nat), p.numColors = (M : Int) → M ≤ 2048 →
      (∀ i, i < M →
        (16 ≤ (p.colors i).r ∧ (p.colors i).r ≤ 255)
          ∧ (16 ≤ (p.colors i).g ∧ (p.colors i).g ≤ 255)
          ∧ (16 ≤ (p.colors i).b ∧ (p.colors i).b ≤ 255)) →
      saveAse le fuel p = some (specArchive ((List.range M).map p.colors)) := by
    intro p M hM hcapM hchM
    unfold saveAse
    rw [hM, Int.toNat_ofNat,
      writeColors_eq le fuel hfuel p.colors M 0 (by omega) (fun j _ h2 => hchM j (by omega))]
    simp only [writeASEHeader_eq le M (by omega), specArchive, List.range_eq_range',
      List.length_map, List.length_range']
  refine ⟨key palette N hN hcap hch, ?_⟩
  have h2 := key examplePalette 2 rfl (by norm_num) (by decide)
  rw [h2]
  decide!

theorem C1_saveAse_layout_witness :
    saveAse true 9 examplePalette
        = some (specArchive ((List.range 2).map examplePalette.colors))
      ∧ saveAse true 9 examplePalette = some exampleArchive :=
  C1_saveAse_layout true 9 examplePalette 2 (by decide) rfl (by decide) (by decide)

/-- C2 (the code at a failing input).  For the channel value 10 `createHexString` leaves
`00 61 00 00`, the single digit `a` and the NUL of `hexstring[1]`, where the zero-padded
form is `00 30 00 61`; for 0 it leaves `00 30 00 00`, so the name of (0,0,0) is written as
`0`, NUL, `0`, NUL, `0`, NUL and not as `000000`. -/
theorem C2_createHexString_single_digit :
    createHexString 10 = some [0x00, 0x61, 0x00, 0x00]
      ∧ widen (hex2 10) = [0x00, 0x30, 0x00, 0x61]
      ∧ createHexString 0 = some [0x00, 0x30, 0x00, 0x00]
      ∧ writeRGBColorNameHexString 0 0 0
        = some [0x00, 0x07, 0x00, 0x30, 0x00, 0x00, 0x00, 0x30, 0x00, 0x00, 0x00, 0x30, 0x00, 0x00,
            0x00, 0x00]
      ∧ COLOR_HEXCODE_LENGTH ++ widen (hex2 0 ++ hex2 0 ++ hex2 0) ++ STR_TERMINATE
        = [0x00, 0x07, 0x00, 0x30, 0x00, 0x30, 0x00, 0x30, 0x00, 0x30, 0x00, 0x30, 0x00, 0x30,
            0x00, 0x00] := by
  decide!

theorem normDown_lt_two (fuel : Nat) (x : ℚ) (s : Int) (hx : x < 2) (hf : 0 < fuel) :
    normDown fuel x s = some (x, s) := by
  obtain ⟨m, rfl⟩ : ∃ m, fuel = m + 1 := ⟨fuel - 1, by omega⟩
  simp [normDown, not_le.mpr hx]

theorem normUp_one_le (fuel : Nat) (x : ℚ) (s : Int) (hx : 1 ≤ x) (hf : 0 < fuel) :
    normUp fuel x s = some (x, s) := by
  obtain ⟨m, rfl⟩ : ∃ m, fuel = m + 1 := ⟨fuel - 1, by omega⟩
  simp [normUp, not_lt.mpr hx]

theorem normDown_pow (k : Nat) : ∀ (fuel : Nat) (x : ℚ) (s : Int), 1 ≤ x → x < 2 → k < fuel →
    normDown fuel (x * 2 ^ k) s = some (x, s + k) := by
  induction k with
  | zero =>
    intro fuel x s _ h2 hf
    simpa using normDown_lt_two fuel x s h2 hf
  | succ k ih =>
    intro fuel x s h1 h2 hf
    obtain ⟨m, rfl⟩ : ∃ m, fuel = m + 1 := ⟨fuel - 1, by omega⟩
    have hp : (1 : ℚ) ≤ 2 ^ k := one_le_pow₀ (by norm_num)
    have hge : x * 2 ^ (k + 1) ≥ 2 := by
      rw [pow_succ]
      nlinarith
    have hdiv : x * 2 ^ (k + 1) / 2 = x * 2 ^ k := by
      rw [pow_succ]
      ring
    simp only [normDown, if_pos hge, hdiv]
    rw [ih m x (s + 1) h1 h2 (by omega)]
    simp only [Nat.cast_add, Nat.cast_one, Option.some.injEq, Prod.mk.injEq, true_and]
    ring

theorem normUp_pow (k : Nat) : ∀ (fuel : Nat) (x : ℚ) (s : Int), 1 ≤ x → x < 2 → k < fuel →
    normUp fuel (x / 2 ^ k) s = some (x, s - k) := by
  induction k with
  | zero =>
    intro fuel x s h1 _ hf
    simpa using normUp_one_le fuel x s h1 hf
  | succ k ih =>
    intro fuel x s h1 h2 hf
    obtain ⟨m, rfl⟩ : ∃ m, fuel = m + 1 := ⟨fuel - 1, by omega⟩
    have hp : (1 : ℚ) ≤ 2 ^ k := one_le_pow₀ (by norm_num)
    have hpos : (0 : ℚ) < 2 ^ (k + 1) := by positivity
    have hlt : x / 2 ^ (k + 1) < 1 := by
      rw [div_lt_one hpos, pow_succ]
      nlinarith
    have hmul : x / 2 ^ (k + 1) * 2 = x / 2 ^ k := by
      rw [pow_succ]
      field_simp
      ring
    simp only [normUp, if_pos hlt, hmul]
    rw [ih m x (s - 1) h1 h2 (by omega)]
    simp only [Nat.cast_add, Nat.cast_one, Option.some.injEq, Prod.mk.injEq, true_and]
    ring

/-- The normalisation of `x * 2 ^ e` with `1 ≤ x < 2`: both loops together return
`x` and `e`. -/
theorem normalise_zpow (fuel : Nat) (x : ℚ) (e : Int) (h1 : 1 ≤ x) (h2 : x < 2)
    (hf : e.natAbs < fuel) :
    ∃ r, normDown fuel (x * (2 : ℚ) ^ e) 0 = some r ∧ normUp fuel r.1 r.2 = some (x, e) := by
  rcases Int.natAbs_eq e with he | he
  · refine ⟨(x, e), ?_, normUp_one_le fuel x e h1 (by omega)⟩
    have : x * (2 : ℚ) ^ e = x * 2 ^ e.natAbs := by
      conv_lhs => rw [he]
      rw [zpow_natCast]
    rw [this, normDown_pow e.natAbs fuel x 0 h1 h2 hf]
    simp only [zero_add, Option.some.injEq, Prod.mk.injEq, true_and]
    exact he.symm
  · have hx : x * (2 : ℚ) ^ e = x / 2 ^ e.natAbs := by
      conv_lhs => rw [he]
      rw [zpow_neg, zpow_natCast]
      rfl
    have hp : (1 : ℚ) ≤ 2 ^ e.natAbs := one_le_pow₀ (by norm_num)
    have hpos : (0 : ℚ) < 2 ^ e.natAbs := by positivity
    have hlt : x / 2 ^ e.natAbs < 2 := by
      rw [div_lt_iff₀ hpos]
      nlinarith
    refine ⟨(x / 2 ^ e.natAbs, 0), ?_, ?_⟩
    · rw [hx]
      exact normDown_lt_two fuel _ 0 hlt (by omega)
    · rw [normUp_pow e.natAbs fuel x 0 h1 h2 hf]
      simp only [zero_sub, Option.some.injEq, Prod.mk.injEq, true_and]
      exact he.symm

theorem trunc_significand (m : Nat) (hm : m < 2 ^ 23) :
    trunc ((m : ℚ) / 2 ^ 23 * (2 ^ 23 + 1 / 2)) = (m : Int) := by
  have hmq : (m : ℚ) < 2 ^ 23 := by exact_mod_cast hm
  have hm0 : (0 : ℚ) ≤ m := Nat.cast_nonneg m
  have hval : (m : ℚ) / 2 ^ 23 * (2 ^ 23 + 1 / 2) = (m : ℚ) + (m : ℚ) / 2 ^ 24 := by
    field_simp
    ring
  rw [hval]
  have hfrac0 : (0 : ℚ) ≤ (m : ℚ) / 2 ^ 24 := by positivity
  have hfrac1 : (m : ℚ) / 2 ^ 24 < 1 := by
    rw [div_lt_one (by positivity)]
    linarith
  unfold trunc
  rw [if_pos (by linarith)]
  rw [Int.floor_eq_iff]
  constructor
  · push_cast
    linarith
  · push_cast
    linarith

theorem or_fields (s E m : Nat) (hE : E < 256) (hm : m < 2 ^ 23) :
    (s <<< 31) ||| (E <<< 23) ||| m = s * 2 ^ 31 + E * 2 ^ 23 + m := by
  have e1 : 2 ^ 23 * E + m = 2 ^ 23 * E ||| m := Nat.mul_add_lt_is_or hm E
  have e2 : 2 ^ 31 * s + (2 ^ 23 * E + m) = 2 ^ 31 * s ||| (2 ^ 23 * E + m) :=
    Nat.mul_add_lt_is_or (by omega) s
  rw [Nat.shiftLeft_eq, Nat.shiftLeft_eq, Nat.lor_assoc, Nat.mul_comm s, Nat.mul_comm E,
    ← e1, ← e2]
  ring

/-- The bit pattern `pack754` returns for a normal single, given its sign, exponent and
fraction. -/
theorem pack754_normal (fuel s m : Nat) (e : Int) (hs : s ≤ 1) (hm : m < 2 ^ 23)
    (he1 : -126 ≤ e) (he2 : e ≤ 127) (hf : e.natAbs < fuel) :
    pack754 fuel ((-1) ^ s * (1 + (m : ℚ) / 2 ^ 23) * (2 : ℚ) ^ e) 32 8
      = some (s * 2 ^ 31 + (e + 127).toNat * 2 ^ 23 + m) := by
  have hm0 : (0 : ℚ) ≤ (m : ℚ) / 2 ^ 23 := by positivity
  have hmq : (m : ℚ) < 2 ^ 23 := by exact_mod_cast hm
  have hm1 : (m : ℚ) / 2 ^ 23 < 1 := by
    rw [div_lt_one (by positivity)]
    exact hmq
  have hx1 : (1 : ℚ) ≤ 1 + (m : ℚ) / 2 ^ 23 := by linarith
  have hx2 : 1 + (m : ℚ) / 2 ^ 23 < 2 := by linarith
  have hpos : (0 : ℚ) < (1 + (m : ℚ) / 2 ^ 23) * (2 : ℚ) ^ e :=
    mul_pos (by linarith) (zpow_pos (by norm_num) e)
  obtain ⟨r, hr1, hr2⟩ := normalise_zpow fuel _ e hx1 hx2 hf
  have hE : ((e + 127).toNat : Int) = e + 127 := Int.toNat_of_nonneg (by omega)
  have h7 : ((1 <<< (8 - 1) : Nat) : Int) = 128 := by norm_num [Nat.shiftLeft_eq]
  have h23 : ((1 <<< (32 - 8 - 1) : Nat) : ℚ) = 2 ^ 23 := by norm_num [Nat.shiftLeft_eq]
  have hx : (1 + (m : ℚ) / 2 ^ 23 - 1 : ℚ) = (m : ℚ) / 2 ^ 23 := by ring
  have hexpv : e + (128 - 1) = e + 127 := by ring
  have hor : ∀ sg : Nat, sg ≤ 1 →
      (sg <<< (32 - 1)) ||| ((e + 127).toNat <<< (32 - 8 - 1)) ||| m
        = sg * 2 ^ 31 + (e + 127).toNat * 2 ^ 23 + m := fun sg _ =>
    or_fields sg (e + 127).toNat m (by omega) hm
  interval_cases s
  · have hf0 : ((-1 : ℚ)) ^ 0 * (1 + (m : ℚ) / 2 ^ 23) * (2 : ℚ) ^ e
        = (1 + (m : ℚ) / 2 ^ 23) * (2 : ℚ) ^ e := by ring
    rw [hf0]
    unfold pack754
    rw [if_neg (ne_of_gt hpos)]
    simp only [if_neg (not_lt.mpr (le_of_lt hpos)), hr1, hr2, h7, h23, hx,
      trunc_significand m hm, hexpv, Int.toNat_ofNat, hor 0 (by norm_num)]
    rw [if_neg (by omega)]
  · have hf1 : ((-1 : ℚ)) ^ 1 * (1 + (m : ℚ) / 2 ^ 23) * (2 : ℚ) ^ e
        = -((1 + (m : ℚ) / 2 ^ 23) * (2 : ℚ) ^ e) := by ring
    rw [hf1]
    unfold pack754
    have hneg : -((1 + (m : ℚ) / 2 ^ 23) * (2 : ℚ) ^ e) < 0 := by linarith
    rw [if_neg (ne_of_lt hneg)]
    simp only [if_pos hneg, neg_neg, hr1, hr2, h7, h23, hx,
      trunc_significand m hm, hexpv, Int.toNat_ofNat, hor 1 (by norm_num)]
    rw [if_neg (by omega)]

theorem decodeSingle_fields (s m : Nat) (e : Int) (hs : s ≤ 1) (hm : m < 2 ^ 23)
    (he1 : -126 ≤ e) (he2 : e ≤ 127) :
    decodeSingle (s * 2 ^ 31 + (e + 127).toNat * 2 ^ 23 + m)
      = (-1) ^ s * (1 + (m : ℚ) / 2 ^ 23) * (2 : ℚ) ^ e := by
  obtain ⟨E, hE⟩ : ∃ E : Nat, (e + 127).toNat = E := ⟨_, rfl⟩
  have hEi : (E : Int) = e + 127 := by
    rw [← hE]
    exact Int.toNat_of_nonneg (by omega)
  have hE1 : 1 ≤ E := by omega
  have hE2 : E ≤ 254 := by omega
  rw [hE]
  have d1 : (s * 2 ^ 31 + E * 2 ^ 23 + m) / 2 ^ 31 % 2 = s := by omega
  have d2 : (s * 2 ^ 31 + E * 2 ^ 23 + m) / 2 ^ 23 % 256 = E := by omega
  have d3 : (s * 2 ^ 31 + E * 2 ^ 23 + m) % 2 ^ 23 = m := by omega
  have hE0 : E ≠ 0 := by omega
  have hexp : (E : Int) - 127 = e := by omega
  unfold decodeSingle
  simp only [d1, d2, d3, if_neg hE0, hexp]
  interval_cases s
  · simp
  · simp only [if_true, pow_one]
    ring

/-- C3.  With fuel for 128 loop passes, `pack754(f, 32, 8)` of the normal single
`f = (-1)^s * (1 + m/2^23) * 2^e` (`s ≤ 1`, `m < 2^23`, `-126 ≤ e ≤ 127`) is
`s*2^31 + (e+127)*2^23 + m`, the pattern that IEEE-754 decoding maps back to `f`;
zero packs to 0, 1.0 to 0x3F800000 and 0.5 to 0x3F000000. -/
theorem C3_pack754_ieee754 (fuel s m : Nat) (e : Int) (hfuel : 128 ≤ fuel) (hs : s ≤ 1)
    (hm : m < 2 ^ 23) (he1 : -126 ≤ e) (he2 : e ≤ 127) :
    pack754 fuel ((-1) ^ s * (1 + (m : ℚ) / 2 ^ 23) * (2 : ℚ) ^ e) 32 8
        = some (s * 2 ^ 31 + (e + 127).toNat * 2 ^ 23 + m)
      ∧ decodeSingle (s * 2 ^ 31 + (e + 127).toNat * 2 ^ 23 + m)
        = (-1) ^ s * (1 + (m : ℚ) / 2 ^ 23) * (2 : ℚ) ^ e
      ∧ pack754 fuel 0 32 8 = some 0
      ∧ pack754 fuel 1 32 8 = some 0x3F800000
      ∧ pack754 fuel (1 / 2) 32 8 = some 0x3F000000 := by
  refine ⟨pack754_normal fuel s m e hs hm he1 he2 (by omega),
    decodeSingle_fields s m e hs hm he1 he2, ?_, ?_, ?_⟩
  · simp [pack754]
  · have h := pack754_normal fuel 0 0 0 (by norm_num) (by norm_num) (by norm_num)
      (by norm_num) (by simp; omega)
    norm_num at h
    exact h
  · have h := pack754_normal fuel 0 0 (-1) (by norm_num) (by norm_num) (by norm_num)
      (by norm_num) (by simp; omega)
    norm_num at h
    exact h

theorem C3_pack754_ieee754_witness :
    pack754 128 ((-1) ^ 1 * (1 + ((4194304 : Nat) : ℚ) / 2 ^ 23) * (2 : ℚ) ^ (3 : Int)) 32 8
        = some (1 * 2 ^ 31 + ((3 : Int) + 127).toNat * 2 ^ 23 + 4194304)
      ∧ decodeSingle (1 * 2 ^ 31 + ((3 : Int) + 127).toNat * 2 ^ 23 + 4194304)
        = (-1) ^ 1 * (1 + ((4194304 : Nat) : ℚ) / 2 ^ 23) * (2 : ℚ) ^ (3 : Int)
      ∧ pack754 128 0 32 8 = some 0
      ∧ pack754 128 1 32 8 = some 0x3F800000
      ∧ pack754 128 (1 / 2) 32 8 = some 0x3F000000 :=
  C3_pack754_ieee754 128 1 4194304 3 (by decide) (by decide) (by decide) (by decide) (by decide)

set_option maxRecDepth 100000 in
theorem decodeChannel_table :
    ∀ c : Nat, c < 256 → 0 ≤ decodeSingle (ieee754Single ((c : ℚ) / 255))
      ∧ decodeSingle (ieee754Single ((c : ℚ) / 255)) ≤ 1
      ∧ roundHalfEven (255 * decodeSingle (ieee754Single ((c : ℚ) / 255))) = (c : Int) := by
  decide!

set_option maxRecDepth 100000 in
/-- The pattern written for a channel decodes exactly to the `float` the encoder computed,
which is within `2 ^ (-25)` of the quotient. -/
theorem channelToFloat_table :
    ∀ c : Nat, c < 256 → decodeSingle (ieee754Single ((c : ℚ) / 255)) = channelToFloat (c : Int)
      ∧ |channelToFloat (c : Int) - (c : ℚ) / 255| ≤ 1 / 2 ^ 25 := by
  decide!

theorem createHexString_all (c : Int) (h0 : 0 ≤ c) (h1 : c ≤ 255) :
    createHexString c = some (nameUnits c.toNat) := by
  obtain ⟨n, rfl⟩ := Int.eq_ofNat_of_zero_le h0
  have hn : n < 256 := by omega
  have := createHexString_table n hn
  simpa [nameUnits, widen, hex2] using this

theorem writeRBGPaletteValue_all (le : Bool) (fuel : Nat) (hf : 9 ≤ fuel) (c : paletteColorT)
    (hr : 0 ≤ c.r ∧ c.r ≤ 255) (hg : 0 ≤ c.g ∧ c.g ≤ 255) (hb : 0 ≤ c.b ∧ c.b ≤ 255) :
    writeRBGPaletteValue le fuel c.r c.g c.b = some (entryBytes c) := by
  unfold writeRBGPaletteValue writeRGBColorNameHexString
  rw [packChannel_eq fuel hf c.r hr.1 hr.2, packChannel_eq fuel hf c.g hg.1 hg.2,
    packChannel_eq fuel hf c.b hb.1 hb.2, createHexString_all c.r hr.1 hr.2,
    createHexString_all c.g hg.1 hg.2, createHexString_all c.b hb.1 hb.2]
  simp only
  rw [store_bigEndian le _ (ieee754Single_channel_lt c.r hr.1 hr.2),
    store_bigEndian le _ (ieee754Single_channel_lt c.g hg.1 hg.2),
    store_bigEndian le _ (ieee754Single_channel_lt c.b hb.1 hb.2)]
  simp [entryBytes, COLOR_START, RGB_PAL_LENGTH, COLOR_HEXCODE_LENGTH, STR_TERMINATE]

theorem writeColors_all (le : Bool) (fuel : Nat) (hf : 9 ≤ fuel) (colors : Nat → paletteColorT)
    (count i : Nat) (hcap : i + count ≤ 2048)
    (hch : ∀ j, i ≤ j → j < i + count → validColor (colors j)) :
    writeColors le fuel colors count i
      = some (((List.range' i count).map colors).flatMap entryBytes) := by
  induction count generalizing i with
  | zero => simp [writeColors]
  | succ n ih =>
    have hi : i < MAX_PALETTE_COLORS := by unfold MAX_PALETTE_COLORS; omega
    have hc := hch i (le_refl i) (by omega)
    simp only [writeColors, if_pos hi]
    rw [writeRBGPaletteValue_all le fuel hf (colors i) hc.1 hc.2.1 hc.2.2,
      ih (i + 1) (by omega) (fun j h1 h2 => hch j (by omega) (by omega))]
    simp [List.range'_succ]

theorem saveAse_all (le : Bool) (fuel : Nat) (hf : 9 ≤ fuel) (palette : paletteT) (N : Nat)
    (hN : palette.numColors = (N : Int)) (hcap : N ≤ 2048)
    (hch : ∀ i, i < N → validColor (palette.colors i)) :
    saveAse le fuel palette
      = some (([0x41, 0x53, 0x45, 0x46] ++ [0x00, 0x01, 0x00, 0x00] ++ be32 N)
          ++ ((List.range N).map palette.colors).flatMap entryBytes) := by
  unfold saveAse
  rw [hN, Int.toNat_ofNat,
    writeColors_all le fuel hf palette.colors N 0 (by omega) (fun j _ h2 => hch j (by omega))]
  simp only [writeASEHeader_eq le N (by omega), List.range_eq_range']

theorem nameUnits_length (c : Nat) : (nameUnits c).length = 4 := by
  unfold nameUnits
  split <;> simp [widen, hex2]

theorem entryBytes_length (c : paletteColorT) : (entryBytes c).length = 40 := by
  simp [entryBytes, nameUnits_length, be32]

theorem entryHead_length (c : paletteColorT) : (entryHead c).length = 26 := by
  simp [entryHead, nameUnits_length]

theorem entryBytes_split (c : paletteColorT) :
    entryBytes c = entryHead c
      ++ (be32 (ieee754Single ((c.r : ℚ) / 255)) ++ (be32 (ieee754Single ((c.g : ℚ) / 255))
        ++ (be32 (ieee754Single ((c.b : ℚ) / 255)) ++ [0x00, 0x00]))) := by
  simp [entryBytes, entryHead]

theorem flatMap_entryBytes_length (l : List paletteColorT) :
    (l.flatMap entryBytes).length = 40 * l.length := by
  induction l with
  | nil => simp
  | cons c t ih =>
    simp only [List.flatMap_cons, List.length_append, entryBytes_length, ih, List.length_cons]
    ring

theorem drop_flatMap_entryBytes (l : List paletteColorT) (i : Nat) :
    (l.flatMap entryBytes).drop (40 * i) = (l.drop i).flatMap entryBytes := by
  induction l generalizing i with
  | nil => simp
  | cons c t ih =>
    cases i with
    | zero => simp
    | succ k =>
      have h40 : 40 * (k + 1) = 40 + 40 * k := by ring
      rw [List.flatMap_cons, h40, ← List.drop_drop,
        List.drop_left' (entryBytes_length c), ih k]
      simp

theorem beWord_be32 (w : Nat) (hw : w < 2 ^ 32) : beWord (be32 w) = w := by
  simp only [beWord, be32, List.foldl]
  omega

/-- C4 (counterexample).  In the archive of the two-colour example palette the blue field of
the first entry (offsets 46..49) is followed by `00 00 00 01`, two zero bytes and the next
marker, and the blue field of the last entry by two bytes only. -/
theorem C4_four_zero_bytes_counterexample :
    ¬ (∃ out, saveAse true 9 examplePalette = some out
        ∧ (out.drop 50).take 4 = [0x00, 0x00, 0x00, 0x00])
      ∧ (saveAse true 9 examplePalette).map (fun out => out.drop 90) = some [0x00, 0x00] := by
  have h : saveAse true 9 examplePalette = some exampleArchive := by decide!
  refine ⟨?_, ?_⟩
  · rintro ⟨out, hout, h4⟩
    rw [h] at hout
    cases hout
    revert h4
    decide
  · rw [h]
    decide

/-- C4 (amended).  For every palette of N ≤ 2048 colours with channels in 0..255 the archive
has 12 + 40 N bytes, and in every entry the three float fields (entry offsets 26..37) are
followed by exactly two bytes `00 00`, after which comes the next entry's `00 01` marker or
the end of the archive. -/
theorem C4_two_closing_bytes (le : Bool) (fuel : Nat) (palette : paletteT) (N : Nat)
    (hfuel : 9 ≤ fuel) (hN : palette.numColors = (N : Int)) (hcap : N ≤ 2048)
    (hch : ∀ i, i < N → validColor (palette.colors i)) :
    ∃ out, saveAse le fuel palette = some out ∧ out.length = 12 + 40 * N
      ∧ ∀ i, i < N →
        (out.drop (12 + 40 * i + 26)).take 12
            = be32 (ieee754Single (((palette.colors i).r : ℚ) / 255))
              ++ be32 (ieee754Single (((palette.colors i).g : ℚ) / 255))
              ++ be32 (ieee754Single (((palette.colors i).b : ℚ) / 255))
          ∧ (out.drop (12 + 40 * i + 38)).take 2 = [0x00, 0x00]
          ∧ (i + 1 < N → (out.drop (12 + 40 * i + 40)).take 2 = [0x00, 0x01])
          ∧ (i + 1 = N → out.drop (12 + 40 * i + 40) = []) := by
  refine ⟨_, saveAse_all le fuel hfuel palette N hN hcap hch, ?_, ?_⟩
  · rw [List.length_append, flatMap_entryBytes_length]
    simp [be32]
  · intro i hi
    have hhdr : ([0x41, 0x53, 0x45, 0x46] ++ [0x00, 0x01, 0x00, 0x00] ++ be32 N).length = 12 := by
      simp [be32]
    have hdrop : ∀ j, (([0x41, 0x53, 0x45, 0x46] ++ [0x00, 0x01, 0x00, 0x00] ++ be32 N)
          ++ ((List.range N).map palette.colors).flatMap entryBytes).drop (12 + 40 * i + j)
        = ((entryBytes (palette.colors i))
            ++ (((List.range N).map palette.colors).drop (i + 1)).flatMap entryBytes).drop j := by
      intro j
      have e1 : 12 + 40 * i + j = 12 + (40 * i + j) := by ring
      rw [e1, ← List.drop_drop, List.drop_left' hhdr, ← List.drop_drop,
        drop_flatMap_entryBytes]
      have hlen : i < ((List.range N).map palette.colors).length := by simpa using hi
      rw [List.drop_eq_getElem_cons hlen]
      simp
    have hnext : (entryBytes (palette.colors i)
          ++ (((List.range N).map palette.colors).drop (i + 1)).flatMap entryBytes).drop 40
        = (((List.range N).map palette.colors).drop (i + 1)).flatMap entryBytes :=
      List.drop_left' (entryBytes_length _)
    refine ⟨?_, ?_, ?_, ?_⟩
    · rw [hdrop 26, entryBytes_split, List.append_assoc, List.drop_left' (entryHead_length _)]
      simp [be32]
    · have e2 : 12 + 40 * i + 38 = 12 + 40 * i + (26 + 12) := by ring
      rw [hdrop 38, entryBytes_split, List.append_assoc]
      have : (38 : Nat) = 26 + 12 := by norm_num
      rw [this, ← List.drop_drop, List.drop_left' (entryHead_length _)]
      simp [be32]
    · intro hlt
      rw [hdrop 40, hnext]
      have hlen : i + 1 < ((List.range N).map palette.colors).length := by simpa using hlt
      rw [List.drop_eq_getElem_cons hlen, List.flatMap_cons, entryBytes_split]
      simp [entryHead]
    · intro heq
      rw [hdrop 40, hnext]
      have : ((List.range N).map palette.colors).drop (i + 1) = [] := by
        apply List.drop_eq_nil_of_le
        simp
        omega
      rw [this]
      simp

theorem C4_two_closing_bytes_witness :
    ∃ out, saveAse true 9 examplePalette = some out ∧ out.length = 12 + 40 * 2
      ∧ ∀ i, i < 2 →
        (out.drop (12 + 40 * i + 26)).take 12
            = be32 (ieee754Single (((examplePalette.colors i).r : ℚ) / 255))
              ++ be32 (ieee754Single (((examplePalette.colors i).g : ℚ) / 255))
              ++ be32 (ieee754Single (((examplePalette.colors i).b : ℚ) / 255))
          ∧ (out.drop (12 + 40 * i + 38)).take 2 = [0x00, 0x00]
          ∧ (i + 1 < 2 → (out.drop (12 + 40 * i + 40)).take 2 = [0x00, 0x01])
          ∧ (i + 1 = 2 → out.drop (12 + 40 * i + 40) = []) :=
  C4_two_closing_bytes true 9 examplePalette 2 (by decide) rfl (by decide)
    (by unfold validColor; decide)

theorem decodeChannel_be32 (c : Int) (h0 : 0 ≤ c) (h1 : c ≤ 255) :
    decodeChannel (be32 (ieee754Single ((c : ℚ) / 255))) = c := by
  have hlt := ieee754Single_channel_lt c h0 h1
  obtain ⟨n, rfl⟩ := Int.eq_ofNat_of_zero_le h0
  have hn : n < 256 := by omega
  unfold decodeChannel
  rw [beWord_be32 _ (by omega)]
  simpa using (decodeChannel_table n hn).2.2

theorem decodeEntries_flatMap (l : List paletteColorT) (hl : ∀ c ∈ l, validColor c) :
    decodeEntries l.length (l.flatMap entryBytes) = some l := by
  induction l with
  | nil => simp [decodeEntries]
  | cons c t ih =>
    have hc := hl c (List.mem_cons_self c t)
    have ht := ih (fun x hx => hl x (List.mem_cons_of_mem c hx))
    have hlen : ¬ ((entryBytes c ++ t.flatMap entryBytes).length < 40) := by
      rw [List.length_append, entryBytes_length]
      omega
    have hd : ∀ j, (entryBytes c ++ t.flatMap entryBytes).drop (26 + j)
        = ((be32 (ieee754Single ((c.r : ℚ) / 255)) ++ (be32 (ieee754Single ((c.g : ℚ) / 255))
          ++ (be32 (ieee754Single ((c.b : ℚ) / 255)) ++ [0x00, 0x00])))
            ++ t.flatMap entryBytes).drop j := by
      intro j
      rw [entryBytes_split, List.append_assoc, ← List.drop_drop,
        List.drop_left' (entryHead_length c)]
    have hr : ((entryBytes c ++ t.flatMap entryBytes).drop 26).take 4
        = be32 (ieee754Single ((c.r : ℚ) / 255)) := by
      rw [hd 0]
      simp [be32]
    have hg : ((entryBytes c ++ t.flatMap entryBytes).drop 30).take 4
        = be32 (ieee754Single ((c.g : ℚ) / 255)) := by
      rw [hd 4]
      simp [be32]
    have hb : ((entryBytes c ++ t.flatMap entryBytes).drop 34).take 4
        = be32 (ieee754Single ((c.b : ℚ) / 255)) := by
      rw [hd 8]
      simp [be32]
    simp only [List.length_cons, List.flatMap_cons, decodeEntries, if_neg hlen, hr, hg, hb,
      List.drop_left' (entryBytes_length c), ht, Option.map_some',
      decodeChannel_be32 c.r hc.1.1 hc.1.2, decodeChannel_be32 c.g hc.2.1.1 hc.2.1.2,
      decodeChannel_be32 c.b hc.2.2.1 hc.2.2.2]

/-- C5.  For every channel value c in 0..255 the pattern packed for c decodes, under IEEE-754
single precision, to a value x with 0 ≤ x ≤ 1 whose multiple 255 x rounds back to c; two
channel values with the same pattern are equal; and decoding the float fields of the
archive of a palette (N ≤ 2048 colours, channels in 0..255) gives back its colours in
order. -/
theorem C5_round_trip (le : Bool) (fuel : Nat) (palette : paletteT) (N : Nat)
    (hfuel : 9 ≤ fuel) (hN : palette.numColors = (N : Int)) (hcap : N ≤ 2048)
    (hch : ∀ i, i < N → validColor (palette.colors i)) :
    (∀ c : Nat, c ≤ 255 → ∃ w, packChannel fuel (c : Int) = some w
        ∧ 0 ≤ decodeSingle w ∧ decodeSingle w ≤ 1
        ∧ roundHalfEven (255 * decodeSingle w) = (c : Int))
      ∧ (∀ c₁ c₂ : Nat, c₁ ≤ 255 → c₂ ≤ 255 →
          packChannel fuel (c₁ : Int) = packChannel fuel (c₂ : Int) → c₁ = c₂)
      ∧ ∃ out, saveAse le fuel palette = some out
          ∧ decodeArchive out = some ((List.range N).map palette.colors) := by
  have hpack : ∀ c : Nat, c ≤ 255 → ∃ w, packChannel fuel (c : Int) = some w
      ∧ 0 ≤ decodeSingle w ∧ decodeSingle w ≤ 1
      ∧ roundHalfEven (255 * decodeSingle w) = (c : Int) := by
    intro c hc
    refine ⟨_, packChannel_eq fuel hfuel c (by omega) (by omega), ?_⟩
    simpa using decodeChannel_table c (by omega)
  refine ⟨hpack, ?_, ?_⟩
  · intro c₁ c₂ h1 h2 heq
    obtain ⟨w₁, hw₁, -, -, hr₁⟩ := hpack c₁ h1
    obtain ⟨w₂, hw₂, -, -, hr₂⟩ := hpack c₂ h2
    rw [hw₁, hw₂] at heq
    cases heq
    have : (c₁ : Int) = (c₂ : Int) := by rw [← hr₁, ← hr₂]
    exact_mod_cast this
  · refine ⟨_, saveAse_all le fuel hfuel palette N hN hcap hch, ?_⟩
    have hhdr8 : ([0x41, 0x53, 0x45, 0x46] ++ [0x00, 0x01, 0x00, 0x00] : List Nat).length = 8 := rfl
    have hhdr : ([0x41, 0x53, 0x45, 0x46] ++ [0x00, 0x01, 0x00, 0x00] ++ be32 N).length = 12 := by
      simp [be32]
    have hcount : ((([0x41, 0x53, 0x45, 0x46] ++ [0x00, 0x01, 0x00, 0x00] ++ be32 N)
          ++ ((List.range N).map palette.colors).flatMap entryBytes).drop 8).take 4 = be32 N := by
      rw [List.append_assoc, List.append_assoc, ← List.append_assoc [0x41, 0x53, 0x45, 0x46],
        List.drop_left' hhdr8]
      simp [be32]
    unfold decodeArchive
    rw [hcount, beWord_be32 N (by omega), List.drop_left' hhdr]
    have := decodeEntries_flatMap ((List.range N).map palette.colors) (by
      intro c hc
      obtain ⟨i, hi, rfl⟩ := List.mem_map.mp hc
      exact hch i (List.mem_range.mp hi))
    simpa using this

theorem C5_round_trip_witness :
    (∀ c : Nat, c ≤ 255 → ∃ w, packChannel 9 (c : Int) = some w
        ∧ 0 ≤ decodeSingle w ∧ decodeSingle w ≤ 1
        ∧ roundHalfEven (255 * decodeSingle w) = (c : Int))
      ∧ (∀ c₁ c₂ : Nat, c₁ ≤ 255 → c₂ ≤ 255 →
          packChannel 9 (c₁ : Int) = packChannel 9 (c₂ : Int) → c₁ = c₂)
      ∧ ∃ out, saveAse false 9 examplePalette = some out
          ∧ decodeArchive out = some ((List.range 2).map examplePalette.colors) :=
  C5_round_trip false 9 examplePalette 2 (by decide) rfl (by decide)
    (by unfold validColor; decide)

/-- C6.  For every palette of N ≤ 2048 colours (channels in 0..255) the first 12 bytes
`saveAse` writes are `ASEF`, `00 01 00 00` and N as a big-endian 4-byte integer; for N = 0
they are the whole archive. -/
theorem C6_header (le : Bool) (fuel : Nat) (palette : paletteT) (N : Nat)
    (hfuel : 9 ≤ fuel) (hN : palette.numColors = (N : Int)) (hcap : N ≤ 2048)
    (hch : ∀ i, i < N → validColor (palette.colors i)) :
    ∃ out, saveAse le fuel palette = some out
      ∧ out.take 12 = [0x41, 0x53, 0x45, 0x46, 0x00, 0x01, 0x00, 0x00,
          N / 2 ^ 24, N / 2 ^ 16 % 256, N / 2 ^ 8 % 256, N % 256]
      ∧ (N = 0 → out = [0x41, 0x53, 0x45, 0x46, 0x00, 0x01, 0x00, 0x00,
          0x00, 0x00, 0x00, 0x00]) := by
  refine ⟨_, saveAse_all le fuel hfuel palette N hN hcap hch, ?_, ?_⟩
  · simp [be32]
    omega
  · intro h0
    subst h0
    simp [be32]

theorem C6_header_witness :
    ∃ out, saveAse true 9 (paletteOfList []) = some out
      ∧ out.take 12 = [0x41, 0x53, 0x45, 0x46, 0x00, 0x01, 0x00, 0x00,
          0 / 2 ^ 24, 0 / 2 ^ 16 % 256, 0 / 2 ^ 8 % 256, 0 % 256]
      ∧ (0 = 0 → out = [0x41, 0x53, 0x45, 0x46, 0x00, 0x01, 0x00, 0x00,
          0x00, 0x00, 0x00, 0x00]) :=
  C6_header true 9 (paletteOfList []) 0 (by decide) rfl (by decide)
    (fun i hi => absurd hi (Nat.not_lt_zero i))

/-! ## Theorems: the parser -/

theorem isUndefined_iff (r : LoadResult) : r.isUndefined = true ↔ r = .undefined := by
  cases r <;> simp [LoadResult.isUndefined]

theorem fgetsAux_append (k : Nat) (s : List Char) :
    (fgetsAux k s).1 ++ (fgetsAux k s).2 = s := by
  induction k generalizing s with
  | zero => simp [fgetsAux]
  | succ k ih =>
    cases s with
    | nil => simp [fgetsAux]
    | cons c t =>
      by_cases hc : c = '\n'
      · simp [fgetsAux, hc]
      · simp [fgetsAux, hc, ih t]

theorem fgetsAux_ne_nil (k : Nat) (c : Char) (t : List Char) :
    (fgetsAux (k + 1) (c :: t)).1 ≠ [] := by
  by_cases hc : c = '\n'
  · simp [fgetsAux, hc]
  · simp [fgetsAux, hc]

theorem fgets_length {fp chunk fp1 : List Char} (h : fgets 1048 fp = some (chunk, fp1)) :
    fp1.length < fp.length := by
  unfold fgets at h
  cases fp with
  | nil => simp at h
  | cons c t =>
    simp only [reduceCtorEq, if_false, Option.some.injEq] at h
    have happ := fgetsAux_append (1048 - 1) (c :: t)
    have hne := fgetsAux_ne_nil 1046 c t
    rw [h] at happ
    have h2 : (fgetsAux (1046 + 1) (c :: t)) = (chunk, fp1) := h
    rw [h2] at hne
    have hl : (chunk ++ fp1).length = (c :: t).length := by rw [happ]
    rw [List.length_append] at hl
    have : 0 < chunk.length := List.length_pos.mpr hne
    omega

/-- The fuel given to `readLines` does not matter once it exceeds the length of the
stream. -/
theorem readLines_fuel (fuel fuel' : Nat) (fp : List Char) (p : paletteT) (cur : Nat)
    (h : fp.length < fuel) (h' : fp.length < fuel') :
    readLines fuel fp p cur = readLines fuel' fp p cur := by
  induction fuel generalizing fuel' fp p cur with
  | zero => omega
  | succ n ih =>
    obtain ⟨m, rfl⟩ : ∃ m, fuel' = m + 1 := ⟨fuel' - 1, by omega⟩
    simp only [readLines]
    cases hf : fgets 1048 fp with
    | none => rfl
    | some r =>
      obtain ⟨chunk, fp1⟩ := r
      have hlen := fgets_length hf
      simp only
      cases loopBody chunk p cur with
      | error e => rfl
      | ok q =>
        obtain ⟨p', c'⟩ := q
        exact ih m fp1 p' c' (by omega) (by omega)

/-- One pass of the loop, with the fuel `loadGimpPalette` provides. -/
theorem readLines_step (fp chunk fp1 : List Char) (p : paletteT) (cur : Nat)
    (hf : fgets 1048 fp = some (chunk, fp1)) :
    readLines (fp.length + 1) fp p cur
      = match loopBody chunk p cur with
        | .error e => e
        | .ok (p', c') => readLines (fp1.length + 1) fp1 p' c' := by
  have hlen := fgets_length hf
  simp only [readLines, hf]
  cases loopBody chunk p cur with
  | error e => rfl
  | ok q =>
    obtain ⟨p', c'⟩ := q
    exact readLines_fuel fp.length (fp1.length + 1) fp1 p' c' hlen (by omega)

theorem readLines_nil (p : paletteT) (cur : Nat) :
    readLines (([] : List Char).length + 1) [] p cur = .returned p := by
  simp [readLines, fgets]

/-- `fgets` on a stream that starts with a line of at most 1047 characters, its newline
included. -/
theorem fgetsAux_line (t rest : List Char) (k : Nat) (hnl : '\n' ∉ t) (hlen : t.length < k) :
    fgetsAux k (t ++ '\n' :: rest) = (t ++ ['\n'], rest) := by
  induction t generalizing k with
  | nil =>
    obtain ⟨m, rfl⟩ : ∃ m, k = m + 1 := ⟨k - 1, by simp at hlen; omega⟩
    simp [fgetsAux]
  | cons c t ih =>
    obtain ⟨m, rfl⟩ : ∃ m, k = m + 1 := ⟨k - 1, by simp at hlen; omega⟩
    have hc : c ≠ '\n' := fun h => hnl (by simp [h])
    have ht : '\n' ∉ t := fun h => hnl (List.mem_cons_of_mem c h)
    have h := ih m ht (by simp at hlen; omega)
    simp only [List.cons_append, fgetsAux, if_neg hc, List.append_eq, h]

theorem fgetsAux_last (t : List Char) (k : Nat) (hnl : '\n' ∉ t) (hlen : t.length ≤ k) :
    fgetsAux k t = (t, []) := by
  induction t generalizing k with
  | nil => cases k <;> simp [fgetsAux]
  | cons c t ih =>
    obtain ⟨m, rfl⟩ : ∃ m, k = m + 1 := ⟨k - 1, by simp at hlen; omega⟩
    have hc : c ≠ '\n' := fun h => hnl (by simp [h])
    have ht : '\n' ∉ t := fun h => hnl (List.mem_cons_of_mem c h)
    simp only [fgetsAux, if_neg hc]
    rw [ih m ht (by simp at hlen; omega)]

theorem fgets_text (t term rest : List Char) (hne : t ≠ []) (hnl : '\n' ∉ t)
    (hlen : (t ++ term).length ≤ 1047) (hterm : lineEnd term rest) :
    fgets 1048 (t ++ term ++ rest) = some (t ++ term, rest) := by
  have hne' : t ++ term ++ rest ≠ [] := by simp [hne]
  unfold fgets
  rw [if_neg hne']
  rcases hterm with rfl | ⟨rfl, rfl⟩
  · have := fgetsAux_line t rest (1048 - 1) hnl (by simp at hlen; omega)
    simpa using this
  · have := fgetsAux_last t (1048 - 1) hnl (by simpa using hlen)
    simpa using this

theorem takeWhile_append_all (p : Char → Bool) (a b : List Char) (h : ∀ x ∈ a, p x = true) :
    (a ++ b).takeWhile p = a ++ b.takeWhile p := by
  induction a with
  | nil => rfl
  | cons x t ih =>
    have hx := h x (List.mem_cons_self x t)
    simp only [List.cons_append, List.takeWhile_cons, hx, if_true]
    rw [ih (fun y hy => h y (List.mem_cons_of_mem x hy))]

theorem dropWhile_append_all (p : Char → Bool) (a b : List Char) (h : ∀ x ∈ a, p x = true) :
    (a ++ b).dropWhile p = b.dropWhile p := by
  induction a with
  | nil => rfl
  | cons x t ih =>
    have hx := h x (List.mem_cons_self x t)
    simp only [List.cons_append, List.dropWhile_cons, hx, if_true]
    exact ih (fun y hy => h y (List.mem_cons_of_mem x hy))

theorem takeWhile_head_false (p : Char → Bool) (b : List Char)
    (h : ∀ x, b.head? = some x → p x = false) : b.takeWhile p = [] := by
  cases b with
  | nil => rfl
  | cons x t => simp [List.takeWhile_cons, h x rfl]

theorem dropWhile_head_false (p : Char → Bool) (b : List Char)
    (h : ∀ x, b.head? = some x → p x = false) : b.dropWhile p = b := by
  cases b with
  | nil => rfl
  | cons x t => simp [List.dropWhile_cons, h x rfl]

theorem head_takeWhile (p : Char → Bool) (b : List Char) (x : Char)
    (h : (b.takeWhile p).head? = some x) : b.head? = some x := by
  cases b with
  | nil => simp at h
  | cons y t =>
    by_cases hy : p y = true
    · simpa [List.takeWhile_cons, hy] using h
    · simp [List.takeWhile_cons, hy] at h

theorem head_append_ne_nil (a b : List Char) (ha : a ≠ []) : (a ++ b).head? = a.head? := by
  cases a with
  | nil => exact absurd rfl ha
  | cons x t => rfl

theorem isBlank_iff (c : Char) : decide (c ∈ [' ', '\t']) = isBlank c := by
  simp [isBlank]

theorem digit_not_blank (c : Char) (h : c.isDigit = true) : isBlank c = false := by
  unfold isBlank
  by_contra hc
  simp only [Bool.not_eq_false, Bool.or_eq_true, decide_eq_true_eq] at hc
  rcases hc with rfl | rfl <;> simp [Char.isDigit] at h

theorem digit_not_space (c : Char) (h : c.isDigit = true) : isspace c = false := by
  unfold isspace
  by_contra hc
  simp only [Bool.not_eq_false, Bool.or_eq_true, decide_eq_true_eq] at hc
  rcases hc with ((((rfl | rfl) | rfl) | rfl) | rfl) | rfl <;> simp [Char.isDigit] at h

theorem digit_ne (c d : Char) (h : c.isDigit = true) (hd : d.isDigit = false) : c ≠ d := by
  rintro rfl
  rw [h] at hd
  exact absurd hd (by decide)

/-- `strtok` on blanks, a token and what follows it. -/
theorem strtok_token (ws tok R : List Char) (hws : ∀ x ∈ ws, isBlank x = true)
    (hne : tok ≠ []) (htok : ∀ x ∈ tok, isBlank x = false) :
    strtok (ws ++ tok ++ R) [' ', '\t']
      = some (tok ++ R.takeWhile (fun c => !isBlank c),
          (R.dropWhile (fun c => !isBlank c)).drop 1) := by
  have hp : (fun c : Char => decide (c ∈ [' ', '\t'])) = isBlank := funext isBlank_iff
  have hq : (fun c : Char => !decide (c ∈ [' ', '\t'])) = fun c => !isBlank c := by
    funext c
    rw [isBlank_iff]
  obtain ⟨t0, tt, rfl⟩ : ∃ t0 tt, tok = t0 :: tt := by
    cases tok with
    | nil => exact absurd rfl hne
    | cons a b => exact ⟨a, b, rfl⟩
  have h0 : isBlank t0 = false := htok t0 (List.mem_cons_self t0 tt)
  have hd1 : (ws ++ (t0 :: tt) ++ R).dropWhile isBlank = (t0 :: tt) ++ R := by
    rw [List.append_assoc, dropWhile_append_all isBlank ws _ hws]
    simp [List.dropWhile_cons, h0]
  have hnb : ∀ x ∈ t0 :: tt, (fun c => !isBlank c) x = true := by
    intro x hx
    simp [htok x hx]
  unfold strtok
  simp only [hp, hq, hd1]
  rw [if_neg (by simp)]
  rw [takeWhile_append_all _ _ _ hnb, dropWhile_append_all _ _ _ hnb]

theorem strtok_sep (ws tok sep R : List Char) (hws : ∀ x ∈ ws, isBlank x = true)
    (hne : tok ≠ []) (htok : ∀ x ∈ tok, isBlank x = false) (hsne : sep ≠ []) 
    (hsep : ∀ x ∈ sep, isBlank x = true) :
    strtok (ws ++ tok ++ (sep ++ R)) [' ', '\t'] = some (tok, sep.tail ++ R) := by
  rw [strtok_token ws tok (sep ++ R) hws hne htok]
  obtain ⟨s0, st, rfl⟩ : ∃ s0 st, sep = s0 :: st := by
    cases sep with
    | nil => exact absurd rfl hsne
    | cons a b => exact ⟨a, b, rfl⟩
  have h0 : isBlank s0 = true := hsep s0 (List.mem_cons_self s0 st)
  simp [List.takeWhile_cons, List.dropWhile_cons, h0]

/-- `atoi` on a decimal integer followed by something that is not a digit. -/
theorem atoi_decimal (d X : List Char) (hd : isDecimal d)
    (hX : ∀ x, X.head? = some x → x.isDigit = false) (hv : digitsValue d ≤ 255) :
    atoi (d ++ X) = some (digitsValue d : Int) := by
  obtain ⟨hne, hdig⟩ := hd
  obtain ⟨d0, dt, rfl⟩ : ∃ d0 dt, d = d0 :: dt := by
    cases d with
    | nil => exact absurd rfl hne
    | cons a b => exact ⟨a, b, rfl⟩
  have h0 : d0.isDigit = true := hdig d0 (List.mem_cons_self d0 dt)
  have hsp : ((d0 :: dt) ++ X).dropWhile isspace = (d0 :: dt) ++ X := by
    simp [List.dropWhile_cons, digit_not_space d0 h0]
  have hm : d0 ≠ '-' := digit_ne d0 '-' h0 (by decide)
  have hpl : d0 ≠ '+' := digit_ne d0 '+' h0 (by decide)
  have htw : ((d0 :: dt) ++ X).takeWhile Char.isDigit = d0 :: dt := by
    rw [takeWhile_append_all _ _ _ hdig, takeWhile_head_false _ X hX]
    simp
  unfold atoi
  simp only [hsp]
  have hh : ((d0 :: dt) ++ X).head? = some d0 := rfl
  have hsign : ¬ (((d0 :: dt) ++ X).head? = some '-' ∨ ((d0 :: dt) ++ X).head? = some '+') := by
    rw [hh]
    simp [hm, hpl]
  have hneg : decide (((d0 :: dt) ++ X).head? = some '-') = false := by
    rw [hh]
    simp [hm]
  simp only [if_neg hsign, hneg, htw]
  simp
  omega

theorem blank_ne_nul (c : Char) (h : isBlank c = true) : c ≠ '\x00' := by
  rintro rfl
  exact absurd h (by decide)

theorem digit_ne_nul (c : Char) (h : c.isDigit = true) : c ≠ '\x00' := by
  rintro rfl
  exact absurd h (by decide)

theorem cstr_append (a b : List Char) (h : ∀ x ∈ a, x ≠ '\x00') :
    cstr (a ++ b) = a ++ cstr b := by
  unfold cstr
  exact takeWhile_append_all _ a b (fun x hx => by simpa using h x hx)

theorem setRGB_eq (p : paletteT) (cur : Nat) (r g b : Int) :
    ({ setB (setG (setR p cur r) cur g) cur b with
        numColors := (setB (setG (setR p cur r) cur g) cur b).numColors + 1 } : paletteT)
      = pushColor p cur ⟨r, g, b⟩ := by
  unfold pushColor setB setG setR
  simp only [if_true]
  congr 1
  funext j
  by_cases hj : j = cur <;> simp [hj]

/-- A well-formed colour line in `chunk`, with or without its newline, is parsed to its
three values, which pass the range test. -/
theorem parseColorLine_wellFormed (c : ColourLine) (term : List Char) (p : paletteT)
    (cur : Nat) (hwf : c.wellFormed) (hterm : term = ['\n'] ∨ term = [])
    (hcur : cur < MAX_PALETTE_COLORS) :
    parseColorLine (c.text ++ term) p cur
      = .ok (setB (setG (setR p cur (digitsValue c.red)) cur (digitsValue c.green)) cur
          (digitsValue c.blue)) := by
  obtain ⟨hlead, hred, hrv, hs1ne, hs1, hgreen, hgv, hs2ne, hs2, hblue, hbv, -, htrail⟩ := hwf
  have hnb : ∀ d : List Char, isDecimal d → ∀ x ∈ d, isBlank x = false :=
    fun d hd x hx => digit_not_blank x (hd.2 x hx)
  -- the C string in the chunk
  have hA : ∀ x ∈ c.lead ++ c.red ++ c.sep1 ++ c.green ++ c.sep2 ++ c.blue, x ≠ '\x00' := by
    intro x hx
    simp only [List.mem_append] at hx
    rcases hx with ((((hx | hx) | hx) | hx) | hx) | hx
    · exact blank_ne_nul x (hlead x hx)
    · exact digit_ne_nul x (hred.2 x hx)
    · exact blank_ne_nul x (hs1 x hx)
    · exact digit_ne_nul x (hgreen.2 x hx)
    · exact blank_ne_nul x (hs2 x hx)
    · exact digit_ne_nul x (hblue.2 x hx)
  obtain ⟨R, hR, hRhead⟩ : ∃ R, cstr (c.trail ++ term) = R
      ∧ ∀ x, R.head? = some x → x.isDigit = false := by
    refine ⟨_, rfl, ?_⟩
    intro x hx
    have h1 := head_takeWhile _ _ x hx
    by_cases ht : c.trail = []
    · rw [ht, List.nil_append] at h1
      rcases hterm with rfl | rfl
      · simp only [List.head?_cons, Option.some.injEq] at h1
        subst h1
        decide
      · simp at h1
    · rw [head_append_ne_nil _ _ ht] at h1
      exact htrail x h1
  have hstr : cstr (c.text ++ term)
      = c.lead ++ c.red ++ (c.sep1 ++ (c.green ++ (c.sep2 ++ (c.blue ++ R)))) := by
    have : c.text ++ term
        = (c.lead ++ c.red ++ c.sep1 ++ c.green ++ c.sep2 ++ c.blue) ++ (c.trail ++ term) := by
      simp [ColourLine.text, List.append_assoc]
    rw [this, cstr_append _ _ hA, hR]
    simp [List.append_assoc]
  have htail1 : ∀ x ∈ c.sep1.tail, isBlank x = true :=
    fun x hx => hs1 x (List.mem_of_mem_tail hx)
  have htail2 : ∀ x ∈ c.sep2.tail, isBlank x = true :=
    fun x hx => hs2 x (List.mem_of_mem_tail hx)
  have t1 := strtok_sep c.lead c.red c.sep1 (c.green ++ (c.sep2 ++ (c.blue ++ R))) hlead
    hred.1 (hnb _ hred) hs1ne hs1
  have t2 : strtok (c.sep1.tail ++ (c.green ++ (c.sep2 ++ (c.blue ++ R)))) [' ', '\t']
      = some (c.green, c.sep2.tail ++ (c.blue ++ R)) := by
    have := strtok_sep c.sep1.tail c.green c.sep2 (c.blue ++ R) htail1 hgreen.1 (hnb _ hgreen)
      hs2ne hs2
    rwa [List.append_assoc] at this
  have t3 : strtok (c.sep2.tail ++ (c.blue ++ R)) [' ', '\t']
      = some (c.blue ++ R.takeWhile (fun c => !isBlank c),
          (R.dropWhile (fun c => !isBlank c)).drop 1) := by
    have := strtok_token c.sep2.tail c.blue R htail2 hblue.1 (hnb _ hblue)
    rwa [List.append_assoc] at this
  have a1 : atoi c.red = some (digitsValue c.red : Int) := by
    have := atoi_decimal c.red [] hred (by simp) hrv
    rwa [List.append_nil] at this
  have a2 : atoi c.green = some (digitsValue c.green : Int) := by
    have := atoi_decimal c.green [] hgreen (by simp) hgv
    rwa [List.append_nil] at this
  have a3 : atoi (c.blue ++ R.takeWhile (fun c => !isBlank c))
      = some (digitsValue c.blue : Int) :=
    atoi_decimal c.blue _ hblue (fun x hx => hRhead x (head_takeWhile _ _ x hx)) hbv
  have hcap : ¬ (MAX_PALETTE_COLORS ≤ cur) := by omega
  unfold parseColorLine
  simp only [hstr, t1, a1, if_neg hcap, t2, a2, t3, a3]
  have hrange : ¬ ((digitsValue c.red : Int) < 0 ∨ (digitsValue c.red : Int) > 255
      ∨ (digitsValue c.green : Int) < 0 ∨ (digitsValue c.green : Int) > 255
      ∨ (digitsValue c.blue : Int) < 0 ∨ (digitsValue c.blue : Int) > 255) := by omega
  simp only [setB, setG, setR, if_true]
  rw [if_neg hrange]

theorem head_digit_or_blank (c : ColourLine) (term : List Char) (hwf : c.wellFormed) :
    ∃ x, (c.text ++ term).headD '\x00' = x ∧ (isBlank x = true ∨ x.isDigit = true) := by
  obtain ⟨hlead, hred, -⟩ := hwf
  obtain ⟨r0, rt, hr⟩ : ∃ r0 rt, c.red = r0 :: rt := by
    cases h : c.red with
    | nil => exact absurd h hred.1
    | cons a b => exact ⟨a, b, rfl⟩
  cases hl : c.lead with
  | nil =>
    refine ⟨r0, ?_, Or.inr (hred.2 r0 (by simp [hr]))⟩
    simp [ColourLine.text, hl, hr]
  | cons l0 lt =>
    refine ⟨l0, ?_, Or.inl (hlead l0 (by simp [hl]))⟩
    simp [ColourLine.text, hl]

/-- The loop body on a well-formed colour line stores its colour and goes on. -/
theorem loopBody_colour (c : ColourLine) (term : List Char) (p : paletteT) (cur : Nat)
    (hwf : c.wellFormed) (hterm : term = ['\n'] ∨ term = [])
    (hcur : cur < MAX_PALETTE_COLORS) (hnum : p.numColors ≤ 2047) :
    loopBody (c.text ++ term) p cur = .ok (pushColor p cur c.color, cur + 1) := by
  obtain ⟨x, hx, hxk⟩ := head_digit_or_blank c term hwf
  have hne : x ≠ '#' ∧ x ≠ 'N' ∧ x ≠ 'C' ∧ x ≠ '\x00' := by
    refine ⟨?_, ?_, ?_, ?_⟩ <;>
    · rintro rfl
      rcases hxk with h | h <;> exact absurd h (by decide)
  have hfull : ¬ (p.numColors > (MAX_PALETTE_COLORS : Int) - 1) := by
    unfold MAX_PALETTE_COLORS
    push_cast
    omega
  unfold loopBody
  rw [hx, if_pos hne, if_neg hfull, parseColorLine_wellFormed c term p cur hwf hterm hcur]
  simp only [setRGB_eq]
  rfl

/-- The loop body skips a line that starts with `#`, `N` or `C`. -/
theorem loopBody_skip (first : Char) (rest : List Char) (p : paletteT) (cur : Nat)
    (hfirst : first = '#' ∨ first = 'N' ∨ first = 'C') :
    loopBody (first :: rest) p cur = .ok (p, cur) := by
  unfold loopBody
  rcases hfirst with rfl | rfl | rfl <;> simp

theorem pushAll_append (p : paletteT) (cur : Nat) (a b : List paletteColorT) :
    pushAll p cur (a ++ b) = pushAll (pushAll p cur a) (cur + a.length) b := by
  induction a generalizing p cur with
  | nil => rfl
  | cons c t ih =>
    simp only [List.cons_append, pushAll, List.length_cons, List.append_eq]
    rw [ih]
    congr 1
    omega

theorem pushAll_numColors (p : paletteT) (cur : Nat) (cs : List paletteColorT) :
    (pushAll p cur cs).numColors = p.numColors + cs.length := by
  induction cs generalizing p cur with
  | nil => simp [pushAll]
  | cons c t ih =>
    simp only [pushAll, ih, pushColor, List.length_cons]
    push_cast
    ring

theorem pushAll_colors_lt (p : paletteT) (cur : Nat) (cs : List paletteColorT) (j : Nat)
    (hj : j < cur) : (pushAll p cur cs).colors j = p.colors j := by
  induction cs generalizing p cur with
  | nil => rfl
  | cons c t ih =>
    simp only [pushAll]
    rw [ih (pushColor p cur c) (cur + 1) (by omega)]
    simp [pushColor, Nat.ne_of_lt hj]

theorem pushAll_colors (p : paletteT) (cur : Nat) (cs : List paletteColorT) (i : Nat)
    (hi : i < cs.length) : cs[i]? = some ((pushAll p cur cs).colors (cur + i)) := by
  induction cs generalizing p cur i with
  | nil => simp at hi
  | cons c t ih =>
    cases i with
    | zero =>
      simp only [pushAll, List.getElem?_cons_zero, Nat.add_zero]
      rw [pushAll_colors_lt _ _ _ _ (by omega)]
      simp [pushColor]
    | succ k =>
      simp only [pushAll, List.getElem?_cons_succ]
      have := ih (pushColor p cur c) (cur + 1) k (by simpa using hi)
      rw [this]
      congr 2
      omega

theorem coloursOf_cons (l : GplLine) (ls : List GplLine) :
    coloursOf (l :: ls) = coloursOf [l] ++ coloursOf ls := by
  cases l <;> simp [coloursOf]

theorem coloursOf_append (a b : List GplLine) :
    coloursOf (a ++ b) = coloursOf a ++ coloursOf b := by
  induction a with
  | nil => rfl
  | cons l t ih =>
    rw [List.cons_append, coloursOf_cons, ih, coloursOf_cons l t, List.append_assoc]

theorem text_ne_nil (l : GplLine) (hwf : l.wellFormed) : l.text ≠ [] := by
  cases l with
  | skip first body => simp [GplLine.text]
  | colour c =>
    obtain ⟨-, hred, -⟩ := hwf
    intro h
    simp only [GplLine.text, ColourLine.text, List.append_eq_nil] at h
    exact hred.1 h.1.1.1.1.1.2

theorem blank_ne_newline (c : Char) (h : isBlank c = true) : c ≠ '\n' := by
  rintro rfl
  exact absurd h (by decide)

theorem digit_ne_newline (c : Char) (h : c.isDigit = true) : c ≠ '\n' := by
  rintro rfl
  exact absurd h (by decide)

theorem newline_not_mem_text (l : GplLine) (hwf : l.wellFormed) : '\n' ∉ l.text := by
  cases l with
  | skip first body =>
    obtain ⟨hfirst, hbody⟩ := hwf
    simp only [GplLine.text, List.mem_cons, not_or]
    refine ⟨?_, hbody⟩
    rcases hfirst with rfl | rfl | rfl <;> decide
  | colour c =>
    obtain ⟨hlead, hred, -, -, hs1, hgreen, -, -, hs2, hblue, -, htrail, -⟩ := hwf
    intro hx
    simp only [GplLine.text, ColourLine.text, List.mem_append] at hx
    rcases hx with (((((hx | hx) | hx) | hx) | hx) | hx) | hx
    · exact blank_ne_newline _ (hlead _ hx) rfl
    · exact digit_ne_newline _ (hred.2 _ hx) rfl
    · exact blank_ne_newline _ (hs1 _ hx) rfl
    · exact digit_ne_newline _ (hgreen.2 _ hx) rfl
    · exact blank_ne_newline _ (hs2 _ hx) rfl
    · exact digit_ne_newline _ (hblue.2 _ hx) rfl
    · exact htrail hx

/-- One pass of the loop over a well-formed line that fits the chunk buffer. -/
theorem readLines_line (l : GplLine) (term rest : List Char) (p : paletteT) (cur : Nat)
    (hwf : l.wellFormed) (hlen : (l.text ++ term).length ≤ 1047) (hterm : lineEnd term rest)
    (hcur : cur + (coloursOf [l]).length ≤ 2048)
    (hnum : p.numColors + (coloursOf [l]).length ≤ 2048) :
    readLines ((l.text ++ term ++ rest).length + 1) (l.text ++ term ++ rest) p cur
      = readLines (rest.length + 1) rest (pushAll p cur (coloursOf [l]))
          (cur + (coloursOf [l]).length) := by
  have hf := fgets_text l.text term rest (text_ne_nil l hwf) (newline_not_mem_text l hwf) hlen
    hterm
  have hterm' : term = ['\n'] ∨ term = [] := by
    rcases hterm with h | ⟨h, -⟩
    · exact Or.inl h
    · exact Or.inr h
  rw [readLines_step _ _ _ p cur hf]
  cases l with
  | skip first body =>
    obtain ⟨hfirst, -⟩ := hwf
    have : GplLine.text (.skip first body) ++ term = first :: (body ++ term) := rfl
    rw [this, loopBody_skip first _ p cur hfirst]
    simp [coloursOf, pushAll]
  | colour c =>
    have hc1 : (coloursOf [GplLine.colour c]).length = 1 := rfl
    rw [hc1] at hcur hnum
    have : GplLine.text (.colour c) ++ term = c.text ++ term := rfl
    rw [this, loopBody_colour c term p cur hwf hterm' (by unfold MAX_PALETTE_COLORS; omega)
      (by omega)]
    simp [coloursOf, pushAll]

/-- The loop over a run of well-formed lines, each with its newline. -/
theorem readLines_renderLines (lines : List GplLine) :
    ∀ (rest : List Char) (p : paletteT) (cur : Nat),
      (∀ l ∈ lines, l.wellFormed ∧ l.text.length + 1 ≤ 1047) →
      cur + (coloursOf lines).length ≤ 2048 →
      p.numColors + (coloursOf lines).length ≤ 2048 →
      readLines ((renderLines lines ++ rest).length + 1) (renderLines lines ++ rest) p cur
        = readLines (rest.length + 1) rest (pushAll p cur (coloursOf lines))
            (cur + (coloursOf lines).length) := by
  induction lines with
  | nil =>
    intro rest p cur _ _ _
    simp [renderLines, coloursOf, pushAll]
  | cons l ls ih =>
    intro rest p cur hwf hcur hnum
    have hl := hwf l (List.mem_cons_self l ls)
    have hls : ∀ x ∈ ls, x.wellFormed ∧ x.text.length + 1 ≤ 1047 :=
      fun x hx => hwf x (List.mem_cons_of_mem l hx)
    rw [coloursOf_cons, List.length_append] at hcur hnum
    have hshape : renderLines (l :: ls) ++ rest
        = l.text ++ ['\n'] ++ (renderLines ls ++ rest) := by
      simp [renderLines, List.append_assoc]
    rw [hshape, readLines_line l ['\n'] (renderLines ls ++ rest) p cur hl.1
      (by simpa using hl.2) (Or.inl rfl) (by omega) (by push_cast at hnum ⊢; omega)]
    rw [ih rest _ _ hls (by omega)
      (by rw [pushAll_numColors]; push_cast at hnum ⊢; omega)]
    rw [coloursOf_cons l ls, pushAll_append, List.length_append, Nat.add_assoc]

theorem header_chars :
    "GIMP Palette".toList = ['G', 'I', 'M', 'P', ' ', 'P', 'a', 'l', 'e', 't', 't', 'e'] := by
  decide

/-- The header test passes exactly when the chunk starts with the 12 characters
`GIMP Palette`. -/
theorem headerCheck_iff (chunk : List Char) :
    headerCheck chunk = true ↔ "GIMP Palette".toList <+: chunk := by
  have hc : cstr "GIMP Palette".toList = "GIMP Palette".toList := by decide
  have hl : "GIMP Palette".toList.length = 12 := by decide
  unfold headerCheck strncmpEq
  rw [decide_eq_true_iff, hc]
  have ht : "GIMP Palette".toList.take 12 = "GIMP Palette".toList := by decide
  rw [ht]
  constructor
  · intro h
    rw [← h]
    exact (List.take_prefix 12 (cstr chunk)).trans (List.takeWhile_prefix _)
  · rintro ⟨X, rfl⟩
    have hn : ∀ x ∈ "GIMP Palette".toList, x ≠ '\x00' := by decide
    rw [cstr_append _ _ hn, List.take_left' hl]

/-- The call on a file whose first line starts with the header and fits the chunk buffer
goes on to the loop over the rest. -/
theorem loadGimpPalette_header (headerTail rest : List Char) (p : paletteT)
    (hnl : '\n' ∉ headerTail) (hlen : headerTail.length + 13 ≤ 1047) :
    loadGimpPalette (some ("GIMP Palette".toList ++ headerTail ++ '\n' :: rest)) p
      = readLines (rest.length + 1) rest p 0 := by
  have hn : '\n' ∉ "GIMP Palette".toList ++ headerTail := by
    intro h
    rcases List.mem_append.mp h with h | h
    · revert h
      decide
    · exact hnl h
  have hf := fgets_text ("GIMP Palette".toList ++ headerTail) ['\n'] rest (by simp [header_chars])
    hn (by simp [header_chars]; omega) (Or.inl rfl)
  have hshape : "GIMP Palette".toList ++ headerTail ++ '\n' :: rest
      = "GIMP Palette".toList ++ headerTail ++ ['\n'] ++ rest := by simp
  have hchk : headerCheck ("GIMP Palette".toList ++ headerTail ++ ['\n']) = true :=
    (headerCheck_iff _).2 ⟨headerTail ++ ['\n'], by simp⟩
  unfold loadGimpPalette
  simp only [hshape, hf, hchk, if_true]

theorem lines_last_split (lines : List GplLine) (last : Option GplLine) :
    (coloursOf (lines ++ last.toList)).length
      = (coloursOf lines).length + (coloursOf last.toList).length := by
  rw [coloursOf_append, List.length_append]

/-- C7 (amended).  For every file whose first line begins with `GIMP Palette` and whose
other lines are skipped lines or well-formed colour lines, every line being at most 1046
characters long before its newline and at most 2048 of them colour lines, the call on a
palette with `numColors = 0` returns; `numColors` is then the number of colour lines and
`colors[i]` is the colour of the i-th colour line. -/
theorem C7_load_wellformed (headerTail : List Char) (lines : List GplLine)
    (last : Option GplLine) (p0 : paletteT) (hp0 : p0.numColors = 0)
    (hhdr : '\n' ∉ headerTail ∧ headerTail.length + 13 ≤ 1047)
    (hlines : ∀ l ∈ lines ++ last.toList, l.wellFormed ∧ l.text.length + 1 ≤ 1047)
    (hcount : (coloursOf (lines ++ last.toList)).length ≤ 2048) :
    ∃ p, loadGimpPalette (some (gplFile headerTail lines last)) p0 = .returned p
      ∧ p.numColors = ((coloursOf (lines ++ last.toList)).length : Int)
      ∧ ∀ i, i < (coloursOf (lines ++ last.toList)).length →
          (coloursOf (lines ++ last.toList))[i]? = some (p.colors i) := by
  refine ⟨pushAll p0 0 (coloursOf (lines ++ last.toList)), ?_, ?_, ?_⟩
  · unfold gplFile
    rw [loadGimpPalette_header headerTail _ p0 hhdr.1 hhdr.2]
    have hsplit := lines_last_split lines last
    have hl : ∀ l ∈ lines, l.wellFormed ∧ l.text.length + 1 ≤ 1047 :=
      fun l hl => hlines l (List.mem_append_left _ hl)
    rw [readLines_renderLines lines _ p0 0 hl (by omega) (by rw [hp0]; omega)]
    cases last with
    | none =>
      simp only [Option.toList, List.append_nil]
      exact readLines_nil _ _
    | some l =>
      have hlw := hlines l (List.mem_append_right _ (by simp))
      have hc : coloursOf (lines ++ (some l).toList) = coloursOf lines ++ coloursOf [l] := by
        rw [coloursOf_append]
        rfl
      have hsl : (coloursOf (some l).toList).length = (coloursOf [l]).length := rfl
      have h := readLines_line l [] [] (pushAll p0 0 (coloursOf lines))
        (0 + (coloursOf lines).length) hlw.1 (by simp; omega) (Or.inr ⟨rfl, rfl⟩) (by omega)
        (by rw [pushAll_numColors, hp0]; omega)
      simp only [List.append_nil] at h
      simp only []
      rw [h, hc, pushAll_append]
      exact readLines_nil _ _
  · rw [pushAll_numColors, hp0]
    simp
  · intro i hi
    have := pushAll_colors p0 0 (coloursOf (lines ++ last.toList)) i hi
    simpa using this

theorem C7_load_wellformed_witness :
    ∃ p, loadGimpPalette (some (gplFile [] [GplLine.skip '#' "comment".toList,
          GplLine.colour ⟨[], "10".toList, " ".toList, "20".toList, "\t ".toList, "30".toList,
            " Red".toList⟩] none)) emptyPalette = .returned p
      ∧ p.numColors = ((coloursOf ([GplLine.skip '#' "comment".toList,
          GplLine.colour ⟨[], "10".toList, " ".toList, "20".toList, "\t ".toList, "30".toList,
            " Red".toList⟩] ++ (none : Option GplLine).toList)).length : Int)
      ∧ ∀ i, i < (coloursOf ([GplLine.skip '#' "comment".toList,
          GplLine.colour ⟨[], "10".toList, " ".toList, "20".toList, "\t ".toList, "30".toList,
            " Red".toList⟩] ++ (none : Option GplLine).toList)).length →
          (coloursOf ([GplLine.skip '#' "comment".toList,
          GplLine.colour ⟨[], "10".toList, " ".toList, "20".toList, "\t ".toList, "30".toList,
            " Red".toList⟩] ++ (none : Option GplLine).toList))[i]? = some (p.colors i) :=
  C7_load_wellformed [] [GplLine.skip '#' "comment".toList,
      GplLine.colour ⟨[], "10".toList, " ".toList, "20".toList, "\t ".toList, "30".toList,
        " Red".toList⟩] none emptyPalette rfl (by decide)
    (by
      intro l hl
      simp only [Option.toList, List.append_nil, List.mem_cons, List.mem_singleton,
        List.not_mem_nil, or_false] at hl
      rcases hl with rfl | rfl
      · exact ⟨⟨Or.inl rfl, by decide⟩, by decide⟩
      · refine ⟨⟨by decide, ⟨by decide, by decide⟩, by decide, by decide, by decide,
          ⟨by decide, by decide⟩, by decide, by decide, by decide, ⟨by decide, by decide⟩,
          by decide, by decide, ?_⟩, by decide⟩
        intro x hx
        simp only [String.toList, List.head?_cons, Option.some.injEq] at hx
        subst hx
        decide)
    (by decide)

/-- C7 (counterexample).  A well-formed colour line `10 20 30` followed by 1041
characters of trailing text does not fit the 1048-byte chunk buffer: the rest of the line
is read as a line of its own, `strtok` finds one token only and `atoi(NULL)` is
undefined. -/
theorem C7_long_line_counterexample :
    ColourLine.wellFormed ⟨[], "10".toList, " ".toList, "20".toList, " ".toList, "30".toList,
        ' ' :: List.replicate 1040 'x'⟩
      ∧ loadGimpPalette (some (gplFile [] [GplLine.colour ⟨[], "10".toList, " ".toList,
          "20".toList, " ".toList, "30".toList, ' ' :: List.replicate 1040 'x'⟩] none))
        emptyPalette = .undefined := by
  refine ⟨⟨by decide, ⟨by decide, by decide⟩, by decide, by decide, by decide,
    ⟨by decide, by decide⟩, by decide, by decide, by decide, ⟨by decide, by decide⟩,
    by decide, by decide!, ?_⟩, (isUndefined_iff _).1 (by decide!)⟩
  intro x hx
  simp only [List.head?_cons, Option.some.injEq] at hx
  subst hx
  decide

theorem fgetsAux_pre (k : Nat) (q s : List Char) :
    fgetsAux k (q ++ '\n' :: s)
      = ((fgetsAux k (q ++ ['\n'])).1, (fgetsAux k (q ++ ['\n'])).2 ++ s) := by
  induction q generalizing k with
  | nil =>
    cases k with
    | zero => simp [fgetsAux]
    | succ m => simp [fgetsAux]
  | cons c t ih =>
    cases k with
    | zero => simp [fgetsAux]
    | succ m =>
      by_cases hc : c = '\n'
      · simp [fgetsAux, hc]
      · have h := ih m
        simp only [List.cons_append, fgetsAux, if_neg hc, List.append_eq, h]

theorem fgetsAux_rest_lines (k : Nat) (q : List Char) :
    (fgetsAux k (q ++ ['\n'])).2 = [] ∨ ∃ q', (fgetsAux k (q ++ ['\n'])).2 = q' ++ ['\n'] := by
  induction q generalizing k with
  | nil =>
    cases k with
    | zero => exact Or.inr ⟨[], by simp [fgetsAux]⟩
    | succ m => exact Or.inl (by simp [fgetsAux])
  | cons c t ih =>
    cases k with
    | zero => exact Or.inr ⟨c :: t, by simp [fgetsAux]⟩
    | succ m =>
      by_cases hc : c = '\n'
      · exact Or.inr ⟨t, by simp [fgetsAux, hc]⟩
      · have h := ih m
        simpa only [List.cons_append, fgetsAux, if_neg hc, List.append_eq] using h

/-- `fgets` on a stream that starts with complete lines reads within them. -/
theorem fgets_pre (q s : List Char) :
    ∃ chunk r, fgets 1048 (q ++ ['\n'] ++ s) = some (chunk, r ++ s)
      ∧ fgets 1048 (q ++ ['\n']) = some (chunk, r)
      ∧ (r = [] ∨ ∃ q', r = q' ++ ['\n']) := by
  refine ⟨(fgetsAux 1047 (q ++ ['\n'])).1, (fgetsAux 1047 (q ++ ['\n'])).2, ?_, ?_,
    fgetsAux_rest_lines 1047 q⟩
  · unfold fgets
    rw [if_neg (by simp)]
    have := fgetsAux_pre 1047 q s
    simpa using this
  · unfold fgets
    rw [if_neg (by simp)]

/-- Two streams that the loop treats alike are still treated alike after the same
complete lines are put in front of both. -/
theorem readLines_congr_pre (X Y : List Char)
    (hXY : ∀ (p : paletteT) (cur : Nat),
      readLines (X.length + 1) X p cur = readLines (Y.length + 1) Y p cur) :
    ∀ (n : Nat) (pre : List Char), pre.length ≤ n → (pre = [] ∨ ∃ q, pre = q ++ ['\n']) →
      ∀ (p : paletteT) (cur : Nat),
        readLines ((pre ++ X).length + 1) (pre ++ X) p cur
          = readLines ((pre ++ Y).length + 1) (pre ++ Y) p cur := by
  intro n
  induction n with
  | zero =>
    intro pre hn _ p cur
    have : pre = [] := List.length_eq_zero.mp (by omega)
    subst this
    simpa using hXY p cur
  | succ m ih =>
    intro pre hn hpre p cur
    rcases hpre with rfl | ⟨q, rfl⟩
    · simpa using hXY p cur
    · obtain ⟨chunk, r, hfX, hf, hr⟩ := fgets_pre q X
      obtain ⟨chunk', r', hfY, hf', -⟩ := fgets_pre q Y
      rw [hf] at hf'
      cases hf'
      have hrl := fgets_length hf
      rw [readLines_step _ _ _ p cur hfX, readLines_step _ _ _ p cur hfY]
      cases loopBody chunk p cur with
      | error e => rfl
      | ok st =>
        obtain ⟨p', c'⟩ := st
        exact ih r (by omega) hr p' c'

/-- The result of the call does not change when a stream is replaced by one the loop
treats alike, after the same complete lines (the header line among them). -/
theorem loadGimpPalette_congr_pre (X Y q : List Char) (palette : paletteT)
    (hXY : ∀ (p : paletteT) (cur : Nat),
      readLines (X.length + 1) X p cur = readLines (Y.length + 1) Y p cur) :
    loadGimpPalette (some (q ++ ['\n'] ++ X)) palette
      = loadGimpPalette (some (q ++ ['\n'] ++ Y)) palette := by
  obtain ⟨chunk, r, hfX, hf, hr⟩ := fgets_pre q X
  obtain ⟨chunk', r', hfY, hf', -⟩ := fgets_pre q Y
  rw [hf] at hf'
  cases hf'
  unfold loadGimpPalette
  simp only [hfX, hfY]
  cases headerCheck chunk with
  | false => rfl
  | true =>
    simp only [if_true]
    exact readLines_congr_pre X Y hXY r.length r (le_refl _) hr palette 0

/-- One pass of the loop over a skipped line that fits the chunk buffer. -/
theorem readLines_skip (first : Char) (body term rest : List Char) (p : paletteT) (cur : Nat)
    (hfirst : first = '#' ∨ first = 'N' ∨ first = 'C') (hbody : '\n' ∉ body)
    (hlen : (first :: body ++ term).length ≤ 1047) (hterm : lineEnd term rest) :
    readLines (((first :: body ++ term) ++ rest).length + 1) ((first :: body ++ term) ++ rest)
        p cur
      = readLines (rest.length + 1) rest p cur := by
  have hwf : (GplLine.skip first body).wellFormed := ⟨hfirst, hbody⟩
  have hf := fgets_text (first :: body) term rest (by simp)
    (newline_not_mem_text (.skip first body) hwf) hlen hterm
  rw [readLines_step _ _ _ p cur hf]
  have : (first :: body) ++ term = first :: (body ++ term) := rfl
  rw [this, loopBody_skip first _ p cur hfirst]

/-- C8 (amended).  A line after the header that starts with `#`, `N` or `C` and is at most
1047 characters long with its newline contributes nothing: the call gives the same result
with the line as without it, wherever after line 1 the line stands.  The file with the
lines `GIMP Palette`, `#comment`, `Name: X`, `Columns: 4`, `10 20 30` yields the one-colour
palette (10,20,30). -/
theorem C8_skip_lines (pre post body term : List Char) (first : Char) (palette : paletteT)
    (hpre : ∃ q, pre = q ++ ['\n'])
    (hfirst : first = '#' ∨ first = 'N' ∨ first = 'C') (hbody : '\n' ∉ body)
    (hlen : (first :: body ++ term).length ≤ 1047) (hterm : lineEnd term post) :
    loadGimpPalette (some (pre ++ (first :: body ++ term) ++ post)) palette
        = loadGimpPalette (some (pre ++ post)) palette
      ∧ ∃ p, loadGimpPalette
            (some "GIMP Palette\n#comment\nName: X\nColumns: 4\n10 20 30\n".toList) emptyPalette
          = .returned p ∧ p.numColors = 1 ∧ p.colors 0 = ⟨10, 20, 30⟩ := by
  refine ⟨?_, ⟨_, rfl, rfl, rfl⟩⟩
  obtain ⟨q, rfl⟩ := hpre
  have hX : ∀ (p : paletteT) (cur : Nat),
      readLines (((first :: body ++ term) ++ post).length + 1) ((first :: body ++ term) ++ post)
          p cur
        = readLines (post.length + 1) post p cur := by
    intro p cur
    exact readLines_skip first body term post p cur hfirst hbody hlen hterm
  have := loadGimpPalette_congr_pre ((first :: body ++ term) ++ post) post q palette hX
  simpa [List.append_assoc] using this

theorem C8_skip_lines_witness :
    loadGimpPalette (some ("GIMP Palette\n".toList ++ ('#' :: "comment".toList ++ ['\n'])
          ++ "10 20 30\n".toList)) emptyPalette
        = loadGimpPalette (some ("GIMP Palette\n".toList ++ "10 20 30\n".toList)) emptyPalette
      ∧ ∃ p, loadGimpPalette
            (some "GIMP Palette\n#comment\nName: X\nColumns: 4\n10 20 30\n".toList) emptyPalette
          = .returned p ∧ p.numColors = 1 ∧ p.colors 0 = ⟨10, 20, 30⟩ :=
  C8_skip_lines "GIMP Palette\n".toList "10 20 30\n".toList "comment".toList ['\n'] '#'
    emptyPalette ⟨"GIMP Palette".toList, by decide⟩ (Or.inl rfl) (by decide) (by decide)
    (Or.inl rfl)

/-- C8 (counterexample).  A `#` line of 1048 characters is read in two chunks; the second
one, `x` and the newline, does not start with `#` and is parsed as a colour line, which
ends in `atoi(NULL)`.  Without the line the file yields the palette (10,20,30). -/
theorem C8_long_comment_counterexample :
    loadGimpPalette (some ("GIMP Palette\n".toList ++ ('#' :: List.replicate 1047 'x' ++ ['\n'])
          ++ "10 20 30\n".toList)) emptyPalette = .undefined
      ∧ ∃ p, loadGimpPalette (some ("GIMP Palette\n".toList ++ "10 20 30\n".toList))
            emptyPalette = .returned p ∧ p.numColors = 1 ∧ p.colors 0 = ⟨10, 20, 30⟩ :=
  ⟨(isUndefined_iff _).1 (by decide!), ⟨_, rfl, rfl, rfl⟩⟩

/-- C9 (the code at a failing input).  The empty line of the file `GIMP Palette`, empty
line, `10 20 30` is not skipped: `chunk` holds the newline, `chunk[0]` is not NUL, and the
line is parsed as a colour line, whose second `strtok` returns NULL, so that `atoi(NULL)`
is called.  Without the empty line the file yields the palette (10,20,30).  On an empty
line anywhere the loop body never goes on to the next line: it ends in undefined behaviour
or, when the palette is full, in the capacity `break`. -/
theorem C9_empty_line_not_skipped :
    loadGimpPalette (some "GIMP Palette\n\n10 20 30\n".toList) emptyPalette = .undefined
      ∧ (∃ p, loadGimpPalette (some "GIMP Palette\n10 20 30\n".toList) emptyPalette
          = .returned p ∧ p.numColors = 1 ∧ p.colors 0 = ⟨10, 20, 30⟩)
      ∧ ∀ (p : paletteT) (cur : Nat),
          loopBody ['\n'] p cur = .error .undefined
            ∨ loopBody ['\n'] p cur = .error (.returned p) := by
  refine ⟨rfl, ⟨_, rfl, rfl, rfl⟩, ?_⟩
  intro p cur
  have h1 : strtok (cstr ['\n']) [' ', '\t'] = some (['\n'], []) := by decide
  have h2 : atoi ['\n'] = some 0 := by decide
  have h3 : strtok [] [' ', '\t'] = none := by decide
  have hparse : parseColorLine ['\n'] p cur = .error .undefined := by
    unfold parseColorLine
    simp only [h1, h2, h3, ite_self]
  by_cases hfull : p.numColors > (MAX_PALETTE_COLORS : Int) - 1
  · right
    unfold loopBody
    rw [if_pos (by decide), if_pos hfull]
  · left
    unfold loopBody
    rw [if_pos (by decide), if_neg hfull, hparse]

theorem prefix_chunk_firstLine (h : List Char) :
    ∀ (k : Nat) (s : List Char), h <+: (fgetsAux k s).1 → '\n' ∉ h → h <+: firstLine s := by
  induction h with
  | nil => intro k s _ _; exact List.nil_prefix
  | cons a t ih =>
    intro k s hp hn
    have ha : a ≠ '\n' := fun e => hn (by simp [e])
    have ht : '\n' ∉ t := fun e => hn (List.mem_cons_of_mem a e)
    cases k with
    | zero => simp [fgetsAux] at hp
    | succ m =>
      cases s with
      | nil => simp [fgetsAux] at hp
      | cons c r =>
        by_cases hc : c = '\n'
        · simp only [fgetsAux, hc, if_true] at hp
          have := List.cons_prefix_cons.mp hp
          exact absurd this.1 ha
        · simp only [fgetsAux, if_neg hc] at hp
          obtain ⟨hac, htp⟩ := List.cons_prefix_cons.mp hp
          have := ih m r htp ht
          unfold firstLine at this ⊢
          simp only [List.takeWhile_cons, hc, ne_eq, not_false_eq_true, decide_True, if_true]
          exact List.cons_prefix_cons.mpr ⟨hac, this⟩

theorem prefix_firstLine_chunk (h : List Char) :
    ∀ (k : Nat) (s : List Char), h <+: firstLine s → h.length ≤ k → h <+: (fgetsAux k s).1 := by
  induction h with
  | nil => intro k s _ _; exact List.nil_prefix
  | cons a t ih =>
    intro k s hp hk
    cases s with
    | nil => simp [firstLine] at hp
    | cons c r =>
      obtain ⟨m, rfl⟩ : ∃ m, k = m + 1 := ⟨k - 1, by simp at hk; omega⟩
      by_cases hc : c = '\n'
      · simp [firstLine, hc] at hp
      · unfold firstLine at hp
        simp only [List.takeWhile_cons, hc, ne_eq, not_false_eq_true, decide_True, if_true] at hp
        obtain ⟨hac, htp⟩ := List.cons_prefix_cons.mp hp
        simp only [fgetsAux, if_neg hc]
        exact List.cons_prefix_cons.mpr ⟨hac, ih m r htp (by simp at hk; omega)⟩

/-- The header test on a file that has a first line to read.  On a non-empty file whose
first line does not begin with the 12 characters `GIMP Palette` the call ends in
`exit(1)`; on a file whose first line begins with them, whatever follows, the header test
passes and the call is the loop over the rest of the file. -/
theorem loadGimpPalette_header_nonempty (file : List Char) (palette : paletteT) (hne : file ≠ []) :
    (¬ "GIMP Palette".toList <+: firstLine file →
        loadGimpPalette (some file) palette = .exited)
      ∧ ("GIMP Palette".toList <+: firstLine file →
        ∃ chunk rest, fgets 1048 file = some (chunk, rest) ∧ headerCheck chunk = true
          ∧ loadGimpPalette (some file) palette = readLines (rest.length + 1) rest palette 0) := by
  have hf : fgets 1048 file = some (fgetsAux 1047 file) := by
    unfold fgets
    rw [if_neg hne]
  have hnl : '\n' ∉ "GIMP Palette".toList := by decide
  constructor
  · intro hnp
    have hchk : headerCheck (fgetsAux 1047 file).1 = false := by
      rw [Bool.eq_false_iff]
      intro h
      exact hnp (prefix_chunk_firstLine _ 1047 file ((headerCheck_iff _).1 h) hnl)
    unfold loadGimpPalette
    simp [hf, hchk]
  · intro hp
    have hchk : headerCheck (fgetsAux 1047 file).1 = true :=
      (headerCheck_iff _).2 (prefix_firstLine_chunk _ 1047 file hp (by decide))
    refine ⟨(fgetsAux 1047 file).1, (fgetsAux 1047 file).2, hf, hchk, ?_⟩
    unfold loadGimpPalette
    simp [hf, hchk]

theorem loadGimpPalette_header_nonempty_example :
    (¬ "GIMP Palette".toList <+: firstLine "GIMP\n10 20 30\n".toList →
        loadGimpPalette (some "GIMP\n10 20 30\n".toList) emptyPalette = .exited)
      ∧ ("GIMP Palette".toList <+: firstLine "GIMP\n10 20 30\n".toList →
        ∃ chunk rest, fgets 1048 "GIMP\n10 20 30\n".toList = some (chunk, rest)
          ∧ headerCheck chunk = true
          ∧ loadGimpPalette (some "GIMP\n10 20 30\n".toList) emptyPalette
            = readLines (rest.length + 1) rest emptyPalette 0) :=
  loadGimpPalette_header_nonempty "GIMP\n10 20 30\n".toList emptyPalette (by decide)

theorem parseColorLine_ne_outOfFuel (chunk : List Char) (p : paletteT) (cur : Nat) :
    parseColorLine chunk p cur ≠ .error .outOfFuel := by
  unfold parseColorLine
  repeat' split
  all_goals first
    | simp; done
    | (intro h; simp only at h; split at h <;> simp at h)

/-- The loop never runs out of the fuel `loadGimpPalette` gives it. -/
theorem readLines_ne_outOfFuel (fuel : Nat) :
    ∀ (fp : List Char) (p : paletteT) (cur : Nat), fp.length < fuel →
      readLines fuel fp p cur ≠ .outOfFuel ∧ loopBody fp p cur ≠ .error .outOfFuel := by
  have hbody : ∀ (chunk : List Char) (p : paletteT) (cur : Nat),
      loopBody chunk p cur ≠ .error .outOfFuel := by
    intro chunk p cur
    have hp := parseColorLine_ne_outOfFuel chunk p cur
    unfold loopBody
    split
    · split
      · simp
      · cases hq : parseColorLine chunk p cur with
        | error e =>
          rw [hq] at hp
          simpa using hp
        | ok q => simp
    · simp
  induction fuel with
  | zero => intro fp p cur h; omega
  | succ n ih =>
    intro fp p cur h
    refine ⟨?_, hbody fp p cur⟩
    simp only [readLines]
    cases hf : fgets 1048 fp with
    | none => simp
    | some r =>
      obtain ⟨chunk, fp1⟩ := r
      have hlen := fgets_length hf
      simp only
      cases hb : loopBody chunk p cur with
      | error e =>
        simp only
        intro he
        rw [he] at hb
        exact hbody chunk p cur hb
      | ok st =>
        obtain ⟨p', c'⟩ := st
        exact (ih fp1 p' c' (by omega)).1

theorem loadGimpPalette_ne_outOfFuel (file : Option (List Char)) (p : paletteT) :
    loadGimpPalette file p ≠ .outOfFuel := by
  unfold loadGimpPalette
  cases file with
  | none => simp
  | some fp =>
    simp only
    cases hf : fgets 1048 fp with
    | none => simp
    | some r =>
      obtain ⟨chunk, fp1⟩ := r
      simp only
      split
      · exact (readLines_ne_outOfFuel _ fp1 p 0 (by omega)).1
      · simp

/-! ## Theorems: colour lines with arbitrary tokens -/

/-- The three `strtok`/`atoi` pairs on a C string made of blanks, three tokens and a rest
that starts with a blank: the values are range-checked and stored. -/
theorem parseColorLine_tokens (chunk lead t1 sep1 t2 sep2 t3 R : List Char) (p : paletteT)
    (cur : Nat) (v1 v2 v3 : Int)
    (hstr : cstr chunk = lead ++ t1 ++ (sep1 ++ (t2 ++ (sep2 ++ (t3 ++ R)))))
    (hlead : ∀ x ∈ lead, isBlank x = true)
    (h1 : t1 ≠ [] ∧ ∀ x ∈ t1, isBlank x = false)
    (hs1 : sep1 ≠ [] ∧ ∀ x ∈ sep1, isBlank x = true)
    (h2 : t2 ≠ [] ∧ ∀ x ∈ t2, isBlank x = false)
    (hs2 : sep2 ≠ [] ∧ ∀ x ∈ sep2, isBlank x = true)
    (h3 : t3 ≠ [] ∧ ∀ x ∈ t3, isBlank x = false)
    (hR : ∀ x, R.head? = some x → isBlank x = true)
    (a1 : atoi t1 = some v1) (a2 : atoi t2 = some v2) (a3 : atoi t3 = some v3)
    (hcur : cur < MAX_PALETTE_COLORS) :
    parseColorLine chunk p cur
      = if v1 < 0 ∨ v1 > 255 ∨ v2 < 0 ∨ v2 > 255 ∨ v3 < 0 ∨ v3 > 255 then .error .exited
        else .ok (setB (setG (setR p cur v1) cur v2) cur v3) := by
  have htail1 : ∀ x ∈ sep1.tail, isBlank x = true :=
    fun x hx => hs1.2 x (List.mem_of_mem_tail hx)
  have htail2 : ∀ x ∈ sep2.tail, isBlank x = true :=
    fun x hx => hs2.2 x (List.mem_of_mem_tail hx)
  have s1 := strtok_sep lead t1 sep1 (t2 ++ (sep2 ++ (t3 ++ R))) hlead h1.1 h1.2 hs1.1 hs1.2
  have s2 : strtok (sep1.tail ++ (t2 ++ (sep2 ++ (t3 ++ R)))) [' ', '\t']
      = some (t2, sep2.tail ++ (t3 ++ R)) := by
    have := strtok_sep sep1.tail t2 sep2 (t3 ++ R) htail1 h2.1 h2.2 hs2.1 hs2.2
    rwa [List.append_assoc] at this
  have s3 : strtok (sep2.tail ++ (t3 ++ R)) [' ', '\t']
      = some (t3, (R.dropWhile (fun c => !isBlank c)).drop 1) := by
    have := strtok_token sep2.tail t3 R htail2 h3.1 h3.2
    rw [List.append_assoc] at this
    rw [this, takeWhile_head_false _ R (fun x hx => by simp [hR x hx])]
    simp
  have hcap : ¬ (MAX_PALETTE_COLORS ≤ cur) := by omega
  unfold parseColorLine
  simp only [hstr, s1, a1, if_neg hcap, s2, a2, s3, a3]
  simp only [setB, setG, setR, if_true]

theorem takeWhile_digits_append (d X : List Char) (hd : ∀ c ∈ d, c.isDigit = true)
    (hX : ∀ x, X.head? = some x → x.isDigit = false) :
    (d ++ X).takeWhile Char.isDigit = d := by
  rw [takeWhile_append_all _ _ _ hd, takeWhile_head_false _ X hX]
  simp

/-- `atoi` on a token and what follows it, when the token has other characters after its
digits or what follows does not start with a digit. -/
theorem atoi_token (t : Token) (X : List Char) (hwf : t.wellFormed)
    (hX : t.junk = [] → ∀ x, X.head? = some x → x.isDigit = false) :
    atoi (t.text ++ X) = some t.value := by
  obtain ⟨hdig, hval, hjunk, hjhead, hne, hword⟩ := hwf
  have hJX : ∀ x, (t.junk ++ X).head? = some x → x.isDigit = false := by
    intro x hx
    by_cases hj : t.junk = []
    · rw [hj, List.nil_append] at hx
      exact hX hj x hx
    · rw [head_append_ne_nil _ _ hj] at hx
      exact hjhead x hx
  have htw : (t.digits ++ (t.junk ++ X)).takeWhile Char.isDigit = t.digits :=
    takeWhile_digits_append _ _ hdig hJX
  have hv : (digitsValue t.digits : Int) < 2 ^ 31 := by exact_mod_cast hval
  have hv0 : (0 : Int) ≤ (digitsValue t.digits : Int) := Int.natCast_nonneg _
  cases hm : t.minus with
  | true =>
    have htext : t.text ++ X = '-' :: (t.digits ++ (t.junk ++ X)) := by
      simp [Token.text, hm, List.append_assoc]
    rw [htext]
    unfold atoi
    have hsp : ('-' :: (t.digits ++ (t.junk ++ X))).dropWhile isspace
        = '-' :: (t.digits ++ (t.junk ++ X)) := by
      simp [List.dropWhile_cons, isspace]
    simp only [hsp, List.head?_cons, true_or, if_true, List.drop_succ_cons, List.drop_zero,
      htw, decide_True, Token.value, hm]
    rw [if_pos (by constructor <;> omega)]
  | false =>
    have htext : t.text ++ X = t.digits ++ (t.junk ++ X) := by
      simp [Token.text, hm, List.append_assoc]
    rw [htext]
    cases hd : t.digits with
    | nil =>
      obtain ⟨j0, jt, hj⟩ : ∃ j0 jt, t.junk = j0 :: jt := by
        cases hjk : t.junk with
        | nil => exact absurd (by simp [Token.text, hm, hd, hjk]) hne
        | cons a b => exact ⟨a, b, rfl⟩
      obtain ⟨hm1, hp1, hs1⟩ := hword hm hd j0 (by simp [hj])
      have hd0 : j0.isDigit = false := hjhead j0 (by simp [hj])
      unfold atoi
      have hsp : ([] ++ (t.junk ++ X)).dropWhile isspace = j0 :: (jt ++ X) := by
        simp [hj, List.dropWhile_cons, hs1]
      have hsign : ¬ (some j0 = some '-' ∨ some j0 = some '+') := by simp [hm1, hp1]
      have hneg : decide (some j0 = some '-') = false := by simp [hm1]
      simp only [hsp, List.head?_cons, if_neg hsign, hneg, List.takeWhile_cons, hd0,
        Token.value, hm, hd]
      simp [digitsValue]
    | cons d0 dt =>
      have h0 : d0.isDigit = true := hdig d0 (by simp [hd])
      have hm1 : d0 ≠ '-' := digit_ne d0 '-' h0 (by decide)
      have hp1 : d0 ≠ '+' := digit_ne d0 '+' h0 (by decide)
      have hsign : ¬ (some d0 = some '-' ∨ some d0 = some '+') := by simp [hm1, hp1]
      have hneg : decide (some d0 = some '-') = false := by simp [hm1]
      rw [hd] at htw hv hv0
      rw [List.cons_append] at htw
      have hsp : (d0 :: (dt ++ (t.junk ++ X))).dropWhile isspace
          = d0 :: (dt ++ (t.junk ++ X)) := by
        simp [List.dropWhile_cons, digit_not_space d0 h0]
      unfold atoi
      simp only [List.cons_append, hsp, List.head?_cons, if_neg hsign, hneg, htw,
        Token.value, hm, hd]
      rw [if_pos (by constructor <;> simp <;> omega)]

theorem head_dropWhile_not (p : Char → Bool) (l : List Char) (x : Char)
    (h : (l.dropWhile p).head? = some x) : p x = false := by
  induction l with
  | nil => simp at h
  | cons y t ih =>
    by_cases hy : p y = true
    · rw [List.dropWhile_cons, if_pos hy] at h
      exact ih h
    · rw [List.dropWhile_cons, if_neg hy] at h
      simp only [List.head?_cons, Option.some.injEq] at h
      subst h
      simpa using hy

theorem token_chars (t : Token) (hwf : t.wellFormed) :
    ∀ x ∈ t.text, isBlank x = false ∧ x ≠ '\x00' ∧ x ≠ '\n' := by
  obtain ⟨hdig, -, hjunk, -, -, -⟩ := hwf
  intro x hx
  simp only [Token.text, List.mem_append] at hx
  rcases hx with (hx | hx) | hx
  · cases hm : t.minus with
    | true =>
      rw [hm] at hx
      simp only [if_true, List.mem_singleton] at hx
      subst hx
      exact ⟨by decide, by decide, by decide⟩
    | false =>
      rw [hm] at hx
      simp at hx
  · exact ⟨digit_not_blank x (hdig x hx), digit_ne_nul x (hdig x hx),
      digit_ne_newline x (hdig x hx)⟩
  · exact hjunk x hx

/-- The part of a token line before its trailing text. -/
theorem tokenLine_parts (c : TokenLine) (hwf : c.wellFormed) :
    ∃ A, c.text = A ++ c.trail ∧ A ≠ []
      ∧ A = c.lead ++ c.t1.text ++ (c.sep1 ++ (c.t2.text ++ (c.sep2 ++ c.t3.text)))
      ∧ ∀ x ∈ A, x ≠ '\x00' ∧ x ≠ '\n' := by
  obtain ⟨hlead, h1, -, hs1, h2, -, hs2, h3, -, -, -⟩ := hwf
  refine ⟨c.lead ++ c.t1.text ++ (c.sep1 ++ (c.t2.text ++ (c.sep2 ++ c.t3.text))), ?_, ?_, rfl, ?_⟩
  · simp [TokenLine.text, List.append_assoc]
  · have := h1.2.2.2.2.1
    simp [this]
  · intro x hx
    simp only [List.mem_append] at hx
    rcases hx with (hx | hx) | hx | hx | hx | hx
    · exact ⟨blank_ne_nul x (hlead x hx), blank_ne_newline x (hlead x hx)⟩
    · exact (token_chars _ h1 x hx).2
    · exact ⟨blank_ne_nul x (hs1 x hx), blank_ne_newline x (hs1 x hx)⟩
    · exact (token_chars _ h2 x hx).2
    · exact ⟨blank_ne_nul x (hs2 x hx), blank_ne_newline x (hs2 x hx)⟩
    · exact (token_chars _ h3 x hx).2

/-- The three values of a well-formed token line in `chunk`, with or without its newline,
are range-checked and stored. -/
theorem parseColorLine_tokenLine (c : TokenLine) (term : List Char) (p : paletteT) (cur : Nat)
    (hwf : c.wellFormed) (hterm : term = ['\n'] ∨ term = [])
    (hcur : cur < MAX_PALETTE_COLORS) :
    parseColorLine (c.text ++ term) p cur
      = if c.t1.value < 0 ∨ c.t1.value > 255 ∨ c.t2.value < 0 ∨ c.t2.value > 255
            ∨ c.t3.value < 0 ∨ c.t3.value > 255 then .error .exited
        else .ok (setB (setG (setR p cur c.t1.value) cur c.t2.value) cur c.t3.value) := by
  obtain ⟨A, htext, -, hA, hAch⟩ := tokenLine_parts c hwf
  obtain ⟨hlead, h1, hs1ne, hs1, h2, hs2ne, hs2, h3, -, htrail, -⟩ := hwf
  have hR0 : ∀ x, (cstr (c.trail ++ term)).head? = some x → x.isDigit = false := by
    intro x hx
    have hx1 := head_takeWhile _ _ x hx
    by_cases ht : c.trail = []
    · rw [ht, List.nil_append] at hx1
      rcases hterm with rfl | rfl
      · simp only [List.head?_cons, Option.some.injEq] at hx1
        subst hx1
        decide
      · simp at hx1
    · rw [head_append_ne_nil _ _ ht] at hx1
      have hb := htrail x hx1
      cases hd : x.isDigit with
      | false => rfl
      | true => rw [digit_not_blank x hd] at hb; exact absurd hb (by decide)
  have hsplit : (cstr (c.trail ++ term)).takeWhile (fun c => !isBlank c)
      ++ (cstr (c.trail ++ term)).dropWhile (fun c => !isBlank c) = cstr (c.trail ++ term) :=
    List.takeWhile_append_dropWhile _ _
  have hstr : cstr (c.text ++ term)
      = c.lead ++ c.t1.text ++ (c.sep1 ++ (c.t2.text ++ (c.sep2
          ++ ((c.t3.text ++ (cstr (c.trail ++ term)).takeWhile (fun c => !isBlank c))
            ++ (cstr (c.trail ++ term)).dropWhile (fun c => !isBlank c))))) := by
    rw [htext, List.append_assoc, cstr_append A _ (fun x hx => (hAch x hx).1), hA,
      List.append_assoc c.t3.text, hsplit]
    simp [List.append_assoc]
  have hne3 : c.t3.text ++ (cstr (c.trail ++ term)).takeWhile (fun c => !isBlank c) ≠ [] := by
    have := h3.2.2.2.2.1
    simp [this]
  have hnb3 : ∀ x ∈ c.t3.text ++ (cstr (c.trail ++ term)).takeWhile (fun c => !isBlank c),
      isBlank x = false := by
    intro x hx
    rcases List.mem_append.mp hx with hx | hx
    · exact (token_chars _ h3 x hx).1
    · have := List.mem_takeWhile_imp hx
      simpa using this
  have hRb : ∀ x, ((cstr (c.trail ++ term)).dropWhile (fun c => !isBlank c)).head? = some x →
      isBlank x = true := by
    intro x hx
    have := head_dropWhile_not _ _ x hx
    simpa using this
  have a1 : atoi c.t1.text = some c.t1.value := by
    have := atoi_token c.t1 [] h1 (by simp)
    rwa [List.append_nil] at this
  have a2 : atoi c.t2.text = some c.t2.value := by
    have := atoi_token c.t2 [] h2 (by simp)
    rwa [List.append_nil] at this
  have a3 : atoi (c.t3.text ++ (cstr (c.trail ++ term)).takeWhile (fun c => !isBlank c))
      = some c.t3.value :=
    atoi_token c.t3 _ h3 (fun _ x hx => hR0 x (head_takeWhile _ _ x hx))
  exact parseColorLine_tokens _ c.lead c.t1.text c.sep1 c.t2.text c.sep2 _ _ p cur _ _ _ hstr
    hlead ⟨h1.2.2.2.2.1, fun x hx => (token_chars _ h1 x hx).1⟩ ⟨hs1ne, hs1⟩
    ⟨h2.2.2.2.2.1, fun x hx => (token_chars _ h2 x hx).1⟩ ⟨hs2ne, hs2⟩ ⟨hne3, hnb3⟩ hRb
    a1 a2 a3 hcur

theorem tokenLine_head (c : TokenLine) (term : List Char) (hwf : c.wellFormed) :
    ∃ x, (c.text ++ term).headD '\x00' = x
      ∧ x ≠ '#' ∧ x ≠ 'N' ∧ x ≠ 'C' ∧ x ≠ '\x00' := by
  obtain ⟨A, htext, hAne, -, hAch⟩ := tokenLine_parts c hwf
  obtain ⟨a0, at', hAeq⟩ : ∃ a0 at', A = a0 :: at' := by
    cases hA' : A with
    | nil => exact absurd hA' hAne
    | cons a b => exact ⟨a, b, rfl⟩
  have hfirst := hwf.2.2.2.2.2.2.2.2.2.2 a0 (by rw [htext, hAeq]; rfl)
  refine ⟨a0, ?_, hfirst.1, hfirst.2.1, hfirst.2.2, (hAch a0 (by simp [hAeq])).1⟩
  rw [htext, hAeq]
  rfl

/-- The loop body on a token line whose three values lie in 0..255 stores them and goes
on. -/
theorem loopBody_tokenLine_valid (c : TokenLine) (term : List Char) (p : paletteT) (cur : Nat)
    (hwf : c.wellFormed) (hterm : term = ['\n'] ∨ term = [])
    (hcur : cur < MAX_PALETTE_COLORS) (hnum : p.numColors ≤ 2047) (hv : validColor c.color) :
    loopBody (c.text ++ term) p cur = .ok (pushColor p cur c.color, cur + 1) := by
  obtain ⟨x, hx, hxne⟩ := tokenLine_head c term hwf
  have hfull : ¬ (p.numColors > (MAX_PALETTE_COLORS : Int) - 1) := by
    unfold MAX_PALETTE_COLORS
    push_cast
    omega
  have hrange : ¬ (c.t1.value < 0 ∨ c.t1.value > 255 ∨ c.t2.value < 0 ∨ c.t2.value > 255
      ∨ c.t3.value < 0 ∨ c.t3.value > 255) := by
    unfold validColor TokenLine.color at hv
    simp only at hv
    omega
  unfold loopBody
  rw [hx, if_pos hxne, if_neg hfull, parseColorLine_tokenLine c term p cur hwf hterm hcur,
    if_neg hrange]
  simp only [setRGB_eq]
  rfl

/-- The loop body on a token line with a value outside 0..255 ends in `exit(1)`. -/
theorem loopBody_tokenLine_invalid (c : TokenLine) (term : List Char) (p : paletteT)
    (cur : Nat) (hwf : c.wellFormed) (hterm : term = ['\n'] ∨ term = [])
    (hcur : cur < MAX_PALETTE_COLORS) (hnum : p.numColors ≤ 2047) (hv : ¬ validColor c.color) :
    loopBody (c.text ++ term) p cur = .error .exited := by
  obtain ⟨x, hx, hxne⟩ := tokenLine_head c term hwf
  have hfull : ¬ (p.numColors > (MAX_PALETTE_COLORS : Int) - 1) := by
    unfold MAX_PALETTE_COLORS
    push_cast
    omega
  have hrange : c.t1.value < 0 ∨ c.t1.value > 255 ∨ c.t2.value < 0 ∨ c.t2.value > 255
      ∨ c.t3.value < 0 ∨ c.t3.value > 255 := by
    unfold validColor TokenLine.color at hv
    simp only at hv
    omega
  unfold loopBody
  rw [hx, if_pos hxne, if_neg hfull, parseColorLine_tokenLine c term p cur hwf hterm hcur,
    if_pos hrange]

theorem tokenLine_fgets (c : TokenLine) (term rest : List Char) (hwf : c.wellFormed)
    (hlen : (c.text ++ term).length ≤ 1047) (hterm : lineEnd term rest) :
    fgets 1048 (c.text ++ term ++ rest) = some (c.text ++ term, rest) := by
  obtain ⟨A, htext, hAne, -, hAch⟩ := tokenLine_parts c hwf
  have hne : c.text ≠ [] := by
    rw [htext]
    simp [hAne]
  have hnl : '\n' ∉ c.text := by
    rw [htext]
    intro h
    rcases List.mem_append.mp h with h | h
    · exact (hAch _ h).2 rfl
    · exact hwf.2.2.2.2.2.2.2.2.1 h
  exact fgets_text c.text term rest hne hnl hlen hterm

theorem lineEnd_cases {term rest : List Char} (h : lineEnd term rest) :
    term = ['\n'] ∨ term = [] := by
  rcases h with h | ⟨h, -⟩
  · exact Or.inl h
  · exact Or.inr h

/-- One pass of the loop over a token line with values in 0..255. -/
theorem readLines_tokenLine_valid (c : TokenLine) (term rest : List Char) (p : paletteT)
    (cur : Nat) (hwf : c.wellFormed) (hlen : (c.text ++ term).length ≤ 1047)
    (hterm : lineEnd term rest) (hcur : cur < 2048) (hnum : p.numColors ≤ 2047)
    (hv : validColor c.color) :
    readLines ((c.text ++ term ++ rest).length + 1) (c.text ++ term ++ rest) p cur
      = readLines (rest.length + 1) rest (pushColor p cur c.color) (cur + 1) := by
  rw [readLines_step _ _ _ p cur (tokenLine_fgets c term rest hwf hlen hterm),
    loopBody_tokenLine_valid c term p cur hwf (lineEnd_cases hterm) hcur hnum hv]

/-- One pass of the loop over a token line with a value outside 0..255. -/
theorem readLines_tokenLine_invalid (c : TokenLine) (term rest : List Char) (p : paletteT)
    (cur : Nat) (hwf : c.wellFormed) (hlen : (c.text ++ term).length ≤ 1047)
    (hterm : lineEnd term rest) (hcur : cur < 2048) (hnum : p.numColors ≤ 2047)
    (hv : ¬ validColor c.color) :
    readLines ((c.text ++ term ++ rest).length + 1) (c.text ++ term ++ rest) p cur
      = .exited := by
  rw [readLines_step _ _ _ p cur (tokenLine_fgets c term rest hwf hlen hterm),
    loopBody_tokenLine_invalid c term p cur hwf (lineEnd_cases hterm) hcur hnum hv]

/-- The call on a header line and well-formed lines that fit the chunk buffer arrives at
what follows them with their colours stored. -/
theorem loadGimpPalette_lines (headerTail : List Char) (lines : List GplLine)
    (X : List Char) (p0 : paletteT)
    (hhdr : '\n' ∉ headerTail ∧ headerTail.length + 13 ≤ 1047)
    (hlines : ∀ l ∈ lines, l.wellFormed ∧ l.text.length + 1 ≤ 1047)
    (hcount : (coloursOf lines).length ≤ 2048)
    (hp0 : p0.numColors + (coloursOf lines).length ≤ 2048) :
    loadGimpPalette (some ("GIMP Palette".toList ++ headerTail ++ '\n' :: (renderLines lines ++ X)))
        p0
      = readLines (X.length + 1) X (pushAll p0 0 (coloursOf lines)) (coloursOf lines).length := by
  rw [loadGimpPalette_header headerTail _ p0 hhdr.1 hhdr.2,
    readLines_renderLines lines X p0 0 hlines (by omega) hp0]
  simp

/-- C11 (amended).  When the header line and the lines before it are well formed and fit
the chunk buffer, fewer than 2048 colours are stored, and a colour line that fits the
buffer has a red, green or blue value (as `atoi` reads it) below 0 or above 255, the call
ends in `exit(1)`: no palette is returned and `main` does not reach `saveAse`.  The lines
`300 0 0` and `-1 0 0` are rejected, the values 0 and 255 are accepted. -/
theorem C11_out_of_range_rejected (le : Bool) (fuel : Nat) (headerTail : List Char)
    (lines : List GplLine) (bad : TokenLine) (term rest : List Char) (p0 : paletteT)
    (hhdr : '\n' ∉ headerTail ∧ headerTail.length + 13 ≤ 1047)
    (hlines : ∀ l ∈ lines, l.wellFormed ∧ l.text.length + 1 ≤ 1047)
    (hcount : (coloursOf lines).length ≤ 2047)
    (hp0 : p0.numColors + (coloursOf lines).length ≤ 2047)
    (hbad : bad.wellFormed) (hfit : (bad.text ++ term).length ≤ 1047)
    (hterm : lineEnd term rest) (hrange : ¬ validColor bad.color) :
    loadGimpPalette (some ("GIMP Palette".toList ++ headerTail
          ++ '\n' :: (renderLines lines ++ (bad.text ++ term ++ rest)))) p0 = .exited
      ∧ main le fuel (some ("GIMP Palette".toList ++ headerTail
          ++ '\n' :: (renderLines lines ++ (bad.text ++ term ++ rest)))) p0 = none
      ∧ loadGimpPalette (some "GIMP Palette\n300 0 0\n".toList) emptyPalette = .exited
      ∧ loadGimpPalette (some "GIMP Palette\n-1 0 0\n".toList) emptyPalette = .exited
      ∧ ∃ p, loadGimpPalette (some "GIMP Palette\n0 255 0\n".toList) emptyPalette = .returned p
          ∧ p.numColors = 1 ∧ p.colors 0 = ⟨0, 255, 0⟩ := by
  have hload : loadGimpPalette (some ("GIMP Palette".toList ++ headerTail
      ++ '\n' :: (renderLines lines ++ (bad.text ++ term ++ rest)))) p0 = .exited := by
    rw [loadGimpPalette_lines headerTail lines _ p0 hhdr hlines (by omega) (by omega)]
    exact readLines_tokenLine_invalid bad term rest _ _ hbad hfit hterm (by omega)
      (by rw [pushAll_numColors]; omega) hrange
  refine ⟨hload, ?_, rfl, rfl, ⟨_, rfl, rfl, rfl⟩⟩
  unfold main
  rw [hload]

theorem C11_out_of_range_rejected_witness :
    loadGimpPalette (some ("GIMP Palette".toList ++ []
          ++ '\n' :: (renderLines [GplLine.skip '#' "c".toList]
            ++ (TokenLine.text ⟨[], ⟨false, "300".toList, []⟩, " ".toList,
                ⟨false, "0".toList, []⟩, " ".toList, ⟨false, "0".toList, []⟩, []⟩
              ++ ['\n'] ++ [])))) emptyPalette = .exited
      ∧ main true 9 (some ("GIMP Palette".toList ++ []
          ++ '\n' :: (renderLines [GplLine.skip '#' "c".toList]
            ++ (TokenLine.text ⟨[], ⟨false, "300".toList, []⟩, " ".toList,
                ⟨false, "0".toList, []⟩, " ".toList, ⟨false, "0".toList, []⟩, []⟩
              ++ ['\n'] ++ [])))) emptyPalette = none
      ∧ loadGimpPalette (some "GIMP Palette\n300 0 0\n".toList) emptyPalette = .exited
      ∧ loadGimpPalette (some "GIMP Palette\n-1 0 0\n".toList) emptyPalette = .exited
      ∧ ∃ p, loadGimpPalette (some "GIMP Palette\n0 255 0\n".toList) emptyPalette = .returned p
          ∧ p.numColors = 1 ∧ p.colors 0 = ⟨0, 255, 0⟩ :=
  C11_out_of_range_rejected true 9 [] [GplLine.skip '#' "c".toList]
    ⟨[], ⟨false, "300".toList, []⟩, " ".toList, ⟨false, "0".toList, []⟩, " ".toList,
      ⟨false, "0".toList, []⟩, []⟩ ['\n'] [] emptyPalette (by decide)
    (by
      intro l hl
      simp only [List.mem_singleton] at hl
      subst hl
      exact ⟨⟨Or.inl rfl, by decide⟩, by decide⟩)
    (by decide) (by decide)
    (by
      refine ⟨by decide, ?_, by decide, by decide, ?_, by decide, by decide, ?_, by decide,
        by decide, ?_⟩
      · exact ⟨by decide, by decide, by decide, by decide, by decide, by decide⟩
      · exact ⟨by decide, by decide, by decide, by decide, by decide, by decide⟩
      · exact ⟨by decide, by decide, by decide, by decide, by decide, by decide⟩
      · intro x hx
        simp only [TokenLine.text, Token.text, String.toList, Bool.false_eq_true, if_false,
          List.nil_append, List.append_nil, List.cons_append, List.head?_cons,
          Option.some.injEq] at hx
        subst hx
        decide)
    (by decide) (Or.inl rfl) (by unfold validColor; decide)

/-- C11 (counterexample).  The colour line `1 2`, 1042 spaces, `300 0 0` has the blue value
300, but `fgets` cuts it after 1047 characters: the first chunk ends in `30` and is stored
as (1,2,30), the rest `0 0 0` is stored as a second colour, and the call returns. -/
theorem C11_split_line_counterexample :
    digitsValue "300".toList = 300
      ∧ (loadGimpPalette (some ("GIMP Palette\n".toList
          ++ ColourLine.text ⟨[], "1".toList, " ".toList, "2".toList, List.replicate 1042 ' ',
            "300".toList, " 0 0".toList⟩ ++ ['\n'])) emptyPalette).colours 2
        = some (2, [⟨1, 2, 30⟩, ⟨0, 0, 0⟩]) := by
  decide!

theorem isExited_iff (r : LoadResult) : r.isExited = true ↔ r = .exited := by
  cases r <;> simp [LoadResult.isExited]

/-- C12 (amended).  A colour line with three tokens is not rejected for a token that is
not a decimal integer: each token is converted by `atoi` (the value of its leading digits,
0 when it has none), and when the three values lie in 0..255 the colour is stored and the
loop goes on with the rest of the file.  The line `abc 1 2` stores (0,1,2). -/
theorem C12_tokens_converted (headerTail : List Char) (lines : List GplLine) (c : TokenLine)
    (term rest : List Char) (p0 : paletteT)
    (hhdr : '\n' ∉ headerTail ∧ headerTail.length + 13 ≤ 1047)
    (hlines : ∀ l ∈ lines, l.wellFormed ∧ l.text.length + 1 ≤ 1047)
    (hcount : (coloursOf lines).length ≤ 2047)
    (hp0 : p0.numColors + (coloursOf lines).length ≤ 2047)
    (hc : c.wellFormed) (hfit : (c.text ++ term).length ≤ 1047)
    (hterm : lineEnd term rest) (hrange : validColor c.color) :
    loadGimpPalette (some ("GIMP Palette".toList ++ headerTail
          ++ '\n' :: (renderLines lines ++ (c.text ++ term ++ rest)))) p0
        = readLines (rest.length + 1) rest
            (pushColor (pushAll p0 0 (coloursOf lines)) (coloursOf lines).length c.color)
            ((coloursOf lines).length + 1)
      ∧ ∃ p, loadGimpPalette (some "GIMP Palette\nabc 1 2\n".toList) emptyPalette = .returned p
          ∧ p.numColors = 1 ∧ p.colors 0 = ⟨0, 1, 2⟩ := by
  refine ⟨?_, ⟨_, rfl, rfl, rfl⟩⟩
  rw [loadGimpPalette_lines headerTail lines _ p0 hhdr hlines (by omega) (by omega)]
  exact readLines_tokenLine_valid c term rest _ _ hc hfit hterm (by omega)
    (by rw [pushAll_numColors]; omega) hrange

theorem C12_tokens_converted_witness :
    loadGimpPalette (some ("GIMP Palette".toList ++ []
          ++ '\n' :: (renderLines []
            ++ (TokenLine.text ⟨[], ⟨false, [], "abc".toList⟩, " ".toList,
                ⟨false, "1".toList, []⟩, " ".toList, ⟨false, "2".toList, []⟩, []⟩
              ++ ['\n'] ++ [])))) emptyPalette
        = readLines (([] : List Char).length + 1) []
            (pushColor (pushAll emptyPalette 0 (coloursOf [])) (coloursOf []).length
              (TokenLine.color ⟨[], ⟨false, [], "abc".toList⟩, " ".toList,
                ⟨false, "1".toList, []⟩, " ".toList, ⟨false, "2".toList, []⟩, []⟩))
            ((coloursOf []).length + 1)
      ∧ ∃ p, loadGimpPalette (some "GIMP Palette\nabc 1 2\n".toList) emptyPalette = .returned p
          ∧ p.numColors = 1 ∧ p.colors 0 = ⟨0, 1, 2⟩ :=
  C12_tokens_converted [] []
    ⟨[], ⟨false, [], "abc".toList⟩, " ".toList, ⟨false, "1".toList, []⟩, " ".toList,
      ⟨false, "2".toList, []⟩, []⟩ ['\n'] [] emptyPalette (by decide)
    (fun l hl => absurd hl (List.not_mem_nil l)) (by decide) (by decide)
    (by
      refine ⟨by decide, ?_, by decide, by decide, ?_, by decide, by decide, ?_, by decide,
        by decide, ?_⟩
      · refine ⟨by decide, by decide, by decide, by decide, by decide, ?_⟩
        intro _ _ x hx
        simp only [String.toList, List.head?_cons, Option.some.injEq] at hx
        subst hx
        decide
      · exact ⟨by decide, by decide, by decide, by decide, by decide, by decide⟩
      · exact ⟨by decide, by decide, by decide, by decide, by decide, by decide⟩
      · intro x hx
        simp only [TokenLine.text, Token.text, String.toList, Bool.false_eq_true, if_false,
          List.nil_append, List.append_nil, List.cons_append, List.head?_cons,
          Option.some.injEq] at hx
        subst hx
        decide)
    (by decide) (Or.inl rfl) (by unfold validColor; decide)

/-- C12 (counterexample).  The file `GIMP Palette`, `abc 1 2` is not rejected: `atoi` turns
`abc` into 0, the range test passes and the call returns with the colour (0,1,2) stored
for that line. -/
theorem C12_non_numeric_token_counterexample :
    atoi "abc".toList = some 0
      ∧ ∃ p, loadGimpPalette (some "GIMP Palette\nabc 1 2\n".toList) emptyPalette = .returned p
          ∧ p.numColors = 1 ∧ p.colors 0 = ⟨0, 1, 2⟩ :=
  ⟨by decide, ⟨_, rfl, rfl, rfl⟩⟩

/-- Once the palette is full the loop stores nothing more, whatever the rest of the file
holds: it skips lines or leaves at the capacity test. -/
theorem readLines_full (p : paletteT) (hp : p.numColors > 2047) (fuel : Nat) :
    ∀ (fp : List Char) (cur : Nat), fp.length < fuel → readLines fuel fp p cur = .returned p := by
  have hfull : p.numColors > (MAX_PALETTE_COLORS : Int) - 1 := by
    unfold MAX_PALETTE_COLORS
    push_cast
    omega
  induction fuel with
  | zero => intro fp cur h; omega
  | succ n ih =>
    intro fp cur h
    simp only [readLines]
    cases hf : fgets 1048 fp with
    | none => rfl
    | some r =>
      obtain ⟨chunk, fp1⟩ := r
      have hlen := fgets_length hf
      have hbody : loopBody chunk p cur = .error (.returned p)
          ∨ loopBody chunk p cur = .ok (p, cur) := by
        unfold loopBody
        by_cases hc : chunk.headD '\x00' ≠ '#' ∧ chunk.headD '\x00' ≠ 'N'
            ∧ chunk.headD '\x00' ≠ 'C' ∧ chunk.headD '\x00' ≠ '\x00'
        · left
          rw [if_pos hc, if_pos hfull]
        · right
          rw [if_neg hc]
      rcases hbody with hb | hb
      · simp only [hb]
      · simp only [hb]
        exact ih fp1 cur (by omega)

/-- C13 (amended).  When the header line and the lines up to the 2048th colour line are
well formed and fit the chunk buffer, the call on a palette with `numColors = 0` returns
with `numColors = 2048` and `colors[i]` the i-th colour line for every i < 2048, whatever
the rest of the file contains. -/
theorem C13_capacity_truncation (headerTail : List Char) (lines : List GplLine)
    (rest : List Char) (p0 : paletteT) (hp0 : p0.numColors = 0)
    (hhdr : '\n' ∉ headerTail ∧ headerTail.length + 13 ≤ 1047)
    (hlines : ∀ l ∈ lines, l.wellFormed ∧ l.text.length + 1 ≤ 1047)
    (hcount : (coloursOf lines).length = 2048) :
    ∃ p, loadGimpPalette (some ("GIMP Palette".toList ++ headerTail
            ++ '\n' :: (renderLines lines ++ rest))) p0 = .returned p
      ∧ p.numColors = 2048
      ∧ ∀ i, i < 2048 → (coloursOf lines)[i]? = some (p.colors i) := by
  refine ⟨pushAll p0 0 (coloursOf lines), ?_, ?_, ?_⟩
  · rw [loadGimpPalette_lines headerTail lines rest p0 hhdr hlines (by omega)
      (by rw [hp0, hcount]; norm_num)]
    exact readLines_full _ (by rw [pushAll_numColors, hp0, hcount]; norm_num) _ rest _
      (by omega)
  · rw [pushAll_numColors, hp0, hcount]
    norm_num
  · intro i hi
    have := pushAll_colors p0 0 (coloursOf lines) i (by omega)
    simpa using this

theorem coloursOf_replicate (c : ColourLine) (n : Nat) :
    coloursOf (List.replicate n (GplLine.colour c)) = List.replicate n c.color := by
  induction n with
  | zero => rfl
  | succ k ih => simp [List.replicate_succ, coloursOf, ih]

theorem C13_capacity_truncation_witness :
    ∃ p, loadGimpPalette (some ("GIMP Palette".toList ++ []
            ++ '\n' :: (renderLines (List.replicate 2048 (GplLine.colour
                ⟨[], "1".toList, " ".toList, "2".toList, " ".toList, "3".toList, []⟩))
              ++ "4 5 6\n".toList))) emptyPalette = .returned p
      ∧ p.numColors = 2048
      ∧ ∀ i, i < 2048 → (coloursOf (List.replicate 2048 (GplLine.colour
          ⟨[], "1".toList, " ".toList, "2".toList, " ".toList, "3".toList, []⟩)))[i]?
        = some (p.colors i) :=
  C13_capacity_truncation [] (List.replicate 2048 (GplLine.colour
      ⟨[], "1".toList, " ".toList, "2".toList, " ".toList, "3".toList, []⟩))
    "4 5 6\n".toList emptyPalette rfl (by decide)
    (by
      intro l hl
      rw [List.eq_of_mem_replicate hl]
      refine ⟨⟨by decide, ⟨by decide, by decide⟩, by decide, by decide, by decide,
        ⟨by decide, by decide⟩, by decide, by decide, by decide, ⟨by decide, by decide⟩,
        by decide, by decide, ?_⟩, by decide⟩
      intro x hx
      simp at hx)
    (by rw [coloursOf_replicate, List.length_replicate])

/-- C13 (counterexample).  The header line `GIMP Palette`, 1035 spaces, `300 0 0` is cut by
`fgets` after 1047 characters; the rest of it, `300 0 0`, is read as a colour line and
fails the range test, so the call ends in `exit(1)` although all of the 2049 colour lines
that follow are well formed. -/
theorem C13_long_header_counterexample :
    loadGimpPalette (some ("GIMP Palette".toList ++ (List.replicate 1035 ' ' ++ "300 0 0".toList)
        ++ '\n' :: (renderLines (List.replicate 2049 (GplLine.colour
            ⟨[], "1".toList, " ".toList, "2".toList, " ".toList, "3".toList, []⟩)) ++ [])))
      emptyPalette = .exited :=
  (isExited_iff _).1 (by decide!)

/-! ## Theorems: the palette invariant -/

/-- A colour line that is parsed without ending the call stores three values in 0..255 at
an index inside the array. -/
theorem parseColorLine_ok (chunk : List Char) (p q : paletteT) (cur : Nat)
    (h : parseColorLine chunk p cur = .ok q) :
    ∃ r g b : Int, q = setB (setG (setR p cur r) cur g) cur b
      ∧ validColor ⟨r, g, b⟩ ∧ cur < MAX_PALETTE_COLORS := by
  unfold parseColorLine at h
  split at h
  · simp at h
  · split at h
    · simp at h
    · rename_i r _
      split at h
      · simp at h
      · rename_i hcur
        split at h
        · simp at h
        · split at h
          · simp at h
          · rename_i g _
            split at h
            · simp at h
            · split at h
              · simp at h
              · rename_i b _
                simp only at h
                split at h
                · simp at h
                · rename_i hrange
                  simp only [Except.ok.injEq] at h
                  refine ⟨r, g, b, h.symm, ?_, by omega⟩
                  simp only [setB, setG, setR, if_true] at hrange
                  unfold validColor
                  simp only
                  omega

theorem loopBody_ok_inv (chunk : List Char) (p p' : paletteT) (cur cur' : Nat)
    (hinv : loopInv p cur) (h : loopBody chunk p cur = .ok (p', cur')) : loopInv p' cur' := by
  unfold loopBody at h
  split at h
  · split at h
    · simp at h
    · rename_i hfull
      cases hq : parseColorLine chunk p cur with
      | error e => simp [hq] at h
      | ok q =>
        obtain ⟨r, g, b, hqeq, hvalid, hcur⟩ := parseColorLine_ok chunk p q cur hq
        simp only [hq, Except.ok.injEq, Prod.mk.injEq] at h
        obtain ⟨hp', hc'⟩ := h
        obtain ⟨⟨h0, h1, hcol⟩, hcn⟩ := hinv
        have hpush : p' = pushColor p cur ⟨r, g, b⟩ := by
          rw [← hp', hqeq]
          exact setRGB_eq p cur r g b
        unfold MAX_PALETTE_COLORS at hfull h1 hcur
        push_cast at hfull h1
        subst hpush
        subst hc'
        refine ⟨⟨?_, ?_, ?_⟩, ?_⟩
        · simp only [pushColor]
          omega
        · simp only [pushColor]
          unfold MAX_PALETTE_COLORS
          push_cast
          omega
        · intro i hi
          simp only [pushColor] at hi ⊢
          by_cases hic : i = cur
          · simp [hic, hvalid]
          · simp only [if_neg hic]
            exact hcol i (by omega)
        · simp only [pushColor]
          push_cast
          omega
  · simp only [Except.ok.injEq, Prod.mk.injEq] at h
    obtain ⟨rfl, rfl⟩ := h
    exact hinv

theorem parseColorLine_ne_returned (chunk : List Char) (p : paletteT) (cur : Nat)
    (q : paletteT) : parseColorLine chunk p cur ≠ .error (.returned q) := by
  unfold parseColorLine
  repeat' split
  all_goals first
    | simp; done
    | (intro h; simp only at h; split at h <;> simp at h)

theorem loopBody_returned (chunk : List Char) (p q : paletteT) (cur : Nat)
    (h : loopBody chunk p cur = .error (.returned q)) : q = p := by
  unfold loopBody at h
  split at h
  · split at h
    · simp only [Except.error.injEq, LoadResult.returned.injEq] at h
      exact h.symm
    · cases hq : parseColorLine chunk p cur with
      | error e =>
        simp only [hq, Except.error.injEq] at h
        subst h
        exact absurd hq (parseColorLine_ne_returned chunk p cur q)
      | ok q' => simp [hq] at h
  · simp at h

theorem readLines_inv (fuel : Nat) :
    ∀ (fp : List Char) (p q : paletteT) (cur : Nat), loopInv p cur →
      readLines fuel fp p cur = .returned q → paletteInv q := by
  induction fuel with
  | zero => intro fp p q cur _ h; simp [readLines] at h
  | succ n ih =>
    intro fp p q cur hinv h
    simp only [readLines] at h
    cases hf : fgets 1048 fp with
    | none =>
      simp only [hf, LoadResult.returned.injEq] at h
      subst h
      exact hinv.1
    | some r =>
      obtain ⟨chunk, fp1⟩ := r
      simp only [hf] at h
      cases hb : loopBody chunk p cur with
      | error e =>
        simp only [hb] at h
        subst h
        rw [loopBody_returned chunk p q cur hb]
        exact hinv.1
      | ok st =>
        obtain ⟨p', c'⟩ := st
        simp only [hb] at h
        exact ih fp1 p' q c' (loopBody_ok_inv chunk p p' cur c' hinv hb) h

/-- C14.  Whenever the call on a palette with `numColors = 0` returns, the palette it
leaves has `0 ≤ numColors ≤ 2048` and every colour below `numColors` has its channels in
0..255; the loop invariant (this, with `currentColor = numColors`) is kept by every pass
of the loop body that goes on to the next line. -/
theorem C14_palette_invariant (file : Option (List Char)) (p0 q : paletteT)
    (hp0 : p0.numColors = 0) (hret : loadGimpPalette file p0 = .returned q) :
    (0 ≤ q.numColors ∧ q.numColors ≤ 2048
        ∧ ∀ i : Nat, (i : Int) < q.numColors →
          (0 ≤ (q.colors i).r ∧ (q.colors i).r ≤ 255) ∧ (0 ≤ (q.colors i).g ∧ (q.colors i).g ≤ 255)
            ∧ (0 ≤ (q.colors i).b ∧ (q.colors i).b ≤ 255))
      ∧ ∀ (chunk : List Char) (p p' : paletteT) (cur cur' : Nat),
          loopInv p cur → loopBody chunk p cur = .ok (p', cur') → loopInv p' cur' := by
  refine ⟨?_, loopBody_ok_inv⟩
  have hinv0 : loopInv p0 0 := by
    refine ⟨⟨by omega, ?_, ?_⟩, by simp [hp0]⟩
    · rw [hp0]
      exact Int.natCast_nonneg _
    · intro i hi
      omega
  have hq : paletteInv q := by
    unfold loadGimpPalette at hret
    cases file with
    | none => simp at hret
    | some fp =>
      simp only at hret
      cases hf : fgets 1048 fp with
      | none => simp [hf] at hret
      | some r =>
        obtain ⟨chunk, fp1⟩ := r
        simp only [hf] at hret
        split at hret
        · exact readLines_inv _ fp1 p0 q 0 hinv0 hret
        · simp at hret
  obtain ⟨h0, h1, hcol⟩ := hq
  refine ⟨h0, ?_, hcol⟩
  unfold MAX_PALETTE_COLORS at h1
  exact_mod_cast h1

theorem C14_palette_invariant_witness :
    (0 ≤ (pushAll emptyPalette 0 (coloursOf [GplLine.colour ⟨[], "10".toList, " ".toList,
          "20".toList, " ".toList, "30".toList, []⟩])).numColors
        ∧ (pushAll emptyPalette 0 (coloursOf [GplLine.colour ⟨[], "10".toList, " ".toList,
          "20".toList, " ".toList, "30".toList, []⟩])).numColors ≤ 2048
        ∧ ∀ i : Nat, (i : Int) < (pushAll emptyPalette 0 (coloursOf [GplLine.colour ⟨[],
            "10".toList, " ".toList, "20".toList, " ".toList, "30".toList, []⟩])).numColors →
          (0 ≤ ((pushAll emptyPalette 0 (coloursOf [GplLine.colour ⟨[], "10".toList,
              " ".toList, "20".toList, " ".toList, "30".toList, []⟩])).colors i).r
            ∧ ((pushAll emptyPalette 0 (coloursOf [GplLine.colour ⟨[], "10".toList,
              " ".toList, "20".toList, " ".toList, "30".toList, []⟩])).colors i).r ≤ 255)
          ∧ (0 ≤ ((pushAll emptyPalette 0 (coloursOf [GplLine.colour ⟨[], "10".toList,
              " ".toList, "20".toList, " ".toList, "30".toList, []⟩])).colors i).g
            ∧ ((pushAll emptyPalette 0 (coloursOf [GplLine.colour ⟨[], "10".toList,
              " ".toList, "20".toList, " ".toList, "30".toList, []⟩])).colors i).g ≤ 255)
          ∧ (0 ≤ ((pushAll emptyPalette 0 (coloursOf [GplLine.colour ⟨[], "10".toList,
              " ".toList, "20".toList, " ".toList, "30".toList, []⟩])).colors i).b
            ∧ ((pushAll emptyPalette 0 (coloursOf [GplLine.colour ⟨[], "10".toList,
              " ".toList, "20".toList, " ".toList, "30".toList, []⟩])).colors i).b ≤ 255))
      ∧ ∀ (chunk : List Char) (p p' : paletteT) (cur cur' : Nat),
          loopInv p cur → loopBody chunk p cur = .ok (p', cur') → loopInv p' cur' :=
  C14_palette_invariant
    (some ("GIMP Palette".toList ++ [] ++ '\n' :: (renderLines [GplLine.colour ⟨[],
      "10".toList, " ".toList, "20".toList, " ".toList, "30".toList, []⟩] ++ [])))
    emptyPalette _ rfl
    ((loadGimpPalette_lines [] [GplLine.colour ⟨[], "10".toList, " ".toList, "20".toList,
        " ".toList, "30".toList, []⟩] [] emptyPalette (by decide)
      (by
        intro l hl
        simp only [List.mem_singleton] at hl
        subst hl
        refine ⟨⟨by decide, ⟨by decide, by decide⟩, by decide, by decide, by decide,
          ⟨by decide, by decide⟩, by decide, by decide, by decide, ⟨by decide, by decide⟩,
          by decide, by decide, ?_⟩, by decide⟩
        intro x hx
        simp at hx)
      (by decide) (by decide)).trans (readLines_nil _ _))

/-! ## Theorems: byte order, lengths and normalisation -/

/-- The bytes of the archive from an offset inside entry `i` on. -/
theorem archive_drop (hdr : List Nat) (hhdr : hdr.length = 12) (colors : Nat → paletteColorT)
    (N i j : Nat) (hi : i < N) :
    (hdr ++ ((List.range N).map colors).flatMap entryBytes).drop (12 + 40 * i + j)
      = (entryBytes (colors i)
          ++ (((List.range N).map colors).drop (i + 1)).flatMap entryBytes).drop j := by
  have e1 : 12 + 40 * i + j = 12 + (40 * i + j) := by ring
  rw [e1, ← List.drop_drop, List.drop_left' hhdr, ← List.drop_drop, drop_flatMap_entryBytes]
  have hlen : i < ((List.range N).map colors).length := by simpa using hi
  rw [List.drop_eq_getElem_cons hlen]
  simp

theorem header_length (N : Nat) :
    ([0x41, 0x53, 0x45, 0x46] ++ [0x00, 0x01, 0x00, 0x00] ++ be32 N).length = 12 := by
  simp [be32]

/-- C15.  For every palette with `0 ≤ numColors ≤ 2048` and channels in 0..255 the bytes
`saveAse` writes on a little-endian host, where `int32ToBigEndian` swaps, and on a
big-endian host, where it does not, are the same; the colour count and every float
channel word stand most significant byte first. -/
theorem C15_host_byte_order (fuel : Nat) (palette : paletteT) (N : Nat) (hfuel : 9 ≤ fuel)
    (hN : palette.numColors = (N : Int)) (hcap : N ≤ 2048)
    (hch : ∀ i, i < N → validColor (palette.colors i)) :
    machineIsLittleEndian true = 1 ∧ machineIsLittleEndian false = 0
      ∧ saveAse true fuel palette = saveAse false fuel palette
      ∧ ∃ out, saveAse true fuel palette = some out ∧ saveAse false fuel palette = some out
        ∧ (out.drop 8).take 4 = be32 N
        ∧ ∀ i, i < N →
          (out.drop (12 + 40 * i + 26)).take 12
            = be32 (ieee754Single (((palette.colors i).r : ℚ) / 255))
              ++ be32 (ieee754Single (((palette.colors i).g : ℚ) / 255))
              ++ be32 (ieee754Single (((palette.colors i).b : ℚ) / 255)) := by
  have ht := saveAse_all true fuel hfuel palette N hN hcap hch
  have hf := saveAse_all false fuel hfuel palette N hN hcap hch
  refine ⟨by decide, by decide, by rw [ht, hf], _, ht, hf, ?_, ?_⟩
  · have hhdr8 : ([0x41, 0x53, 0x45, 0x46] ++ [0x00, 0x01, 0x00, 0x00] : List Nat).length = 8 := rfl
    rw [List.append_assoc, List.append_assoc, ← List.append_assoc [0x41, 0x53, 0x45, 0x46],
      List.drop_left' hhdr8]
    simp [be32]
  · intro i hi
    rw [archive_drop _ (header_length N) palette.colors N i 26 hi, entryBytes_split,
      List.append_assoc, List.drop_left' (entryHead_length _)]
    simp [be32]

theorem C15_host_byte_order_witness :
    machineIsLittleEndian true = 1 ∧ machineIsLittleEndian false = 0
      ∧ saveAse true 9 examplePalette = saveAse false 9 examplePalette
      ∧ ∃ out, saveAse true 9 examplePalette = some out ∧ saveAse false 9 examplePalette = some out
        ∧ (out.drop 8).take 4 = be32 2
        ∧ ∀ i, i < 2 →
          (out.drop (12 + 40 * i + 26)).take 12
            = be32 (ieee754Single (((examplePalette.colors i).r : ℚ) / 255))
              ++ be32 (ieee754Single (((examplePalette.colors i).g : ℚ) / 255))
              ++ be32 (ieee754Single (((examplePalette.colors i).b : ℚ) / 255)) :=
  C15_host_byte_order 9 examplePalette 2 (by decide) rfl (by decide)
    (by unfold validColor; decide)

/-- C17.  For every palette of N ≤ 2048 colours with channels in 0..255, values below 16
included, the output of `saveAse` is 12 + 40 N bytes long, and every entry is the marker
`00 01`, the block length `00 00 00 22` and then as many bytes as that length declares,
34. -/
theorem C17_entry_length (le : Bool) (fuel : Nat) (palette : paletteT) (N : Nat)
    (hfuel : 9 ≤ fuel) (hN : palette.numColors = (N : Int)) (hcap : N ≤ 2048)
    (hch : ∀ i, i < N → validColor (palette.colors i)) :
    beWord RGB_PAL_LENGTH = 34
      ∧ (∃ out, saveAse le fuel palette = some out ∧ out.length = 12 + 40 * N)
      ∧ ∀ i, i < N → ∃ body,
          writeRBGPaletteValue le fuel (palette.colors i).r (palette.colors i).g
              (palette.colors i).b = some (COLOR_START ++ RGB_PAL_LENGTH ++ body)
            ∧ body.length = beWord RGB_PAL_LENGTH := by
  refine ⟨by decide, ⟨_, saveAse_all le fuel hfuel palette N hN hcap hch, ?_⟩, ?_⟩
  · rw [List.length_append, flatMap_entryBytes_length, header_length]
    simp
  · intro i hi
    have hc := hch i hi
    refine ⟨([0x00, 0x07] ++ (nameUnits (palette.colors i).r.toNat
        ++ nameUnits (palette.colors i).g.toNat ++ nameUnits (palette.colors i).b.toNat)
        ++ [0x00, 0x00] ++ [0x52, 0x47, 0x42, 0x20]
        ++ (be32 (ieee754Single (((palette.colors i).r : ℚ) / 255))
          ++ be32 (ieee754Single (((palette.colors i).g : ℚ) / 255))
          ++ be32 (ieee754Single (((palette.colors i).b : ℚ) / 255))) ++ [0x00, 0x00]), ?_, ?_⟩
    · rw [writeRBGPaletteValue_all le fuel hfuel (palette.colors i) hc.1 hc.2.1 hc.2.2]
      simp [entryBytes, COLOR_START, RGB_PAL_LENGTH]
    · have h34 : beWord RGB_PAL_LENGTH = 34 := by decide
      rw [h34]
      simp [nameUnits_length, be32]

theorem C17_entry_length_witness :
    beWord RGB_PAL_LENGTH = 34
      ∧ (∃ out, saveAse true 9 (paletteOfList [⟨0, 10, 255⟩]) = some out
          ∧ out.length = 12 + 40 * 1)
      ∧ ∀ i, i < 1 → ∃ body,
          writeRBGPaletteValue true 9 ((paletteOfList [⟨0, 10, 255⟩]).colors i).r
              ((paletteOfList [⟨0, 10, 255⟩]).colors i).g
              ((paletteOfList [⟨0, 10, 255⟩]).colors i).b
            = some (COLOR_START ++ RGB_PAL_LENGTH ++ body)
            ∧ body.length = beWord RGB_PAL_LENGTH :=
  C17_entry_length true 9 (paletteOfList [⟨0, 10, 255⟩]) 1 (by decide) rfl (by decide)
    (by unfold validColor; decide)

set_option maxRecDepth 100000 in
theorem shift_table :
    ∀ c : Nat, c < 256 → 1 ≤ c →
      ((normDown 9 (channelToFloat (c : Int)) 0).bind (fun r => normUp 9 r.1 r.2)).any
        (fun r => decide (1 ≤ r.1 ∧ r.1 < 2 ∧ -8 ≤ r.2 ∧ r.2 ≤ 0)) = true := by
  decide!

/-- C18.  For every non-zero rational `f` the two normalisation loops of `pack754`, given
enough fuel, return a `fnorm` with `1 ≤ fnorm < 2` and a `shift` with
`|f| = fnorm * 2 ^ shift`; for the values the encoder packs, `(float)c / 255` with
`1 ≤ c ≤ 255`, nine passes are enough and `shift` lies in [-8, 0], so that the biased
exponent `shift + 127` lies in [119, 127]. -/
theorem C18_normalisation (f : ℚ) (hf : f ≠ 0) :
    (∃ fuel₀ : Nat, ∀ fuel, fuel₀ ≤ fuel → ∃ (r : ℚ × Int) (fnorm : ℚ) (shift : Int),
        normDown fuel (if f < 0 then -f else f) 0 = some r
          ∧ normUp fuel r.1 r.2 = some (fnorm, shift)
          ∧ 1 ≤ fnorm ∧ fnorm < 2 ∧ |f| = fnorm * (2 : ℚ) ^ shift)
      ∧ ∀ (c fuel : Nat), 1 ≤ c → c ≤ 255 → 9 ≤ fuel → ∃ (r : ℚ × Int) (fnorm : ℚ) (shift : Int),
          normDown fuel (channelToFloat (c : Int)) 0 = some r
            ∧ normUp fuel r.1 r.2 = some (fnorm, shift)
            ∧ 1 ≤ fnorm ∧ fnorm < 2 ∧ -8 ≤ shift ∧ shift ≤ 0
            ∧ 119 ≤ shift + 127 ∧ shift + 127 ≤ 127 := by
  constructor
  · have habs : (if f < 0 then -f else f) = |f| := by
      split
      · rename_i h
        rw [abs_of_neg h]
      · rename_i h
        rw [abs_of_nonneg (not_lt.mp h)]
    have hpos : 0 < |f| := abs_pos.mpr hf
    obtain ⟨e, he1, he2⟩ := exists_mem_Ico_zpow hpos (by norm_num : (1 : ℚ) < 2)
    have h2e : (0 : ℚ) < (2 : ℚ) ^ e := zpow_pos (by norm_num) e
    have hx1 : 1 ≤ |f| / (2 : ℚ) ^ e := by
      rw [le_div_iff₀ h2e]
      simpa using he1
    have hx2 : |f| / (2 : ℚ) ^ e < 2 := by
      rw [div_lt_iff₀ h2e]
      have : (2 : ℚ) ^ (e + 1) = 2 * 2 ^ e := by
        rw [zpow_add₀ (by norm_num : (2 : ℚ) ≠ 0), zpow_one]
        ring
      rw [← this]
      exact he2
    have hmul : |f| / (2 : ℚ) ^ e * (2 : ℚ) ^ e = |f| := by
      field_simp
    refine ⟨e.natAbs + 1, ?_⟩
    intro fuel hfuel
    obtain ⟨r, hr1, hr2⟩ := normalise_zpow fuel (|f| / (2 : ℚ) ^ e) e hx1 hx2 (by omega)
    rw [hmul] at hr1
    exact ⟨r, |f| / (2 : ℚ) ^ e, e, by rw [habs]; exact hr1, hr2, hx1, hx2, hmul.symm⟩
  · intro c fuel hc1 hc2 hfuel
    have ht := shift_table c (by omega) hc1
    cases h1 : normDown 9 (channelToFloat (c : Int)) 0 with
    | none => simp [h1] at ht
    | some r =>
      cases h2 : normUp 9 r.1 r.2 with
      | none => simp [h1, h2] at ht
      | some r2 =>
        obtain ⟨fnorm, shift⟩ := r2
        simp only [h1, Option.some_bind, h2, Option.any_some, decide_eq_true_eq] at ht
        exact ⟨r, fnorm, shift, normDown_mono h1 hfuel, normUp_mono h2 hfuel, ht.1, ht.2.1,
          ht.2.2.1, ht.2.2.2, by omega, by omega⟩

theorem C18_normalisation_witness :
    (∃ fuel₀ : Nat, ∀ fuel, fuel₀ ≤ fuel → ∃ (r : ℚ × Int) (fnorm : ℚ) (shift : Int),
        normDown fuel (if (184 / 255 : ℚ) < 0 then -(184 / 255 : ℚ) else (184 / 255 : ℚ)) 0
            = some r
          ∧ normUp fuel r.1 r.2 = some (fnorm, shift)
          ∧ 1 ≤ fnorm ∧ fnorm < 2 ∧ |(184 / 255 : ℚ)| = fnorm * (2 : ℚ) ^ shift)
      ∧ ∀ (c fuel : Nat), 1 ≤ c → c ≤ 255 → 9 ≤ fuel → ∃ (r : ℚ × Int) (fnorm : ℚ) (shift : Int),
          normDown fuel (channelToFloat (c : Int)) 0 = some r
            ∧ normUp fuel r.1 r.2 = some (fnorm, shift)
            ∧ 1 ≤ fnorm ∧ fnorm < 2 ∧ -8 ≤ shift ∧ shift ≤ 0
            ∧ 119 ≤ shift + 127 ∧ shift + 127 ≤ 127 :=
  C18_normalisation (184 / 255) (by norm_num)

/-- C19 (the code at a failing input).  On a little-endian host `int32ToBigEndian` of
0x80000000 is 0xFFFFFF80, not the byte reversal 0x00000080: `value >> 24` on a negative
`int32_t` fills the upper three bytes with ones and is not masked, so `fwrite` stores
`80 FF FF FF` where the big-endian bytes are `80 00 00 00`.  For 0x12345678 the result is
the reversal 0x78563412, and on a big-endian host the value is returned unchanged. -/
theorem C19_int32ToBigEndian_negative :
    int32ToBigEndian true 0x80000000 = 0xFFFFFF80
      ∧ storeInt32 true (int32ToBigEndian true 0x80000000) = [0x80, 0xFF, 0xFF, 0xFF]
      ∧ be32 0x80000000 = [0x80, 0x00, 0x00, 0x00]
      ∧ sar32 0x80000000 24 = 0xFFFFFF80
      ∧ int32ToBigEndian true 0x12345678 = 0x78563412
      ∧ int32ToBigEndian false 0x80000000 = 0x80000000 :=
  ⟨by decide, by decide, by decide, by decide, by decide, rfl⟩

/-! ## Theorems: the initial palette and the file name -/

/-- C16 (the code at a failing input).  `loadGimpPalette` never sets `numColors` before it
counts: on the file `GIMP Palette`, `10 20 30` a palette that enters with `numColors = 5`
leaves with `numColors = 6`, a palette that enters with 0 leaves with 1; both calls
return and both store the colour at index 0, the position `currentColor` counts from. -/
theorem C16_numColors_not_initialised :
    ∃ p q,
      loadGimpPalette (some "GIMP Palette\n10 20 30\n".toList)
          { numColors := 5, colors := fun _ => ⟨0, 0, 0⟩ } = .returned p
        ∧ loadGimpPalette (some "GIMP Palette\n10 20 30\n".toList) emptyPalette = .returned q
        ∧ p.numColors = 6 ∧ q.numColors = 1
        ∧ p.colors 0 = ⟨10, 20, 30⟩ ∧ q.colors 0 = ⟨10, 20, 30⟩ :=
  ⟨_, _, rfl, rfl, rfl, rfl, rfl, rfl⟩

/-- A format without `%` is copied as it stands. -/
theorem sprintfNoArgs_plain (s : List Char) (h : '%' ∉ s) : sprintfNoArgs s = some s := by
  induction s with
  | nil => rfl
  | cons c t ih =>
    have hc : c ≠ '%' := fun e => h (by simp [e])
    have ht : '%' ∉ t := fun e => h (by simp [e])
    cases t with
    | nil => rw [sprintfNoArgs, if_neg hc]
    | cons d rest =>
      rw [sprintfNoArgs, if_neg hc, ih ht]
      rfl

/-- For a name of four characters or more whose last four hold no `%`, and a buffer that
is large enough, the name is kept when it ends in `.ase` or `.ASE` and gets `.ase`
appended otherwise. -/
theorem addAseFileEndingIfMmissing_plain (filename : List Char) (size : Nat)
    (hlen : 4 ≤ filename.length) (hfmt : '%' ∉ filename.drop (filename.length - 4))
    (hsize : filename.length + 5 ≤ size) :
    addAseFileEndingIfMmissing filename size
      = some (if filename.drop (filename.length - 4) = ".ase".toList
                ∨ filename.drop (filename.length - 4) = ".ASE".toList
              then filename else filename ++ ".ase".toList) := by
  have hlen2 : ¬ filename.length < 4 := by omega
  simp only [addAseFileEndingIfMmissing, if_neg hlen2, sprintfNoArgs_plain _ hfmt]
  by_cases h : filename.drop (filename.length - 4) = ".ase".toList
      ∨ filename.drop (filename.length - 4) = ".ASE".toList
  · have h2 : ¬ (filename.drop (filename.length - 4) ≠ ".ase".toList
        ∧ filename.drop (filename.length - 4) ≠ ".ASE".toList) := by
      rcases h with h | h <;> simp [h]
    simp only [if_neg h2, if_pos h]
    rw [if_pos (by omega)]
  · have h2 : filename.drop (filename.length - 4) ≠ ".ase".toList
        ∧ filename.drop (filename.length - 4) ≠ ".ASE".toList := by
      constructor <;> intro e <;> exact h (by simp [e])
    simp only [if_pos h2, if_neg h]
    rw [if_pos (by simp; omega)]

/-- C20 (the code at a failing input).  For the name `out%s` the last four characters
`ut%s` are the format of `sprintf(fileNameEnding, filename+fileNameEndingPosition)`: `%s`
reads an argument that was not passed, undefined behaviour, where the claim has `out%s.ase`
written; the two sibling calls pass the name through `"%s"`.  Names without `%` in the
last four characters come out as claimed when the buffer is large enough, but the buffer
`main` allocates, `strlen + 4` bytes, is one byte short for a name that gets `.ase`
appended. -/
theorem C20_format_string :
    addAseFileEndingIfMmissing "out%s".toList 64 = none
      ∧ "out%s".toList.drop ("out%s".toList.length - 4) = "ut%s".toList
      ∧ sprintfNoArgs "ut%s".toList = none
      ∧ sprintfNoArgs "t%s".toList = none
      ∧ addAseFileEndingIfMmissing "pal.ase".toList 64 = some "pal.ase".toList
      ∧ addAseFileEndingIfMmissing "PAL.ASE".toList 64 = some "PAL.ASE".toList
      ∧ addAseFileEndingIfMmissing "palette".toList 64 = some "palette.ase".toList
      ∧ addAseFileEndingIfMmissing "palette".toList (paletteNameSize "palette".toList) = none
      ∧ addAseFileEndingIfMmissing "pal.ase".toList (paletteNameSize "pal.ase".toList)
          = some "pal.ase".toList := by
  decide

/-! ## Theorems: the stores of the loop -/

theorem readLinesTrace_result (fuel : Nat) :
    ∀ (fp : List Char) (p : paletteT) (cur : Nat),
      (readLinesTrace fuel fp p cur).2 = readLines fuel fp p cur := by
  induction fuel with
  | zero => intro fp p cur; rfl
  | succ n ih =>
    intro fp p cur
    simp only [readLinesTrace, readLines]
    cases hf : fgets 1048 fp with
    | none => rfl
    | some r =>
      obtain ⟨chunk, fp1⟩ := r
      simp only
      cases hb : loopBody chunk p cur with
      | error e => rfl
      | ok st =>
        obtain ⟨p', c'⟩ := st
        exact ih fp1 p' c'

theorem loadGimpPaletteTrace_result (file : Option (List Char)) (p : paletteT) :
    (loadGimpPaletteTrace file p).2 = loadGimpPalette file p := by
  unfold loadGimpPaletteTrace loadGimpPalette
  cases file with
  | none => rfl
  | some fp =>
    simp only
    cases hf : fgets 1048 fp with
    | none => rfl
    | some r =>
      obtain ⟨chunk, fp1⟩ := r
      simp only
      split
      · exact readLinesTrace_result _ fp1 p 0
      · rfl

/-- The model's out-of-bounds branch: a pass that stores past the array is undefined
behaviour. -/
theorem loopBody_storeOutOfBounds (chunk : List Char) (p : paletteT) (cur : Nat)
    (h : storeOutOfBounds chunk p cur = true) : loopBody chunk p cur = .error .undefined := by
  unfold storeOutOfBounds reachesStore at h
  simp only [Bool.and_eq_true, decide_eq_true_eq, Bool.not_eq_true', decide_eq_false_iff_not]
    at h
  obtain ⟨⟨⟨hhead, hfull⟩, hstore⟩, hcur⟩ := h
  unfold loopBody
  rw [if_pos hhead, if_neg hfull]
  unfold parseColorLine
  cases hs : strtok (cstr chunk) [' ', '\t'] with
  | none => rfl
  | some r =>
    obtain ⟨tokR, s1⟩ := r
    simp only [hs] at hstore
    cases ha : atoi tokR with
    | none => simp [ha] at hstore
    | some v => simp only [ha, if_pos hcur]

/-- The out-of-bounds branch is there to be taken: a pass on the line `1 2 3` with
`currentColor = 2048` stores past the array. -/
theorem storeOutOfBounds_reachable :
    storeOutOfBounds "1 2 3\n".toList emptyPalette 2048 = true := by
  decide

theorem readLinesTrace_inv (fuel : Nat) :
    ∀ (fp : List Char) (p : paletteT) (cur : Nat), loopInv p cur →
      ∀ chunk q c, (chunk, q, c) ∈ (readLinesTrace fuel fp p cur).1 → loopInv q c := by
  induction fuel with
  | zero =>
    intro fp p cur _ chunk q c h
    simp [readLinesTrace] at h
  | succ n ih =>
    intro fp p cur hinv chunk q c h
    simp only [readLinesTrace] at h
    cases hf : fgets 1048 fp with
    | none => simp [hf] at h
    | some r =>
      obtain ⟨chunk1, fp1⟩ := r
      simp only [hf] at h
      cases hb : loopBody chunk1 p cur with
      | error e =>
        simp only [hb, List.mem_singleton, Prod.mk.injEq] at h
        obtain ⟨_, hq, hc⟩ := h
        subst hq
        subst hc
        exact hinv
      | ok st =>
        obtain ⟨p', c'⟩ := st
        simp only [hb, List.mem_cons, Prod.mk.injEq] at h
        rcases h with ⟨_, hq, hc⟩ | h
        · subst hq
          subst hc
          exact hinv
        · exact ih fp1 p' c' (loopBody_ok_inv chunk1 p p' cur c' hinv hb) chunk q c h

/-- C21.  For every file and every palette that enters with `numColors = 0`: the record
of the passes ends the way `loadGimpPalette` ends, at the start of every pass of the loop
`currentColor` equals `numColors`, every pass that gets to the store into
`palette->colors[currentColor]` has `currentColor < MAX_PALETTE_COLORS`, and no pass
stores past the array. -/
theorem C21_store_in_bounds (file : Option (List Char)) (p0 : paletteT)
    (hp0 : p0.numColors = 0) :
    (loadGimpPaletteTrace file p0).2 = loadGimpPalette file p0
      ∧ loadGimpPalette file p0 ≠ .outOfFuel
      ∧ ∀ chunk p currentColor, (chunk, p, currentColor) ∈ (loadGimpPaletteTrace file p0).1 →
          (currentColor : Int) = p.numColors
            ∧ (reachesStore chunk p = true → 0 ≤ currentColor ∧ currentColor < MAX_PALETTE_COLORS)
            ∧ storeOutOfBounds chunk p currentColor = false := by
  refine ⟨loadGimpPaletteTrace_result file p0, loadGimpPalette_ne_outOfFuel file p0, ?_⟩
  intro chunk p cur hmem
  have hinv0 : loopInv p0 0 := by
    refine ⟨⟨by omega, ?_, ?_⟩, by simp [hp0]⟩
    · rw [hp0]
      exact Int.natCast_nonneg _
    · intro i hi
      omega
  have hinv : loopInv p cur := by
    unfold loadGimpPaletteTrace at hmem
    cases file with
    | none => simp at hmem
    | some fp =>
      simp only at hmem
      cases hf : fgets 1048 fp with
      | none => simp [hf] at hmem
      | some r =>
        obtain ⟨chunk0, fp1⟩ := r
        simp only [hf] at hmem
        split at hmem
        · exact readLinesTrace_inv _ fp1 p0 0 hinv0 chunk p cur hmem
        · simp at hmem
  have hstore : reachesStore chunk p = true → cur < MAX_PALETTE_COLORS := by
    intro h
    unfold reachesStore at h
    simp only [Bool.and_eq_true, decide_eq_true_eq, Bool.not_eq_true',
      decide_eq_false_iff_not] at h
    have hfull := h.1.2
    have hc := hinv.2
    unfold MAX_PALETTE_COLORS at hfull ⊢
    push_cast at hfull
    omega
  refine ⟨hinv.2, fun h => ⟨Nat.zero_le _, hstore h⟩, ?_⟩
  cases hr : reachesStore chunk p with
  | false => simp [storeOutOfBounds, hr]
  | true =>
    have := hstore hr
    simp only [storeOutOfBounds, hr, Bool.true_and, decide_eq_false_iff_not]
    omega

theorem C21_store_in_bounds_witness :
    ((loadGimpPaletteTrace (some "GIMP Palette\n# c\n10 20 30\n4 5 6\n".toList) emptyPalette).1.map
        (fun s => (s.1, s.2.2, reachesStore s.1 s.2.1))
        = [("# c\n".toList, 0, false), ("10 20 30\n".toList, 0, true),
            ("4 5 6\n".toList, 1, true)])
      ∧ (loadGimpPaletteTrace (some "GIMP Palette\n# c\n10 20 30\n4 5 6\n".toList)
            emptyPalette).2
          = loadGimpPalette (some "GIMP Palette\n# c\n10 20 30\n4 5 6\n".toList) emptyPalette
      ∧ loadGimpPalette (some "GIMP Palette\n# c\n10 20 30\n4 5 6\n".toList) emptyPalette
          ≠ .outOfFuel
      ∧ ∀ chunk p currentColor,
          (chunk, p, currentColor)
              ∈ (loadGimpPaletteTrace (some "GIMP Palette\n# c\n10 20 30\n4 5 6\n".toList)
                  emptyPalette).1 →
          (currentColor : Int) = p.numColors
            ∧ (reachesStore chunk p = true → 0 ≤ currentColor ∧ currentColor < MAX_PALETTE_COLORS)
            ∧ storeOutOfBounds chunk p currentColor = false :=
  ⟨by decide, C21_store_in_bounds (some "GIMP Palette\n# c\n10 20 30\n4 5 6\n".toList)
    emptyPalette rfl⟩

end GPL2ASE
